import Mathlib

/-!
# aufs mount options (fs/aufs/opts.c)

A shallow embedding of the mount-option compiler of aufs: the token tables, the
branch-permission and policy codecs, the option parser `au_opts_parse` with the
resources it acquires, and `au_opts_free`.

C strings are lists of characters (the terminating NUL is the end of the list).
A pointer into a string is the suffix that starts there.  The routines of the
kernel library that opts.c calls (`strchr`, `strsep`, `simple_strtol`,
`kstrtoull`, `match_token`, `match_int`) are embedded from lib/string.c,
lib/vsprintf.c, lib/kstrtox.c and lib/parser.c.
-/

namespace Aufs

/-- A C string: the characters before the terminating NUL. -/
abbrev CStr := List Char

/-- String literal as a C string. -/
def cs (s : String) : CStr := s.data

/-! ## Build configuration -/

/-- The build of the kernel: the width of `long` (and of `size_t`), the largest
`kmalloc` size, and the two configuration switches opts.c tests. -/
structure Kconfig where
  BITS_PER_LONG : Nat
  KMALLOC_MAX_SIZE : Nat
  CONFIG_PROC_FS : Bool
  CONFIG_AUFS_DEBUG : Bool
  deriving DecidableEq, Repr

/-- A 64-bit build with procfs and aufs debugging (KMALLOC_MAX_SIZE is 4MiB). -/
def x86_64 : Kconfig := ⟨64, 4194304, true, true⟩

/-- A 32-bit build with procfs, without aufs debugging. -/
def i386 : Kconfig := ⟨32, 4194304, true, false⟩

/-- A 64-bit build without procfs and without aufs debugging. -/
def noprocfs : Kconfig := ⟨64, 4194304, false, false⟩

/-! ## errno values (include/uapi/asm-generic/errno-base.h) -/

def E2BIG : Int := 7
def ENOMEM : Int := 12
def EINVAL : Int := 22
def ERANGE : Int := 34

deriving instance DecidableEq for Except

def INT_MAX : Int := 2147483647
def INT_MIN : Int := -2147483648

/-! ## lib/string.c -/

/-- The pointer `strchr(s, c)` returns: the suffix of `s` at the first `c`, or NULL. -/
def strchr : CStr → Char → Option CStr
  | [], _ => none
  | x :: xs, c => if x = c then some (x :: xs) else strchr xs c

/-- The string `s` once the character at `strchr(s, c)` has been overwritten by
NUL: the characters before the first `c` (all of `s` when there is none). -/
def upto : CStr → Char → CStr
  | [], _ => []
  | x :: xs, c => if x = c then [] else x :: upto xs c

/-- The pointer `p + 1` for `p = strchr(s, c)`. -/
def after (s : CStr) (c : Char) : Option CStr :=
  match strchr s c with
  | some (_ :: r) => some r
  | _ => none

/-- The call `strsep(&s, ct)` for a single delimiter `c`: the returned token and
the new value of `s`.  A NULL `s` returns NULL and stays NULL. -/
def strsep (s : Option CStr) (c : Char) : Option CStr × Option CStr :=
  match s with
  | none => (none, none)
  | some str => (some (upto str c), after str c)

/-! ## lib/kstrtox.c and lib/vsprintf.c -/

/-- The kernel's `_tolower`: sets bit 0x20. -/
def _tolower (c : Char) : Nat := c.toNat ||| 0x20

def isxdigit (c : Char) : Bool :=
  (48 ≤ c.toNat && c.toNat ≤ 57) || (97 ≤ _tolower c && _tolower c ≤ 102)

/-- The value of one digit in `_parse_integer`, none for a character that is no
digit in any base up to 16. -/
def digit_val (c : Char) : Option Nat :=
  if 48 ≤ c.toNat ∧ c.toNat ≤ 57 then some (c.toNat - 48)
  else if 97 ≤ _tolower c ∧ _tolower c ≤ 102 then some (_tolower c - 97 + 10)
  else none

/-- The routine `_parse_integer_fixup_radix`: the string after an optional 0x
and the base to use. -/
def _parse_integer_fixup_radix (s : CStr) (base : Nat) : CStr × Nat :=
  let base :=
    if base = 0 then
      match s with
      | '0' :: rest =>
        (match rest with
         | x :: d :: _ => if _tolower x = 120 ∧ isxdigit d then 16 else 8
         | _ => 8)
      | _ => 10
    else base
  match s with
  | '0' :: x :: rest => if base = 16 ∧ _tolower x = 120 then (rest, base) else (s, base)
  | _ => (s, base)

/-- The loop of `_parse_integer`, started with the accumulator `res`, the digit
count `rv` and the overflow flag: the value modulo 2^64, the number of
characters consumed, and whether the value overflowed 64 bits. -/
def _parse_integer_loop (base : Nat) : CStr → Nat → Nat → Bool → Nat × Nat × Bool
  | [], res, rv, ovf => (res, rv, ovf)
  | c :: s, res, rv, ovf =>
    match digit_val c with
    | none => (res, rv, ovf)
    | some val =>
      if val ≥ base then (res, rv, ovf)
      else
        let ovf := if res &&& (15 <<< 60) ≠ 0 ∧ res > (2 ^ 64 - 1 - val) / base then true else ovf
        _parse_integer_loop base s ((res * base + val) % 2 ^ 64) (rv + 1) ovf

def _parse_integer (s : CStr) (base : Nat) : Nat × Nat × Bool :=
  _parse_integer_loop base s 0 0 false

/-- The function `simple_strtoull(cp, &endp, base)`: the value (overflow is
ignored, the result wraps) and the offset `endp - cp`. -/
def simple_strtoull (cp : CStr) (base : Nat) : Nat × Nat :=
  let (s, b) := _parse_integer_fixup_radix cp base
  let (res, rv, _) := _parse_integer s b
  (res, (cp.length - s.length) + rv)

/-- The function `simple_strtoul`: the value is converted to `unsigned long`. -/
def simple_strtoul (k : Kconfig) (cp : CStr) (base : Nat) : Nat × Nat :=
  let (v, n) := simple_strtoull cp base
  (v % 2 ^ k.BITS_PER_LONG, n)

/-- An `unsigned long` bit pattern read as `long`. -/
def to_long (k : Kconfig) (u : Nat) : Int :=
  if u % 2 ^ k.BITS_PER_LONG < 2 ^ (k.BITS_PER_LONG - 1) then (u % 2 ^ k.BITS_PER_LONG : Nat)
  else (u % 2 ^ k.BITS_PER_LONG : Nat) - (2 ^ k.BITS_PER_LONG : Nat)

/-- The function `simple_strtol(cp, &endp, base)`: a leading minus negates the
unsigned value; the result is a `long`. -/
def simple_strtol (k : Kconfig) (cp : CStr) (base : Nat) : Int × Nat :=
  match cp with
  | '-' :: rest =>
    let (v, n) := simple_strtoul k rest base
    (to_long k (2 ^ k.BITS_PER_LONG - v), n + 1)
  | _ =>
    let (v, n) := simple_strtoul k cp base
    (to_long k v, n)

/-- The offset `endp - cp` after `simple_strtol(cp, &endp, 0)`; it does not
depend on the width of `long`. -/
def strtol_len (cp : CStr) : Nat :=
  match cp with
  | '-' :: rest => (simple_strtoull rest 0).2 + 1
  | _ => (simple_strtoull cp 0).2

/-- The function `kstrtoull(s, 0, &res)`: an optional plus sign, the digits, an
optional newline and the end of the string; overflow is an error. -/
def kstrtoull (s : CStr) : Except Int Nat :=
  let s := match s with
    | '+' :: r => r
    | _ => s
  let (s1, b) := _parse_integer_fixup_radix s 0
  let (res, rv, ovf) := _parse_integer s1 b
  if ovf then .error (-ERANGE)
  else if rv = 0 then .error (-EINVAL)
  else
    let rest := s1.drop rv
    let rest := match rest with
      | '\n' :: r => r
      | _ => rest
    if rest ≠ [] then .error (-EINVAL) else .ok res

/-! ## lib/parser.c -/

/-- A matched argument (`substring_t`): the string at `from`, and `to - from`. -/
structure substring_t where
  from_ : CStr
  len : Nat
  deriving DecidableEq, Repr

/-- The characters between `from` and `to`. -/
def substring_t.piece (a : substring_t) : CStr := a.from_.take a.len

def MAX_OPT_ARGS : Nat := 3

/-- The function `match_one(s, p, args)` for a non-NULL pattern `p`, with the
arguments matched so far: literal characters of the pattern must equal those of
`s`, a conversion consumes a part of `s` (all the rest for %s, the digits
`simple_strtol` or `simple_strtoul` accept for %d, %u, %o, %x), and the pattern
and the string must end together.  No table of opts.c uses a field width
(a digit after the percent sign); such a pattern is taken as not matching. -/
def match_one : CStr → CStr → List substring_t → Option (List substring_t)
  | s, [], args => if s = [] then some args else none
  | s, c :: p, args =>
    if c ≠ '%' then
      match s with
      | [] => none
      | x :: s1 => if x = c then match_one s1 p args else none
    else
      match p with
      | [] => none
      | conv :: p1 =>
        if conv = '%' then
          match s with
          | [] => none
          | x :: s1 => if x = '%' then match_one s1 p1 args else none
        else if args.length ≥ MAX_OPT_ARGS then none
        else if conv = 's' then
          if s.length = 0 then none
          else match_one [] p1 (args ++ [⟨s, s.length⟩])
        else
          let n :=
            if conv = 'd' then strtol_len s
            else if conv = 'u' then (simple_strtoull s 0).2
            else if conv = 'o' then (simple_strtoull s 8).2
            else if conv = 'x' then (simple_strtoull s 16).2
            else 0
          if n = 0 then none
          else match_one (s.drop n) p1 (args ++ [⟨s, n⟩])

/-- The function `match_token(s, table, args)`: the token of the first entry
whose pattern matches, with the arguments of that match, or the token of the
terminating entry (whose pattern is NULL). -/
def match_token {α : Type} (s : CStr) (table : List (α × CStr)) (last : α) :
    α × List substring_t :=
  match table with
  | [] => (last, [])
  | (tok, pat) :: rest =>
    match match_one s pat [] with
    | some args => (tok, args)
    | none => match_token s rest last

/-- The function `match_int(s, &result)`: `simple_strtol` with base 0 on the
characters of the argument, then the range check of `match_number`. -/
def match_int (k : Kconfig) (a : substring_t) : Except Int Int :=
  let (val, n) := simple_strtol k a.piece 0
  if n = 0 then .error (-EINVAL)
  else if val < INT_MIN ∨ val > INT_MAX then .error (-ERANGE)
  else .ok val

/-- The argument `args[i]`; an argument the match did not set is indeterminate
and read as the empty string. -/
def arg (args : List substring_t) (i : Nat) : substring_t := args.getD i ⟨[], 0⟩

/-! ## Branch permissions (fs/aufs/opts.c, lines 82-257) -/

/-- Modelled from the spec: the permission bits and their tokens are declared
in include/uapi/linux/aufs_type.h, which is not among the sources; the bases
are ro and rw, each a bit of its own. -/
def AuBrPerm_RW : Nat := 1
/-- Modelled from the spec: the read-only base bit (aufs_type.h). -/
def AuBrPerm_RO : Nat := 1 <<< 1
/-- Modelled from the spec: the mask of the base bits (aufs_type.h). -/
def AuBrPerm_Mask : Nat := AuBrPerm_RW ||| AuBrPerm_RO
/-- Modelled from the spec: the whiteout-able attribute of a read-only branch. -/
def AuBrRAttr_WH : Nat := 1 <<< 7
/-- Modelled from the spec: the attributes legal on a read-only branch. -/
def AuBrRAttr_Mask : Nat := AuBrRAttr_WH
/-- Modelled from the spec: the no-link-whiteout attribute of a read-write branch. -/
def AuBrWAttr_NoLinkWH : Nat := 1 <<< 8
/-- Modelled from the spec: the attributes legal on a read-write branch. -/
def AuBrWAttr_Mask : Nat := AuBrWAttr_NoLinkWH
/-- Modelled from the spec: the token of the read-only base (aufs_type.h). -/
def AUFS_BRPERM_RO : CStr := cs "ro"
/-- Modelled from the spec: the token of the read-write base (aufs_type.h). -/
def AUFS_BRPERM_RW : CStr := cs "rw"
/-- Modelled from the spec: the token of the whiteout-able attribute. -/
def AUFS_BRRATTR_WH : CStr := cs "wh"
/-- Modelled from the spec: the token of the no-link-whiteout attribute. -/
def AUFS_BRWATTR_NLWH : CStr := cs "nolwh"

/-- The C expression `v & ~m` on non-negative values. -/
def andnot (v m : Nat) : Nat := v ^^^ (v &&& m)

/-- The table `brperm`; its terminating entry has token 0. -/
def brperm : List (Nat × CStr) :=
  [(AuBrPerm_RO, AUFS_BRPERM_RO), (AuBrPerm_RW, AUFS_BRPERM_RW)]

/-- The table `brattr`; its terminating entry has token 0. -/
def brattr : List (Nat × CStr) :=
  [(AuBrRAttr_WH, AUFS_BRRATTR_WH), (AuBrWAttr_NoLinkWH, AUFS_BRWATTR_NLWH)]

/-- The function `au_parser_pattern`: the pattern of the first entry with token
`val`; none stands for the BUG() after the loop. -/
def au_parser_pattern {α : Type} [DecidableEq α] (val : α) : List (α × CStr) → Option CStr
  | [] => none
  | (tok, pat) :: rest => if tok = val then some pat else au_parser_pattern val rest

/-- The scan of `au_optstr` over the table. -/
def au_optstr_scan (v : Nat) : List (Nat × CStr) → Option CStr × Nat
  | [] => (none, v)
  | (tok, pat) :: rest =>
    if tok ≠ 0 ∧ v &&& tok = tok then (some pat, andnot v tok) else au_optstr_scan v rest

/-- The function `au_optstr(&val, tbl)`: the pattern of the first entry whose
bits are all set in `val`, and `val` with those bits cleared. -/
def au_optstr (val : Nat) (tbl : List (Nat × CStr)) : Option CStr × Nat :=
  if val = 0 then (none, val) else au_optstr_scan val tbl

/-- The loop `do ... while (p)` of `br_attr_val`; every round but the last moves
`str` behind a plus sign, so the length of `str` plus one bounds the rounds. -/
def br_attr_val_loop (table : List (Nat × CStr)) : Nat → CStr → Nat → Nat
  | 0, _, attr => attr
  | fuel + 1, str, attr =>
    let v := (match_token (upto str '+') table 0).1
    if v ≠ 0 then
      match after str '+' with
      | some rest => br_attr_val_loop table fuel rest (attr ||| v)
      | none => attr ||| v
    else attr

/-- The function `br_attr_val(str, table, args)`. -/
def br_attr_val (str : CStr) (table : List (Nat × CStr)) : Nat :=
  br_attr_val_loop table (str.length + 1) str 0

/-- The loop `do ... while (p)` of `au_do_optstr_br_attr`; every round clears a
set bit of `perm`. -/
def au_do_optstr_br_attr_loop : Nat → Nat → CStr → CStr
  | 0, _, q => q
  | fuel + 1, perm, q =>
    match au_optstr perm brattr with
    | (some p, perm1) => au_do_optstr_br_attr_loop fuel perm1 (q ++ '+' :: p)
    | (none, _) => q

/-- The function `au_do_optstr_br_attr(str, perm)`: the string written to
`str->a`; the returned size is its length. -/
def au_do_optstr_br_attr (perm : Nat) : CStr :=
  match au_optstr perm brattr with
  | (some p, perm1) => au_do_optstr_br_attr_loop (perm1 + 1) perm1 p
  | (none, _) => []

/-- The function `br_perm_val(perm)`; the warnings it prints are left out. -/
def br_perm_val (perm : CStr) : Nat :=
  let p := after perm '+'
  let val := (match_token (upto perm '+') brperm 0).1
  if val = 0 then AuBrPerm_RO
  else
    match p with
    | none => val
    | some attrs =>
      let val := val ||| br_attr_val attrs brattr
      if val &&& AuBrPerm_Mask = AuBrPerm_RO then andnot val AuBrWAttr_Mask
      else if val &&& AuBrPerm_Mask = AuBrPerm_RW then andnot val AuBrRAttr_Mask
      else val

/-- The function `au_optstr_br_perm(str, perm)`: the string written to
`str->a`; none when no base bit is set (`p` is NULL, AuDebugOn fires). -/
def au_optstr_br_perm (perm : Nat) : Option CStr :=
  match au_optstr perm brperm with
  | (some p, perm1) =>
    let attr := au_do_optstr_br_attr perm1
    if attr.length ≠ 0 then some (p ++ '+' :: attr) else some p
  | (none, _) => none

/-! ## Writable-branch policies (fs/aufs/opts.c, lines 259-401; fs/aufs/opts.h) -/

def AuWbrCreate_TDP : Int := 0
def AuWbrCreate_RR : Int := 1
def AuWbrCreate_MFS : Int := 2
def AuWbrCreate_MFSV : Int := 3
def AuWbrCreate_MFSRR : Int := 4
def AuWbrCreate_MFSRRV : Int := 5
def AuWbrCreate_PMFS : Int := 6
def AuWbrCreate_PMFSV : Int := 7
def AuWbrCreate_PMFSRR : Int := 8
def AuWbrCreate_PMFSRRV : Int := 9

def AuWbrCopyup_TDP : Int := 0
def AuWbrCopyup_BUP : Int := 1
def AuWbrCopyup_BU : Int := 2

/-- Modelled from the spec: the default of the seconds parameter, declared in
include/uapi/linux/aufs_type.h, which is not among the sources. -/
def AUFS_MFS_DEF_SEC : Int := 30
/-- Modelled from the spec: the bound MAX_SECONDS of the seconds parameter
(aufs_type.h). -/
def AUFS_MFS_MAX_SEC : Int := 3600

/-- The table `au_wbr_create_policy`; its terminating entry has token -1. -/
def au_wbr_create_policy : List (Int × CStr) :=
  [(AuWbrCreate_TDP, cs "tdp"),
   (AuWbrCreate_TDP, cs "top-down-parent"),
   (AuWbrCreate_RR, cs "rr"),
   (AuWbrCreate_RR, cs "round-robin"),
   (AuWbrCreate_MFS, cs "mfs"),
   (AuWbrCreate_MFS, cs "most-free-space"),
   (AuWbrCreate_MFSV, cs "mfs:%d"),
   (AuWbrCreate_MFSV, cs "most-free-space:%d"),
   (AuWbrCreate_MFSRR, cs "mfsrr:%d"),
   (AuWbrCreate_MFSRRV, cs "mfsrr:%d:%d"),
   (AuWbrCreate_PMFS, cs "pmfs"),
   (AuWbrCreate_PMFSV, cs "pmfs:%d"),
   (AuWbrCreate_PMFSRR, cs "pmfsrr:%d"),
   (AuWbrCreate_PMFSRRV, cs "pmfsrr:%d:%d")]

/-- The table `au_wbr_copyup_policy`; its terminating entry has token -1. -/
def au_wbr_copyup_policy : List (Int × CStr) :=
  [(AuWbrCopyup_TDP, cs "tdp"),
   (AuWbrCopyup_TDP, cs "top-down-parent"),
   (AuWbrCopyup_BUP, cs "bup"),
   (AuWbrCopyup_BUP, cs "bottom-up-parent"),
   (AuWbrCopyup_BU, cs "bu"),
   (AuWbrCopyup_BU, cs "bottom-up")]

/-- The record `struct au_opt_wbr_create`.  A field that has not been written
holds whatever the union held before: it is none. -/
structure au_opt_wbr_create where
  wbr_create : Int
  mfs_second : Option Int
  mfsrr_watermark : Option Nat
  deriving DecidableEq, Repr

/-- The function `au_match_ull(s, &result)`. -/
def au_match_ull (s : substring_t) : Except Int Nat :=
  if s.len + 1 ≤ 32 then kstrtoull s.piece else .error (-ERANGE)

/-- The function `au_wbr_mfs_wmark(arg, str, create)`. -/
def au_wbr_mfs_wmark (a : substring_t) (create : au_opt_wbr_create) :
    Int × au_opt_wbr_create :=
  match au_match_ull a with
  | .ok ull => (0, { create with mfsrr_watermark := some ull })
  | .error _ => (-EINVAL, create)

/-- The function `au_wbr_mfs_sec(arg, str, create)`. -/
def au_wbr_mfs_sec (k : Kconfig) (a : substring_t) (create : au_opt_wbr_create) :
    Int × au_opt_wbr_create :=
  match match_int k a with
  | .ok n =>
    if 0 ≤ n ∧ n ≤ AUFS_MFS_MAX_SEC then (0, { create with mfs_second := some n })
    else (-EINVAL, create)
  | .error _ => (-EINVAL, create)

/-- The function `au_wbr_create_val(str, create)`: the returned value and the
record as it leaves the call. -/
def au_wbr_create_val (k : Kconfig) (str : CStr) (create : au_opt_wbr_create) :
    Int × au_opt_wbr_create :=
  let (err, args) := match_token str au_wbr_create_policy (-1)
  let create := { create with wbr_create := err }
  if err = AuWbrCreate_MFSRRV ∨ err = AuWbrCreate_PMFSRRV then
    let (e, create) := au_wbr_mfs_wmark (arg args 0) create
    let (e, create) := if e = 0 then au_wbr_mfs_sec k (arg args 1) create else (e, create)
    if e ≠ 0 then (e, create) else (err, create)
  else if err = AuWbrCreate_MFSRR ∨ err = AuWbrCreate_PMFSRR then
    let (e, create) := au_wbr_mfs_wmark (arg args 0) create
    if e ≠ 0 then (e, create)
    else (err, { create with mfs_second := some AUFS_MFS_DEF_SEC })
  else if err = AuWbrCreate_MFS ∨ err = AuWbrCreate_PMFS then
    (err, { create with mfs_second := some AUFS_MFS_DEF_SEC })
  else if err = AuWbrCreate_MFSV ∨ err = AuWbrCreate_PMFSV then
    let (e, create) := au_wbr_mfs_sec k (arg args 0) create
    if e ≠ 0 then (e, create) else (err, create)
  else (err, create)

/-- The function `au_wbr_copyup_val(str)`. -/
def au_wbr_copyup_val (str : CStr) : Int :=
  (match_token str au_wbr_copyup_policy (-1)).1

/-- The function `au_optstr_wbr_create(wbr_create)`; none stands for BUG(). -/
def au_optstr_wbr_create (wbr_create : Int) : Option CStr :=
  au_parser_pattern wbr_create au_wbr_create_policy

/-- The function `au_optstr_wbr_copyup(wbr_copyup)`; none stands for BUG(). -/
def au_optstr_wbr_copyup (wbr_copyup : Int) : Option CStr :=
  au_parser_pattern wbr_copyup au_wbr_copyup_policy

/-! ## Option records (fs/aufs/opts.c, lines 29-78; fs/aufs/opts.h) -/

/-- The anonymous enum of option types. -/
inductive Opt where
  | Opt_br | Opt_add
  | Opt_rdcache | Opt_rdblk | Opt_rdhash
  | Opt_rdblk_def | Opt_rdhash_def
  | Opt_xino | Opt_noxino
  | Opt_plink | Opt_noplink | Opt_list_plink
  | Opt_wbr_copyup | Opt_wbr_create
  | Opt_tail | Opt_ignore | Opt_ignore_silent | Opt_err
  deriving DecidableEq, Repr

open Opt

/-- The table `options`; its terminating entry has token `Opt_err`. -/
def options (k : Kconfig) : List (Opt × CStr) :=
  [(Opt_br, cs "br=%s"),
   (Opt_br, cs "br:%s"),
   (Opt_xino, cs "xino=%s"),
   (Opt_noxino, cs "noxino"),
   (if k.CONFIG_PROC_FS then Opt_plink else Opt_ignore_silent, cs "plink"),
   (Opt_noplink, cs "noplink")]
  ++ (if k.CONFIG_AUFS_DEBUG then [(Opt_list_plink, cs "list_plink")] else [])
  ++ [(Opt_rdcache, cs "rdcache=%d"),
   (Opt_rdblk, cs "rdblk=%d"),
   (Opt_rdblk_def, cs "rdblk=def"),
   (Opt_rdhash, cs "rdhash=%d"),
   (Opt_rdhash_def, cs "rdhash=def"),
   (Opt_wbr_create, cs "create=%s"),
   (Opt_wbr_create, cs "create_policy=%s"),
   (Opt_wbr_copyup, cs "cpup=%s"),
   (Opt_wbr_copyup, cs "copyup=%s"),
   (Opt_wbr_copyup, cs "copyup_policy=%s"),
   (Opt_ignore_silent, cs "si=%s"),
   (Opt_ignore_silent, cs "relatime")]

/-- A resolved `struct path`: the dentry it names and the serial number of the
reference that the lookup took. -/
structure path where
  dentry : Nat
  ref : Nat
  deriving DecidableEq, Repr

/-- An open `struct file`: the parent of its dentry, whether its dentry lies on
the superblock of the union itself, and the serial number of the reference that
the open took. -/
structure file where
  d_parent : Nat
  d_sb_is_sb : Bool
  ref : Nat
  deriving DecidableEq, Repr

/-- The record `struct au_opt_add`; `path` is none until the lookup has filled it. -/
structure au_opt_add where
  bindex : Int
  pathname : CStr
  perm : Nat
  path : Option path
  deriving DecidableEq, Repr

/-- The record `struct au_opt_xino`. -/
structure au_opt_xino where
  path : CStr
  file : file
  deriving DecidableEq, Repr

/-- The union of `struct au_opt`, by the member last written; `junk` is memory
that has not been written. -/
inductive Payload where
  | junk
  | add (a : au_opt_add)
  | xino (x : au_opt_xino)
  | rdcache (n : Int)
  | rdblk (n : Nat)
  | rdhash (n : Nat)
  | wbr_create (c : au_opt_wbr_create)
  | wbr_copyup (n : Int)
  deriving DecidableEq, Repr

/-- The record `struct au_opt`. -/
structure au_opt where
  type : Opt
  u : Payload
  deriving DecidableEq, Repr

instance : Inhabited au_opt := ⟨⟨Opt_tail, .junk⟩⟩

/-! ## Collaborators and the references they hand out -/

/-- An error pointer or error code of a collaborator: a negative errno. -/
structure Errno where
  val : Int
  neg : val < 0
  deriving DecidableEq

/-- What an open of the xino file finds, before the reference is counted. -/
structure XinoFile where
  d_parent : Nat
  d_sb_is_sb : Bool
  deriving DecidableEq, Repr

/-- The collaborators of the parser: whether `kmalloc` of the argument block
succeeds, the path lookup `vfsub_kern_path` (the dentry found), and
`au_xino_create`. -/
structure Env where
  kmalloc : Bool
  vfsub_kern_path : CStr → Except Errno Nat
  au_xino_create : CStr → Except Errno XinoFile

/-- A counted reference: a path (released by `path_put`) or a file (released by
`fput`), with its serial number. -/
inductive Handle where
  | path (ref : Nat)
  | file (ref : Nat)
  deriving DecidableEq, Repr

/-- The references taken and released so far, oldest first. -/
structure Refs where
  taken : List Handle
  put : List Handle
  deriving DecidableEq, Repr

/-- No reference taken yet. -/
def Refs.none : Refs := ⟨[], []⟩

/-- The serial number of the next reference. -/
def Refs.next (r : Refs) : Nat := r.taken.length

def Refs.take (r : Refs) (h : Handle) : Refs := { r with taken := r.taken ++ [h] }

def Refs.release (r : Refs) (h : Handle) : Refs := { r with put := r.put ++ [h] }

/-- The flag MS_RDONLY (include/uapi/linux/fs.h). -/
def MS_RDONLY : Nat := 1

/-- Modelled from the spec: the bound of rdcache, declared in
include/uapi/linux/aufs_type.h, which is not among the sources. -/
def AUFS_RDCACHE_MAX : Int := 3600

/-- The constant NAME_MAX (include/uapi/linux/limits.h). -/
def NAME_MAX : Int := 255

/-- The size of `struct hlist_head`: one pointer. -/
def sizeof_hlist_head (k : Kconfig) : Nat := k.BITS_PER_LONG / 8

/-! ## The parser (fs/aufs/opts.c, lines 405-736) -/

/-- The record `struct au_opts`: the array `opt` (its length is what the caller
allocated), its capacity `max_opt` and the mount flags. -/
structure au_opts where
  opt : List au_opt
  max_opt : Nat
  sb_flags : Nat
  deriving DecidableEq, Repr

/-- The assignment `opt[i].type = t`. -/
def set_type (a : List au_opt) (i : Nat) (t : Opt) : List au_opt :=
  a.set i { a.getD i default with type := t }

/-- The loop of `dump_opts`: false when it runs into BUG() or reads past the
end of the array. -/
def dump_opts_scan : List au_opt → Bool
  | [] => false
  | o :: rest =>
    if o.type = Opt_tail then true
    else if o.type ∈ [Opt_add, Opt_rdcache, Opt_rdblk, Opt_rdblk_def, Opt_rdhash,
        Opt_rdhash_def, Opt_xino, Opt_noxino, Opt_plink, Opt_noplink, Opt_list_plink,
        Opt_wbr_create, Opt_wbr_copyup] then dump_opts_scan rest
    else false

/-- The function `dump_opts(opts)`, empty without CONFIG_AUFS_DEBUG; what it
prints is left out. -/
def dump_opts (k : Kconfig) (opt : List au_opt) : Bool :=
  if k.CONFIG_AUFS_DEBUG then dump_opts_scan opt else true

/-- The function `au_opts_free(opts)`: the references after the scan, none when
the scan reads past the end of the array or releases a member that was never
written. -/
def au_opts_free : List au_opt → Refs → Option Refs
  | [], _ => none
  | o :: rest, r =>
    if o.type = Opt_tail then some r
    else if o.type = Opt_add then
      match o.u with
      | .add ⟨_, _, _, some p⟩ => au_opts_free rest (r.release (.path p.ref))
      | _ => none
    else if o.type = Opt_xino then
      match o.u with
      | .xino x => au_opts_free rest (r.release (.file x.file.ref))
      | _ => none
    else au_opts_free rest r

/-- The function `opt_add(opt, opt_str, sb_flags, bindex)`: the returned value,
the record and the references.  The type `aufs_bindex_t` is declared outside
opts.c; the index is kept as an integer. -/
def opt_add (env : Env) (r : Refs) (opt : au_opt) (opt_str : CStr) (sb_flags : Nat)
    (bindex : Int) : Int × au_opt × Refs :=
  let pathname := upto opt_str '='
  let p := after opt_str '='
  let perm :=
    match p with
    | some ps => if ps ≠ [] then br_perm_val ps else AuBrPerm_RO
    | none => AuBrPerm_RO
  match env.vfsub_kern_path pathname with
  | .ok d =>
    let perm :=
      if p = none then
        if bindex = 0 ∧ sb_flags &&& MS_RDONLY = 0 then AuBrPerm_RW else AuBrPerm_RO
      else perm
    (0, ⟨Opt_add, .add ⟨bindex, pathname, perm, some ⟨d, r.next⟩⟩⟩, r.take (.path r.next))
  | .error _ => (-EINVAL, { opt with u := .add ⟨bindex, pathname, perm, none⟩ }, r)

/-- The function `au_opts_parse_xino(sb, xino, args)`: the returned value, the
member `opt->xino` when it was written, and the references. -/
def au_opts_parse_xino (env : Env) (r : Refs) (args : List substring_t) :
    Int × Option au_opt_xino × Refs :=
  match env.au_xino_create (arg args 0).from_ with
  | .error e => (e.val, none, r)
  | .ok f =>
    let n := r.next
    let r := r.take (.file n)
    if f.d_sb_is_sb then (-EINVAL, none, r.release (.file n))
    else (0, some ⟨(arg args 0).from_, ⟨f.d_parent, f.d_sb_is_sb, n⟩⟩, r)

/-- The local variables of `au_opts_parse` that live across the loop: `err`,
the array behind `opts->opt`, the offset of the pointer `opt` in it, `bindex`,
and the references taken and released. -/
structure Vars where
  err : Int
  opts : List au_opt
  opt : Nat
  bindex : Int
  refs : Refs
  deriving DecidableEq, Repr

/-- The record `*opt`. -/
def Vars.cur (v : Vars) : au_opt := v.opts.getD v.opt default

/-- The member `opt->wbr_create` as it is found; its fields are indeterminate
when the union was last written through another member. -/
def au_opt.create (o : au_opt) : au_opt_wbr_create :=
  match o.u with
  | .wbr_create c => c
  | _ => ⟨0, none, none⟩

/-- A case of the switch that accepts: the member written, `err = 0` and
`opt->type = token`. -/
def Vars.accept (v : Vars) (t : Opt) (u : Payload) : Vars :=
  { v with err := 0, opts := v.opts.set v.opt ⟨t, u⟩ }

/-- The body of the loop of the case Opt_br for one path `opt_str`: `opt_add`,
then the step to the next record with its tail marker; when there is no room
for the marker `err` is -E2BIG, no marker is written and `skipped` stays. -/
def br_step (env : Env) (sb_flags max_opt : Nat) (opt_str : CStr) (skipped : Bool)
    (v : Vars) : Vars × Bool :=
  let (err, o, refs) := opt_add env v.refs v.cur opt_str sb_flags v.bindex
  let v := { v with err := err, opts := v.opts.set v.opt o, refs := refs,
                    bindex := v.bindex + 1 }
  if err = 0 ∧ ((v.opt + 1 : Nat) : Int) > (max_opt : Int) - 1 then
    ({ v with err := -E2BIG, opt := v.opt + 1 }, skipped)
  else
    let v := if err = 0 then { v with opt := v.opt + 1 } else v
    ({ v with opts := set_type v.opts v.opt Opt_tail }, true)

/-- The loop of the case Opt_br, over the paths that `strsep` cuts from
`a->args[0].from` at the colons; `skipped` is returned with the variables.
Every round moves the string behind a colon or makes it NULL, so its length
plus one bounds the rounds; the break on -E2BIG leaves with `err` set, as the
loop condition does. -/
def br_loop (env : Env) (sb_flags max_opt : Nat) :
    Nat → Option CStr → Bool → Vars → Vars × Bool
  | 0, _, skipped, v => (v, skipped)
  | fuel + 1, from_, skipped, v =>
    if v.err ≠ 0 then (v, skipped)
    else
      match strsep from_ ':' with
      | (none, _) => (v, skipped)
      | (some opt_str, from1) =>
        if opt_str = [] then (v, skipped)
        else
          let r := br_step env sb_flags max_opt opt_str skipped v
          br_loop env sb_flags max_opt fuel from1 r.2 r.1

/-- The cases of the switch of `au_opts_parse`, entered with `err = -EINVAL`
and `skipped = 0`, for the token and the arguments that `match_token` found:
the variables and `skipped` after the switch. -/
def parse_case (k : Kconfig) (env : Env) (sb_flags max_opt : Nat) (args : List substring_t)
    (v : Vars) : Opt → Vars × Bool
  | Opt_br =>
    br_loop env sb_flags max_opt ((arg args 0).from_.length + 1) (some (arg args 0).from_)
      false { v with err := 0 }
  | Opt_add =>
    match match_int k (arg args 0) with
    | .error _ => (v, false)
    | .ok n =>
      let (err, o, refs) := opt_add env v.refs v.cur (arg args 1).from_ sb_flags n
      let o := if err = 0 then { o with type := Opt_add } else o
      ({ v with err := err, opts := v.opts.set v.opt o, refs := refs, bindex := n }, false)
  | Opt_xino =>
    match au_opts_parse_xino env v.refs args with
    | (err, some x, refs) =>
      let o : au_opt := ⟨if err = 0 then Opt_xino else v.cur.type, .xino x⟩
      ({ v with err := err, opts := v.opts.set v.opt o, refs := refs }, false)
    | (err, none, refs) => ({ v with err := err, refs := refs }, false)
  | Opt_rdcache =>
    match match_int k (arg args 0) with
    | .error _ => (v, false)
    | .ok n =>
      if n > AUFS_RDCACHE_MAX then (v, false)
      else (v.accept Opt_rdcache (.rdcache n), false)
  | Opt_rdblk =>
    match match_int k (arg args 0) with
    | .error _ => (v, false)
    | .ok n =>
      if n < 0 ∨ n.toNat > k.KMALLOC_MAX_SIZE then (v, false)
      else if n ≠ 0 ∧ n < NAME_MAX then (v, false)
      else (v.accept Opt_rdblk (.rdblk n.toNat), false)
  | Opt_rdhash =>
    match match_int k (arg args 0) with
    | .error _ => (v, false)
    | .ok n =>
      if n < 0 ∨ (n.toNat * sizeof_hlist_head k) % 2 ^ k.BITS_PER_LONG > k.KMALLOC_MAX_SIZE
      then (v, false)
      else (v.accept Opt_rdhash (.rdhash n.toNat), false)
  | Opt_noxino => (v.accept Opt_noxino v.cur.u, false)
  | Opt_plink => (v.accept Opt_plink v.cur.u, false)
  | Opt_noplink => (v.accept Opt_noplink v.cur.u, false)
  | Opt_list_plink => (v.accept Opt_list_plink v.cur.u, false)
  | Opt_rdblk_def => (v.accept Opt_rdblk_def v.cur.u, false)
  | Opt_rdhash_def => (v.accept Opt_rdhash_def v.cur.u, false)
  | Opt_wbr_create =>
    let (ret, create) := au_wbr_create_val k (arg args 0).from_ v.cur.create
    let u := Payload.wbr_create { create with wbr_create := ret }
    if ret ≥ 0 then (v.accept Opt_wbr_create u, false)
    else ({ v with opts := v.opts.set v.opt { v.cur with u := u } }, false)
  | Opt_wbr_copyup =>
    let ret := au_wbr_copyup_val (arg args 0).from_
    if ret ≥ 0 then (v.accept Opt_wbr_copyup (.wbr_copyup ret), false)
    else ({ v with opts := v.opts.set v.opt { v.cur with u := .wbr_copyup ret } }, false)
  | Opt_ignore => ({ v with err := 0 }, true)
  | Opt_ignore_silent => ({ v with err := 0 }, true)
  | Opt_err => (v, false)
  | Opt_tail => (v, false)

/-- The switch of `au_opts_parse` on one option `opt_str`: `err = -EINVAL`,
`skipped = 0`, the token of `opt_str` in the table `options`, and its case. -/
def parse_switch (k : Kconfig) (env : Env) (sb_flags max_opt : Nat) (opt_str : CStr)
    (v : Vars) : Vars × Bool :=
  let m := match_token opt_str (options k) Opt_err
  parse_case k env sb_flags max_opt m.2 { v with err := -EINVAL } m.1

/-- The body of the loop of `au_opts_parse` for one option `opt_str`: the
switch, then the step to the next record with its tail marker.  When there is
no room for the marker the record just written is overwritten by it and `err`
is -E2BIG. -/
def parse_step (k : Kconfig) (env : Env) (sb_flags max_opt : Nat) (opt_str : CStr)
    (v : Vars) : Vars :=
  let (v, skipped) := parse_switch k env sb_flags max_opt opt_str v
  if v.err = 0 ∧ skipped = false then
    if ((v.opt + 1 : Nat) : Int) > (max_opt : Int) - 1 then
      { v with err := -E2BIG, opts := set_type v.opts v.opt Opt_tail }
    else
      { v with opt := v.opt + 1, opts := set_type v.opts (v.opt + 1) Opt_tail }
  else v

/-- The loop `while (!err && (opt_str = strsep(&str, ",")) && *opt_str)` of
`au_opts_parse`.  Every round moves `str` behind a comma or makes it NULL, so
the length of the string plus one bounds the rounds; the break on -E2BIG leaves
with `err` set, as the loop condition does. -/
def au_opts_parse_loop (k : Kconfig) (env : Env) (sb_flags max_opt : Nat) :
    Nat → Option CStr → Vars → Vars
  | 0, _, v => v
  | fuel + 1, str, v =>
    if v.err ≠ 0 then v
    else
      match strsep str ',' with
      | (none, _) => v
      | (some opt_str, str1) =>
        if opt_str = [] then v
        else
          au_opts_parse_loop k env sb_flags max_opt fuel str1
            (parse_step k env sb_flags max_opt opt_str v)

/-- What `au_opts_parse` leaves behind: the returned value, the array and the
references taken and released. -/
structure Parsed where
  err : Int
  opt : List au_opt
  refs : Refs
  deriving DecidableEq, Repr

/-- The end of `au_opts_parse`, after the loop: `dump_opts`, and `au_opts_free`
when `err` is set; none when one of them runs off the array (undefined
behaviour). -/
def au_opts_parse_end (k : Kconfig) (v : Vars) : Option Parsed :=
  if dump_opts k v.opts = false then none
  else if v.err ≠ 0 then
    match au_opts_free v.opts v.refs with
    | some r => some ⟨v.err, v.opts, r⟩
    | none => none
  else some ⟨0, v.opts, v.refs⟩

/-- The variables of `au_opts_parse` when the loop is entered. -/
def parse_start (opts : au_opts) : Vars :=
  ⟨0, set_type opts.opt 0 Opt_tail, 0, 0, Refs.none⟩

/-- The function `au_opts_parse(sb, str, opts)` for a string `str`; none stands
for undefined behaviour. -/
def au_opts_parse (k : Kconfig) (env : Env) (str : CStr) (opts : au_opts) : Option Parsed :=
  if env.kmalloc = false then some ⟨-ENOMEM, opts.opt, Refs.none⟩
  else
    au_opts_parse_end k
      (au_opts_parse_loop k env opts.sb_flags opts.max_opt (str.length + 1) (some str)
        (parse_start opts))

/-- The records of an array up to the first tail marker (all of them when there
is none). -/
def records : List au_opt → List au_opt
  | [] => []
  | o :: rest => if o.type = Opt_tail then [] else o :: records rest

/-! ## The applier (fs/aufs/opts.c, lines 738-1062) -/

/-- The mount flag AuOpt_XINO (opts.h). -/
def AuOpt_XINO : Nat := 1

/-- The mount flag AuOpt_PLINK (opts.h). -/
def AuOpt_PLINK : Nat := 1 <<< 6

/-- The macro `au_opt_test(flags, name)`, as a truth value. -/
def au_opt_test (flags name : Nat) : Bool := flags &&& name ≠ 0

/-- The macro `au_opt_set(flags, name)`: the new flags. -/
def au_opt_set (flags name : Nat) : Nat := flags ||| name

/-- The macro `au_opt_clr(flags, name)`: the new flags. -/
def au_opt_clr (flags name : Nat) : Nat := andnot flags name

/-- Modelled from the spec: the default readdir block size, declared in
include/uapi/linux/aufs_type.h, which is not among the sources. -/
def AUFS_RDBLK_DEF : Nat := 512

/-- Modelled from the spec: the default number of readdir hash buckets
(aufs_type.h). -/
def AUFS_RDHASH_DEF : Nat := 32

/-- The constant MSEC_PER_SEC (include/linux/time.h). -/
def MSEC_PER_SEC : Int := 1000

/-- A value converted to `unsigned int`. -/
def to_uint (i : Int) : Nat := (i % 2 ^ 32).toNat

/-- Modelled from the spec: the side state of a writable branch (`struct
au_wbr`, declared in branch.h, which is not among the sources): whether the
whiteout base, the pseudo-link reference and the orphan marker are there. -/
structure au_wbr where
  wbr_whbase : Bool
  wbr_plink : Bool
  wbr_orph : Bool
  deriving DecidableEq, Repr

/-- Modelled from the spec: a branch record (`struct au_branch` of branch.h):
its id, its permission, its side state when one is allocated, and the dentry
of its root, which `au_h_dptr(root, bindex)` returns. -/
structure au_branch where
  br_id : Int
  br_perm : Nat
  br_wbr : Option au_wbr
  h_root : Nat
  deriving DecidableEq, Repr

/-- Modelled from the spec: the inline test `au_br_writable` of branch.h, the
branch is read-write. -/
def au_br_writable (brperm : Nat) : Bool := brperm &&& AuBrPerm_RW ≠ 0

/-- Modelled from the spec: the inline test `au_br_wh_linkable` of branch.h,
the branch does not carry the no-link-whiteout attribute. -/
def au_br_wh_linkable (brperm : Nat) : Bool := brperm &&& AuBrWAttr_NoLinkWH = 0

/-- The configuration state behind `sb` and `au_sbi(sb)`: the flags of the
mount, the mount flags of aufs, the policies and their parameters, the readdir
parameters, the branches in the order of their indices, the xino file that is
bound, and the xino home branch (-1 for none). -/
structure super_block where
  s_flags : Nat
  si_mntflags : Nat
  si_wbr_create : Int
  si_wbr_copyup : Int
  mfsrr_watermark : Nat
  mfs_expire : Nat
  si_rdcache : Nat
  si_rdblk : Nat
  si_rdhash : Nat
  branches : List au_branch
  xino : Option file
  xino_brid : Int
  deriving DecidableEq, Repr

/-- A call that the applier makes to a collaborator. -/
inductive Event where
  | plink_put
  | plink_list
  | wbr_fin (policy : Int)
  | wbr_init (policy : Int)
  | br_add (a : au_opt_add)
  | xino_set (f : file)
  | xino_clr
  | xino_def
  | wh_init (bindex : Nat)
  | kfree_wbr (bindex : Nat)
  deriving DecidableEq, Repr

/-- The collaborators of the applier, as far as it depends on them:
`msecs_to_jiffies`; the hooks `fin` and `init` of a create policy (`fin` is
NULL or returns a value); the branch that `au_br_add` builds for a record, or
its error; the error of `au_xino_set`, if any; the file `au_xino_def` opens,
or its error; and `au_wh_init` for the branch at an index, its error, if any,
and the side state it leaves. -/
structure Collab where
  msecs_to_jiffies : Nat → Nat
  wbr_create_fin : Int → super_block → Option Int
  wbr_create_init : Int → Bool
  br_new : List au_branch → au_opt_add → Except Errno au_branch
  xino_set_err : super_block → file → Option Errno
  xino_def : super_block → Except Errno XinoFile
  wh_init : Nat → au_branch → Option Errno × au_wbr

/-- The state the applier works on: the configuration state, the references it
takes and releases itself, and the calls it has made to collaborators, oldest
first. -/
structure Mount where
  sb : super_block
  refs : Refs
  log : List Event
  deriving DecidableEq, Repr

/-- A call is recorded. -/
def Mount.logged (m : Mount) (e : Event) : Mount := { m with log := m.log ++ [e] }

/-- The list `l` with `x` put at position `n`, behind the end when `l` is
shorter. -/
def insert_at (l : List au_branch) (n : Nat) (x : au_branch) : List au_branch :=
  l.take n ++ x :: l.drop n

/-- Modelled from the spec: the function `au_br_add(sb, add)` of branch.c, which
is not among the sources: the branch that the collaborator builds is inserted
at the index of the record, or the error of the collaborator is returned and
the branches stay as they are. -/
def au_br_add (c : Collab) (m : Mount) (add : au_opt_add) : Int × Mount :=
  let m := m.logged (.br_add add)
  match c.br_new m.sb.branches add with
  | .ok b => (0, { m with sb := { m.sb with branches := insert_at m.sb.branches add.bindex.toNat b } })
  | .error e => (e.val, m)

/-- Modelled from the spec: the function `au_xino_set(sb, xino)` of xino.c, which
is not among the sources: the file is bound into the configuration state, or
the error of the collaborator is returned. -/
def au_xino_set (c : Collab) (m : Mount) (f : file) : Int × Mount :=
  let m := m.logged (.xino_set f)
  match c.xino_set_err m.sb f with
  | none => (0, { m with sb := { m.sb with xino := some f } })
  | some e => (e.val, m)

/-- Modelled from the spec: the function `au_xino_clr(sb)` of xino.c: the xino
file is detached. -/
def au_xino_clr (m : Mount) : Mount :=
  let m := m.logged .xino_clr
  { m with sb := { m.sb with xino := none } }

/-- The function `au_xino_brid_set(sb, brid)`. -/
def au_xino_brid_set (m : Mount) (brid : Int) : Mount :=
  { m with sb := { m.sb with xino_brid := brid } }

/-- The index `au_sbend(sb)` of the last branch, -1 without branches. -/
def au_sbend (sb : super_block) : Int := (sb.branches.length : Int) - 1

/-- The function `au_opt_wbr_create(sb, create)` (named apart from the record
type `struct au_opt_wbr_create`).  A field of the record that the parser did
not write is read as 0. -/
def au_opt_wbr_create_apply (c : Collab) (m : Mount) (create : au_opt_wbr_create) :
    Int × Mount :=
  let r : Int × Mount :=
    match c.wbr_create_fin m.sb.si_wbr_create m.sb with
    | some e => (if e = 0 then 1 else e, m.logged (.wbr_fin m.sb.si_wbr_create))
    | none => (1, m)
  let m := r.2
  let sb := { m.sb with si_wbr_create := create.wbr_create }
  let expire := c.msecs_to_jiffies (to_uint (create.mfs_second.getD 0 * MSEC_PER_SEC))
  let sb :=
    if create.wbr_create = AuWbrCreate_MFSRRV ∨ create.wbr_create = AuWbrCreate_MFSRR ∨
        create.wbr_create = AuWbrCreate_PMFSRR ∨ create.wbr_create = AuWbrCreate_PMFSRRV then
      { sb with mfsrr_watermark := create.mfsrr_watermark.getD 0, mfs_expire := expire }
    else if create.wbr_create = AuWbrCreate_MFS ∨ create.wbr_create = AuWbrCreate_MFSV ∨
        create.wbr_create = AuWbrCreate_PMFS ∨ create.wbr_create = AuWbrCreate_PMFSV then
      { sb with mfs_expire := expire }
    else sb
  let m := { m with sb := sb }
  let m := if c.wbr_create_init create.wbr_create then m.logged (.wbr_init create.wbr_create)
    else m
  (r.1, m)

/-- The function `au_opt_simple(sb, opt, opts)`: 1 when the record is handled,
0 when it is not, the error of a `fin` hook otherwise. -/
def au_opt_simple (c : Collab) (m : Mount) (opt : au_opt) : Int × Mount :=
  match opt.type with
  | Opt_plink =>
    (1, { m with sb := { m.sb with si_mntflags := au_opt_set m.sb.si_mntflags AuOpt_PLINK } })
  | Opt_noplink =>
    let m := if au_opt_test m.sb.si_mntflags AuOpt_PLINK then m.logged .plink_put else m
    (1, { m with sb := { m.sb with si_mntflags := au_opt_clr m.sb.si_mntflags AuOpt_PLINK } })
  | Opt_list_plink =>
    (1, if au_opt_test m.sb.si_mntflags AuOpt_PLINK then m.logged .plink_list else m)
  | Opt_wbr_create => au_opt_wbr_create_apply c m opt.create
  | Opt_wbr_copyup =>
    match opt.u with
    | .wbr_copyup n => (1, { m with sb := { m.sb with si_wbr_copyup := n } })
    | _ => (1, m)
  | Opt_rdcache =>
    match opt.u with
    | .rdcache n =>
      (1, { m with sb := { m.sb with
              si_rdcache := c.msecs_to_jiffies (to_uint (n * MSEC_PER_SEC)) } })
    | _ => (1, m)
  | Opt_rdblk =>
    match opt.u with
    | .rdblk n => (1, { m with sb := { m.sb with si_rdblk := n } })
    | _ => (1, m)
  | Opt_rdblk_def => (1, { m with sb := { m.sb with si_rdblk := AUFS_RDBLK_DEF } })
  | Opt_rdhash =>
    match opt.u with
    | .rdhash n => (1, { m with sb := { m.sb with si_rdhash := n } })
    | _ => (1, m)
  | Opt_rdhash_def => (1, { m with sb := { m.sb with si_rdhash := AUFS_RDHASH_DEF } })
  | _ => (0, m)

/-- The function `au_opt_br(sb, opt, opts)`: 1 when a branch was added, 0 when
the record is no Opt_add, the error of `au_br_add` otherwise. -/
def au_opt_br (c : Collab) (m : Mount) (opt : au_opt) : Int × Mount :=
  if opt.type = Opt_add then
    match opt.u with
    | .add a =>
      let r := au_br_add c m a
      (if r.1 = 0 then 1 else r.1, r.2)
    | _ => (0, m)
  else (0, m)

/-- The pointer `opt_xino` of `au_opts_mount`: NULL, the record of an xino
option, or the value -1 that a noxino option leaves. -/
inductive OptXino where
  | null
  | record (x : au_opt_xino)
  | minus1
  deriving DecidableEq, Repr

/-- The scan `for (bindex = 0; bindex <= bend; bindex++)` of `au_opt_xino`
over the roots of the branches from index `bindex` on: the id of the first
branch whose root is `parent`. -/
def xino_home : List au_branch → Nat → Option Int
  | [], _ => none
  | b :: rest, parent => if b.h_root = parent then some b.br_id else xino_home rest parent

/-- The function `au_opt_xino(sb, opt, &opt_xino, opts)` (named apart from the
record type `struct au_opt_xino`). -/
def au_opt_xino_apply (c : Collab) (m : Mount) (opt : au_opt) (opt_xino : OptXino) :
    Int × Mount × OptXino :=
  if opt.type = Opt_xino then
    match opt.u with
    | .xino x =>
      let r := au_xino_set c m x.file
      if r.1 ≠ 0 then (r.1, r.2, opt_xino)
      else
        let m := au_xino_brid_set r.2 (-1)
        match xino_home m.sb.branches x.file.d_parent with
        | some id => (0, au_xino_brid_set m id, .record x)
        | none => (0, m, .record x)
    | _ => (0, m, opt_xino)
  else if opt.type = Opt_noxino then
    (0, au_xino_brid_set (au_xino_clr m) (-1), .minus1)
  else (0, m, opt_xino)

/-- Whether the loop of `au_opts_verify` skips a branch (`skip`), and whether it
is to free the side state of the branch (`do_free`). -/
def verify_flags (do_plink : Bool) (br : au_branch) : Bool × Bool :=
  if au_br_writable br.br_perm = false then
    match br.br_wbr with
    | none => (true, false)
    | some wbr => (!wbr.wbr_whbase && !wbr.wbr_plink && !wbr.wbr_orph, true)
  else if au_br_wh_linkable br.br_perm = false then
    match br.br_wbr with
    | none => (true, false)
    | some wbr =>
      if !wbr.wbr_whbase then (if do_plink then wbr.wbr_plink else !wbr.wbr_plink, false)
      else (false, false)
  else
    match br.br_wbr with
    | none => (false, false)
    | some wbr =>
      if wbr.wbr_whbase then (if do_plink then wbr.wbr_plink else !wbr.wbr_plink, false)
      else (false, false)

/-- The body of the loop of `au_opts_verify` for the branch at `bindex`: the
error, the branch as it is left, and the calls made. -/
def verify_branch (c : Collab) (do_plink : Bool) (bindex : Nat) (br : au_branch) :
    Int × au_branch × List Event :=
  let (skip, do_free) := verify_flags do_plink br
  if skip then (0, br, [])
  else
    let r := c.wh_init bindex br
    let br1 := { br with br_wbr := br.br_wbr.map fun _ => r.2 }
    match r.1 with
    | none =>
      if do_free then (0, { br1 with br_wbr := none }, [.wh_init bindex, .kfree_wbr bindex])
      else (0, br1, [.wh_init bindex])
    | some e => (e.val, br1, [.wh_init bindex])

/-- The loop `for (bindex = 0; !err && bindex <= bend; bindex++)` of
`au_opts_verify` over the branches from index `bindex` on. -/
def verify_loop (c : Collab) (do_plink : Bool) :
    List au_branch → Nat → Int × List au_branch × List Event
  | [], _ => (0, [], [])
  | br :: rest, bindex =>
    let (err, br1, ev) := verify_branch c do_plink bindex br
    if err ≠ 0 then (err, br1 :: rest, ev)
    else
      let (err2, rest2, ev2) := verify_loop c do_plink rest (bindex + 1)
      (err2, br1 :: rest2, ev ++ ev2)

/-- The function `au_opts_verify(sb, sb_flags, pending)`; its warning about a
first branch that is not writable is left out. -/
def au_opts_verify (c : Collab) (m : Mount) : Int × Mount :=
  let do_plink := au_opt_test m.sb.si_mntflags AuOpt_PLINK
  let (err, brs, ev) := verify_loop c do_plink m.sb.branches 0
  (err, { m with sb := { m.sb with branches := brs }, log := m.log ++ ev })

/-- The loop `while (err >= 0 && opt->type != Opt_tail) err = f(sb, opt++, opts)`
of the first two passes of `au_opts_mount`; none when it reads past the end of
the array. -/
def pass_loop (f : Mount → au_opt → Int × Mount) : List au_opt → Int → Mount →
    Option (Int × Mount)
  | [], err, m => if err < 0 then some (err, m) else none
  | o :: rest, err, m =>
    if err < 0 then some (err, m)
    else if o.type = Opt_tail then some (err, m)
    else
      let r := f m o
      pass_loop f rest r.1 r.2

/-- The loop `while (!err && opt->type != Opt_tail)` of the xino pass of
`au_opts_mount`; none when it reads past the end of the array. -/
def xino_loop (c : Collab) : List au_opt → Int → Mount → OptXino →
    Option (Int × Mount × OptXino)
  | [], err, m, ox => if err ≠ 0 then some (err, m, ox) else none
  | o :: rest, err, m, ox =>
    if err ≠ 0 then some (err, m, ox)
    else if o.type = Opt_tail then some (err, m, ox)
    else
      let r := au_opt_xino_apply c m o ox
      xino_loop c rest r.1 r.2.1 r.2.2

/-- The end of `au_opts_mount` behind the verification: the default xino file
is opened and bound when xino was enabled and no xino option was applied. -/
def restore_xino (c : Collab) (m : Mount) (tmp : Nat) (opt_xino : OptXino) : Int × Mount :=
  if au_opt_test tmp AuOpt_XINO ∧ opt_xino = .null then
    let m := m.logged .xino_def
    match c.xino_def m.sb with
    | .error e => (e.val, m)
    | .ok f =>
      let n := m.refs.next
      let m := { m with refs := m.refs.take (.file n) }
      let r := au_xino_set c m ⟨f.d_parent, f.d_sb_is_sb, n⟩
      (r.1, { r.2 with refs := r.2.refs.release (.file n) })
  else (0, m)

/-- The function `au_opts_mount(sb, opts)` on the array of the records; none
when a pass reads past the end of the array. -/
def au_opts_mount (c : Collab) (m : Mount) (opts : List au_opt) : Option (Int × Mount) :=
  match pass_loop (au_opt_simple c) opts 0 m with
  | none => none
  | some (err, m) =>
    if err < 0 then some (err, m)
    else
      let tmp := m.sb.si_mntflags
      let m := { m with sb := { m.sb with si_mntflags := au_opt_clr m.sb.si_mntflags AuOpt_XINO } }
      match pass_loop (au_opt_br c) opts 0 m with
      | none => none
      | some (err, m) =>
        if err < 0 then some (err, m)
        else if au_sbend m.sb < 0 then some (-EINVAL, m)
        else
          let m :=
            if au_opt_test tmp AuOpt_XINO then
              { m with sb := { m.sb with si_mntflags := au_opt_set m.sb.si_mntflags AuOpt_XINO } }
            else m
          match xino_loop c opts 0 m .null with
          | none => none
          | some (err, m, opt_xino) =>
            if err ≠ 0 then some (err, m)
            else
              let r := au_opts_verify c m
              if r.1 ≠ 0 then some r
              else restore_xino c r.2 tmp opt_xino

/-! ## Vocabulary of the properties -/

/-- An attribute bit is legal for a base: the read-only base takes the
attributes of `AuBrRAttr_Mask`, the read-write base those of `AuBrWAttr_Mask`. -/
def attr_legal (base attr : Nat) : Bool :=
  if base = AuBrPerm_RO then attr &&& AuBrRAttr_Mask = attr
  else if base = AuBrPerm_RW then attr &&& AuBrWAttr_Mask = attr
  else false

/-- The canonical permission strings: a base token of `brperm`, then the tokens
of distinct attributes of `brattr` that are legal for it, in table order, each
after a plus sign. -/
def canonical_perm_strings : List CStr :=
  brperm.flatMap fun b =>
    ((brattr.filter fun a => attr_legal b.1 a.1).sublists).map fun attrs =>
      b.2 ++ attrs.flatMap fun a => '+' :: a.2

/-- Every reference taken has been released exactly once. -/
def Refs.released_once (r : Refs) : Prop := ∀ h ∈ r.taken, r.put.count h = 1

instance (r : Refs) : Decidable r.released_once := by
  unfold Refs.released_once; infer_instance

/-- The references taken and never released. -/
def Refs.leaked (r : Refs) : List Handle := r.taken.filter fun h => h ∉ r.put

/-- An array as the caller allocates it: `n` records of unwritten memory. -/
def fresh_opts (n sb_flags : Nat) : au_opts :=
  ⟨List.replicate n ⟨Opt_err, .junk⟩, n, sb_flags⟩

/-- A world for the examples: the directories /a, /b, /c and /x resolve (to
the dentries 1, 2, 3, 4), the file /xi opens outside the union and /u/xi on the
superblock of the union itself; every allocation succeeds. -/
def demo_env : Env where
  kmalloc := true
  vfsub_kern_path := fun p =>
    if p = cs "/a" then .ok 1
    else if p = cs "/b" then .ok 2
    else if p = cs "/c" then .ok 3
    else if p = cs "/x" then .ok 4
    else .error ⟨-2, by decide⟩
  au_xino_create := fun p =>
    if p = cs "/xi" then .ok ⟨9, false⟩
    else if p = cs "/u/xi" then .ok ⟨0, true⟩
    else .error ⟨-13, by decide⟩

/-- The record of a branch added at `bindex` for `pathname`. -/
def add_rec (bindex : Int) (pathname : CStr) (perm dentry ref : Nat) : au_opt :=
  ⟨Opt_add, .add ⟨bindex, pathname, perm, some ⟨dentry, ref⟩⟩⟩

/-- A create-policy string that names a variant with a mandatory number and
leaves the number out: the keyword of a watermark variant alone, a keyword
followed by a colon and nothing, or a watermark variant whose seconds are left
out behind the second colon (whatever stands for the watermark). -/
def omits_parameter (s : CStr) : Prop :=
  s ∈ [cs "mfsrr", cs "pmfsrr", cs "mfs:", cs "most-free-space:", cs "pmfs:", cs "mfsrr:",
      cs "pmfsrr:"] ∨
  ∃ W : CStr, s = cs "mfsrr:" ++ (W ++ [':']) ∨ s = cs "pmfsrr:" ++ (W ++ [':'])

/-- The option create=s is accepted: `au_opts_parse` returns 0 and leaves one
record, a create policy `pol` with `N` seconds. -/
def option_create_yields (k : Kconfig) (env : Env) (opts : au_opts) (s : CStr)
    (pol N : Int) : Prop :=
  ∃ p, au_opts_parse k env (cs "create=" ++ s) opts = some p ∧ p.err = 0 ∧
    ∃ wm, records p.opt = [⟨Opt_wbr_create, .wbr_create ⟨pol, some N, wm⟩⟩]

/-- The option create=s is rejected: `au_opts_parse` returns -EINVAL and leaves
no record. -/
def option_create_fails (k : Kconfig) (env : Env) (opts : au_opts) (s : CStr) : Prop :=
  ∃ p, au_opts_parse k env (cs "create=" ++ s) opts = some p ∧ p.err = -EINVAL ∧
    records p.opt = []

/-- The rule for the seconds of the policy string `s`, whose seconds are
spelled `t` and whose variant is `pol`: when `match_int` reads the number N
from `t`, the policy is accepted if 0 <= N <= AUFS_MFS_MAX_SEC, with
mfs_second = N in the record, and rejected with -EINVAL if not; when
`match_int` fails it is rejected. -/
def seconds_spec (k : Kconfig) (env : Env) (opts : au_opts) (s : CStr) (pol : Int)
    (t : CStr) : Prop :=
  (∀ N, match_int k ⟨t, t.length⟩ = .ok N →
    (0 ≤ N ∧ N ≤ AUFS_MFS_MAX_SEC →
      (∀ c, (au_wbr_create_val k s c).1 = pol ∧
        (au_wbr_create_val k s c).2.mfs_second = some N) ∧
      option_create_yields k env opts s pol N) ∧
    (¬ (0 ≤ N ∧ N ≤ AUFS_MFS_MAX_SEC) →
      (∀ c, (au_wbr_create_val k s c).1 = -EINVAL) ∧ option_create_fails k env opts s)) ∧
  (∀ e, match_int k ⟨t, t.length⟩ = .error e →
    (∀ c, (au_wbr_create_val k s c).1 = -EINVAL) ∧ option_create_fails k env opts s)

/-- The paths of a br= list, joined by colons. -/
def colon_join : List CStr → CStr
  | [] => []
  | [p] => p
  | p :: q :: rest => p ++ ':' :: colon_join (q :: rest)

/-- The records of a br= list of paths without permissions, each path with the
dentry it resolves to: branch indices from `bindex` on, references from `ref`
on; the branch at index 0 is read-write unless the mount is read-only, every
other branch is read-only. -/
def add_recs (sb_flags : Nat) : Int → Nat → List (CStr × Nat) → List au_opt
  | _, _, [] => []
  | bindex, ref, (p, d) :: rest =>
    add_rec bindex p
        (if bindex = 0 ∧ sb_flags &&& MS_RDONLY = 0 then AuBrPerm_RW else AuBrPerm_RO) d ref
      :: add_recs sb_flags (bindex + 1) (ref + 1) rest

/-- The option `s` is accepted: `au_opts_parse` returns 0 and leaves the one
record `r`. -/
def option_accepted (k : Kconfig) (env : Env) (opts : au_opts) (s : CStr) (r : au_opt) :
    Prop :=
  ∃ p, au_opts_parse k env s opts = some p ∧ p.err = 0 ∧ records p.opt = [r]

/-- The option `s` is rejected: `au_opts_parse` returns -EINVAL and leaves no
record. -/
def option_rejected (k : Kconfig) (env : Env) (opts : au_opts) (s : CStr) : Prop :=
  ∃ p, au_opts_parse k env s opts = some p ∧ p.err = -EINVAL ∧ records p.opt = []

/-- The options of a string, joined by commas. -/
def comma_join : List CStr → CStr
  | [] => []
  | [p] => p
  | p :: q :: rest => p ++ ',' :: comma_join (q :: rest)

/-- The paths of several br= lists, in the order of the string. -/
def all_paths : List (List (CStr × Nat)) → List (CStr × Nat)
  | [] => []
  | pd :: rest => pd ++ all_paths rest

/-- The string of several br= options, one for each list of paths. -/
def br_options (brs : List (List (CStr × Nat))) : CStr :=
  comma_join (brs.map fun pd => cs "br=" ++ colon_join (pd.map Prod.fst))

/-- The references after `n` more paths were looked up. -/
def path_refs (refs : Refs) (n : Nat) : Refs :=
  ⟨refs.taken ++ (List.range n).map (fun i => Handle.path (refs.next + i)), refs.put⟩

/-- The segments of a permission string, joined by plus signs. -/
def plus_join : List CStr → CStr
  | [] => []
  | [p] => p
  | p :: q :: rest => p ++ '+' :: plus_join (q :: rest)

/-- The segments of a permission string, each followed by a plus sign. -/
def plus_each : List CStr → CStr
  | [] => []
  | p :: rest => p ++ '+' :: plus_each rest

/-- The bits of a list of attributes, combined. -/
def or_all : List Nat → Nat
  | [] => 0
  | v :: rest => v ||| or_all rest

/-- A mount before any option is applied: no branch, no xino file, the flags
given. -/
def fresh_mount (s_flags si_mntflags : Nat) : Mount :=
  ⟨⟨s_flags, si_mntflags, 0, 0, 0, 0, 0, 0, 0, [], none, -1⟩, Refs.none, []⟩

/-- Collaborators for the examples: `au_br_add` fails with -ENOMEM for the
pathname `fail_add` and builds a branch with a fresh id and, when it is
writable, an empty side state for any other; `au_wh_init` fails with -EIO on
the branches at the indices `fail_init` and leaves the side state empty;
`au_xino_set` fails with -EIO for a file whose parent is the dentry
`fail_xino`; the default xino file lies in the directory 100; the create
policies have no hooks. -/
def demo_collab (fail_add : CStr) (fail_init : List Nat) (fail_xino : Nat) : Collab where
  msecs_to_jiffies := fun ms => ms / 4
  wbr_create_fin := fun _ _ => none
  wbr_create_init := fun _ => false
  br_new := fun brs a =>
    if a.pathname = fail_add then .error ⟨-ENOMEM, by decide⟩
    else .ok ⟨brs.length, a.perm,
      if au_br_writable a.perm then some ⟨false, false, false⟩ else none,
      match a.path with
      | some p => p.dentry
      | none => 0⟩
  xino_set_err := fun _ f => if f.d_parent = fail_xino then some ⟨-5, by decide⟩ else none
  xino_def := fun _ => .ok ⟨100, false⟩
  wh_init := fun i _ => (if i ∈ fail_init then some ⟨-5, by decide⟩ else none,
    ⟨false, false, false⟩)

/-- The records of added branches among the records of an array, in order. -/
def adds_of : List au_opt → List au_opt_add
  | [] => []
  | o :: rest =>
    if o.type = Opt_add then
      match o.u with
      | .add a => a :: adds_of rest
      | _ => adds_of rest
    else adds_of rest

/-- The branches after the records `adds` were inserted one after the other,
each with the branch the collaborator builds for it; none when one of the
insertions fails. -/
def insert_all (c : Collab) : List au_branch → List au_opt_add → Option (List au_branch)
  | brs, [] => some brs
  | brs, a :: rest =>
    match c.br_new brs a with
    | .ok b => insert_all c (insert_at brs a.bindex.toNat b) rest
    | .error _ => none

/-- A mount with the branches `brs`, no xino file and the flags given. -/
def mount_of (s_flags si_mntflags : Nat) (brs : List au_branch) : Mount :=
  ⟨⟨s_flags, si_mntflags, 0, 0, 0, 0, 0, 0, 0, brs, none, -1⟩, Refs.none, []⟩

/-- The records hold neither an xino option nor a noxino option. -/
def no_xino_option (recs : List au_opt) : Prop :=
  ∀ o ∈ recs, o.type ≠ Opt_xino ∧ o.type ≠ Opt_noxino

instance (recs : List au_opt) : Decidable (no_xino_option recs) := by
  unfold no_xino_option; infer_instance

/-- The simple pass, the branch pass, the xino pass and the verification of
`au_opts_mount` when all of them succeed: the mount flags as they were when the
branch pass began, the pointer `opt_xino` and the state behind the
verification; none when one of them fails or reads past the end of the array. -/
def four_passes (c : Collab) (m : Mount) (opts : List au_opt) :
    Option (Nat × OptXino × Mount) :=
  match pass_loop (au_opt_simple c) opts 0 m with
  | none => none
  | some (e1, m1) =>
    if e1 < 0 then none
    else
      match pass_loop (au_opt_br c) opts 0
        { m1 with sb := { m1.sb with
            si_mntflags := au_opt_clr m1.sb.si_mntflags AuOpt_XINO } } with
      | none => none
      | some (e2, m2) =>
        if e2 < 0 ∨ au_sbend m2.sb < 0 then none
        else
          match xino_loop c opts 0
            (if au_opt_test m1.sb.si_mntflags AuOpt_XINO then
              { m2 with sb := { m2.sb with
                  si_mntflags := au_opt_set m2.sb.si_mntflags AuOpt_XINO } }
            else m2) .null with
          | none => none
          | some (e3, m3, ox) =>
            if e3 ≠ 0 ∨ (au_opts_verify c m3).1 ≠ 0 then none
            else some (m1.sb.si_mntflags, ox, (au_opts_verify c m3).2)

/-- The state after the default xino file was opened, and the file: the call
and the reference are recorded. -/
def opened_default (m : Mount) (f : XinoFile) : Mount × file :=
  ({ m.logged .xino_def with refs := m.refs.take (.file m.refs.next) },
    ⟨f.d_parent, f.d_sb_is_sb, m.refs.next⟩)

/-- A writable branch needs `au_wh_init`: the presence of its whiteout base
disagrees with its being whiteout-linkable (a linkable branch lacks the base,
or a branch with the no-link-whiteout attribute has one), or the presence of
its pseudo-link reference disagrees with the pseudo-link flag of the mount. -/
def needs_wh_init (do_plink : Bool) (br : au_branch) (w : au_wbr) : Prop :=
  (au_br_wh_linkable br.br_perm = true ∧ w.wbr_whbase = false) ∨
  (au_br_wh_linkable br.br_perm = false ∧ w.wbr_whbase = true) ∨
  w.wbr_plink ≠ do_plink

instance (do_plink : Bool) (br : au_branch) (w : au_wbr) :
    Decidable (needs_wh_init do_plink br w) := by
  unfold needs_wh_init; infer_instance

/-- The legal branch permissions: a base of `brperm` combined with the bits of
a subset of the attributes of `brattr` that are legal for it. -/
def legal_perms : List Nat :=
  brperm.flatMap fun b =>
    ((brattr.filter fun a => attr_legal b.1 a.1).sublists).map fun attrs =>
      b.1 ||| or_all (attrs.map Prod.fst)

/-- The values of the create policies (the enumeration of aufs_type.h). -/
def wbr_create_values : List Int :=
  [AuWbrCreate_TDP, AuWbrCreate_RR, AuWbrCreate_MFS, AuWbrCreate_MFSV, AuWbrCreate_MFSRR,
    AuWbrCreate_MFSRRV, AuWbrCreate_PMFS, AuWbrCreate_PMFSV, AuWbrCreate_PMFSRR,
    AuWbrCreate_PMFSRRV]

/-- The values of the copy-up policies (the enumeration of aufs_type.h). -/
def wbr_copyup_values : List Int := [AuWbrCopyup_TDP, AuWbrCopyup_BUP, AuWbrCopyup_BU]

/-! # Theorems -/

theorem canonical_perm_strings_eq :
    canonical_perm_strings = [cs "ro", cs "ro+wh", cs "rw", cs "rw+nolwh"] := by
  decide

/-- C1: rendering the value parsed from a canonical branch-permission string
gives back the string. -/
theorem perm_roundtrip_canonical (s : CStr) (h : s ∈ canonical_perm_strings) :
    au_optstr_br_perm (br_perm_val s) = some s := by
  have key : ∀ t ∈ canonical_perm_strings, au_optstr_br_perm (br_perm_val t) = some t := by
    decide
  exact key s h

/-- C1 at the canonical string rw+nolwh. -/
theorem perm_roundtrip_canonical_witness :
    cs "rw+nolwh" ∈ canonical_perm_strings ∧
      au_optstr_br_perm (br_perm_val (cs "rw+nolwh")) = some (cs "rw+nolwh") :=
  ⟨by decide, perm_roundtrip_canonical (cs "rw+nolwh") (by decide)⟩

/-- C2: with three slots, the third record of "plink,noplink,xino=/xi" leaves
no room for the tail marker: -E2BIG is returned, the marker overwrites the
xino record and its file is never released; with two slots, "br=/a:/b" fills
the array without a marker and the scans run off its end. -/
theorem overflow_leaks_or_overruns :
    (au_opts_parse x86_64 demo_env (cs "plink,noplink,xino=/xi") (fresh_opts 3 0)).map
        (fun p => (p.err, p.refs, p.refs.leaked))
      = some (-E2BIG, ⟨[.file 0], []⟩, [.file 0]) ∧
    au_opts_parse x86_64 demo_env (cs "br=/a:/b") (fresh_opts 2 0) = none ∧
    au_opts_parse i386 demo_env (cs "br=/a:/b") (fresh_opts 2 0) = none := by
  decide

/-- C3: in "br=:/a,xino=/xi,bogus" the empty first path of the br= list steps
over a slot that still holds the tail marker, so the xino record lies behind
it; the unknown option fails with -EINVAL and the file is never released. -/
theorem hidden_record_leaks :
    (au_opts_parse x86_64 demo_env (cs "br=:/a,xino=/xi,bogus") (fresh_opts 8 0)).map
        (fun p => (p.err, records p.opt, p.refs, p.refs.leaked))
      = some (-EINVAL, [], ⟨[.file 0], []⟩, [.file 0]) := by
  decide

/-- C5: no pattern of the table `options` yields Opt_add, so an option that
starts with add= is an unknown option; "add=2:/x=rw+nolwh" returns -EINVAL with
no record and no lookup. -/
theorem add_option_unknown (k : Kconfig) (t : CStr) :
    (match_token (cs "add=" ++ t) (options k) Opt_err).1 = Opt_err ∧
    (au_opts_parse x86_64 demo_env (cs "add=2:/x=rw+nolwh") (fresh_opts 8 0)).map
        (fun p => (p.err, records p.opt, p.refs))
      = some (-EINVAL, [], Refs.none) := by
  refine ⟨?_, by decide⟩
  cases hk1 : k.CONFIG_PROC_FS <;> cases hk2 : k.CONFIG_AUFS_DEBUG <;>
    simp [options, match_token, match_one, cs, hk1, hk2]

/-! ## Cutting a string at a delimiter -/

theorem upto_of_not_mem (c : Char) : ∀ s : CStr, c ∉ s → upto s c = s
  | [], _ => rfl
  | x :: xs, h => by
    have hx : x ≠ c := fun e => h (by simp [e])
    have hxs : c ∉ xs := fun e => h (by simp [e])
    simp [upto, hx, upto_of_not_mem c xs hxs]

theorem strchr_of_not_mem (c : Char) : ∀ s : CStr, c ∉ s → strchr s c = none
  | [], _ => rfl
  | x :: xs, h => by
    have hx : x ≠ c := fun e => h (by simp [e])
    have hxs : c ∉ xs := fun e => h (by simp [e])
    simp [strchr, hx, strchr_of_not_mem c xs hxs]

theorem after_of_not_mem (c : Char) (s : CStr) (h : c ∉ s) : after s c = none := by
  simp [after, strchr_of_not_mem c s h]

theorem upto_append_cons (c : Char) (b : CStr) : ∀ a : CStr, c ∉ a → upto (a ++ c :: b) c = a
  | [], _ => by simp [upto]
  | x :: xs, h => by
    have hx : x ≠ c := fun e => h (by simp [e])
    have hxs : c ∉ xs := fun e => h (by simp [e])
    simp [upto, hx, upto_append_cons c b xs hxs]

theorem strchr_append_cons (c : Char) (b : CStr) :
    ∀ a : CStr, c ∉ a → strchr (a ++ c :: b) c = some (c :: b)
  | [], _ => by simp [strchr]
  | x :: xs, h => by
    have hx : x ≠ c := fun e => h (by simp [e])
    have hxs : c ∉ xs := fun e => h (by simp [e])
    simp [strchr, hx, strchr_append_cons c b xs hxs]

theorem after_append_cons (c : Char) (a b : CStr) (h : c ∉ a) :
    after (a ++ c :: b) c = some b := by
  simp [after, strchr_append_cons c b a h]

/-! ## One round of the loop of `au_opts_parse` -/

/-- A string without a comma is one option: the loop runs its body once. -/
theorem au_opts_parse_loop_single (k : Kconfig) (env : Env) (sb_flags max_opt fuel : Nat)
    (s : CStr) (v : Vars) (hs : s ≠ []) (hc : ',' ∉ s) (hv : v.err = 0) :
    au_opts_parse_loop k env sb_flags max_opt (fuel + 1) (some s) v
      = parse_step k env sb_flags max_opt s v := by
  cases fuel <;>
    simp [au_opts_parse_loop, strsep, hv, upto_of_not_mem ',' s hc, after_of_not_mem ',' s hc, hs]

/-- The first option of a string is parsed, then the loop goes on behind the comma. -/
theorem au_opts_parse_loop_cons (k : Kconfig) (env : Env) (sb_flags max_opt fuel : Nat)
    (s rest : CStr) (v : Vars) (hs : s ≠ []) (hc : ',' ∉ s) (hv : v.err = 0) :
    au_opts_parse_loop k env sb_flags max_opt (fuel + 1) (some (s ++ ',' :: rest)) v
      = au_opts_parse_loop k env sb_flags max_opt fuel (some rest)
          (parse_step k env sb_flags max_opt s v) := by
  simp [au_opts_parse_loop, strsep, hv, upto_append_cons ',' rest s hc,
    after_append_cons ',' s rest hc, hs]

/-- Parsing a string that is one option: the body of the loop once, then the
end of `au_opts_parse`. -/
theorem au_opts_parse_single (k : Kconfig) (env : Env) (s : CStr) (opts : au_opts)
    (hmem : env.kmalloc = true) (hs : s ≠ []) (hc : ',' ∉ s) :
    au_opts_parse k env s opts
      = au_opts_parse_end k (parse_step k env opts.sb_flags opts.max_opt s (parse_start opts)) := by
  have hv : (parse_start opts).err = 0 := rfl
  simp only [au_opts_parse, hmem, au_opts_parse_loop_single k env _ _ _ s _ hs hc hv]
  simp

/-- The body of the loop when the switch accepted a record and there is room
for the tail marker behind it. -/
theorem parse_step_append (k : Kconfig) (env : Env) (sb_flags max_opt : Nat) (s : CStr)
    (v w : Vars) (h : parse_switch k env sb_flags max_opt s v = (w, false))
    (herr : w.err = 0) (hroom : w.opt + 2 ≤ max_opt) :
    parse_step k env sb_flags max_opt s v
      = { w with opt := w.opt + 1, opts := set_type w.opts (w.opt + 1) Opt_tail } := by
  simp only [parse_step, h, herr, true_and, if_true]
  rw [if_neg (by omega)]

/-- The body of the loop when the switch accepted a record in the last slot. -/
theorem parse_step_full (k : Kconfig) (env : Env) (sb_flags max_opt : Nat) (s : CStr)
    (v w : Vars) (h : parse_switch k env sb_flags max_opt s v = (w, false))
    (herr : w.err = 0) (hfull : max_opt < w.opt + 2) :
    parse_step k env sb_flags max_opt s v
      = { w with err := -E2BIG, opts := set_type w.opts w.opt Opt_tail } := by
  simp only [parse_step, h, herr, true_and, if_true]
  rw [if_pos (by omega)]

/-- The body of the loop when the switch failed. -/
theorem parse_step_fail (k : Kconfig) (env : Env) (sb_flags max_opt : Nat) (s : CStr)
    (v w : Vars) (sk : Bool) (h : parse_switch k env sb_flags max_opt s v = (w, sk))
    (herr : w.err ≠ 0) :
    parse_step k env sb_flags max_opt s v = w := by
  simp [parse_step, h, herr]

/-- The body of the loop when the switch set `skipped`. -/
theorem parse_step_skipped (k : Kconfig) (env : Env) (sb_flags max_opt : Nat) (s : CStr)
    (v w : Vars) (h : parse_switch k env sb_flags max_opt s v = (w, true)) :
    parse_step k env sb_flags max_opt s v = w := by
  simp [parse_step, h]

theorem match_token_xino (k : Kconfig) (p : CStr) (hp : p ≠ []) :
    match_token (cs "xino=" ++ p) (options k) Opt_err = (Opt_xino, [⟨p, p.length⟩]) := by
  cases hk1 : k.CONFIG_PROC_FS <;> cases hk2 : k.CONFIG_AUFS_DEBUG <;>
    simp [options, match_token, match_one, cs, hk1, hk2, MAX_OPT_ARGS, hp]

/-- C6: an xino file that `au_xino_create` opens on the superblock of the union
makes `au_opts_parse_xino` return -EINVAL after one `fput`, and the option
xino=PATH then fails with no record and the file released exactly once; a file
on another superblock is kept in the record with PATH. -/
theorem xino_inside_union_rejected (k : Kconfig) (env : Env) (PATH : CStr) (f : XinoFile)
    (opts : au_opts) (r : Refs) (args : List substring_t)
    (hargs : (arg args 0).from_ = PATH)
    (hopen : env.au_xino_create PATH = .ok f)
    (hpath : PATH ≠ []) (hcomma : ',' ∉ PATH) (hmem : env.kmalloc = true)
    (hlen : opts.opt.length = opts.max_opt) :
    (f.d_sb_is_sb = true →
      au_opts_parse_xino env r args
        = (-EINVAL, none, (r.take (.file r.next)).release (.file r.next)) ∧
      (1 ≤ opts.max_opt →
        ∃ p, au_opts_parse k env (cs "xino=" ++ PATH) opts = some p ∧ p.err = -EINVAL ∧
          records p.opt = [] ∧ p.refs = ⟨[.file 0], [.file 0]⟩ ∧ p.refs.released_once)) ∧
    (f.d_sb_is_sb = false →
      au_opts_parse_xino env r args
        = (0, some ⟨PATH, ⟨f.d_parent, false, r.next⟩⟩, r.take (.file r.next)) ∧
      (2 ≤ opts.max_opt →
        ∃ p, au_opts_parse k env (cs "xino=" ++ PATH) opts = some p ∧ p.err = 0 ∧
          records p.opt = [⟨Opt_xino, .xino ⟨PATH, ⟨f.d_parent, false, 0⟩⟩⟩] ∧
          p.refs = ⟨[.file 0], []⟩)) := by
  have hne : cs "xino=" ++ PATH ≠ [] := by simp [cs]
  have hc : ',' ∉ cs "xino=" ++ PATH := by simp [cs, hcomma]
  obtain ⟨arr, max_opt, sb_flags⟩ := opts
  simp only at hlen
  subst hlen
  constructor
  · intro hsb
    refine ⟨by simp [au_opts_parse_xino, hargs, hopen, hsb], ?_⟩
    intro hcap
    match arr, hcap with
    | a0 :: rest, _ =>
      have hsw : parse_switch k env sb_flags (a0 :: rest).length (cs "xino=" ++ PATH)
          (parse_start ⟨a0 :: rest, (a0 :: rest).length, sb_flags⟩)
          = (⟨-EINVAL, ⟨Opt_tail, a0.u⟩ :: rest, 0, 0, ⟨[.file 0], [.file 0]⟩⟩, false) := by
        simp [parse_switch, match_token_xino k PATH hpath, parse_case, au_opts_parse_xino, arg,
          hopen, hsb, parse_start, set_type, Refs.none, Refs.take, Refs.release, Refs.next]
      rw [au_opts_parse_single k env _ _ hmem hne hc,
        parse_step_fail _ _ _ _ _ _ _ _ hsw (by simp [EINVAL])]
      cases hd : k.CONFIG_AUFS_DEBUG <;>
        simp [au_opts_parse_end, dump_opts, dump_opts_scan, au_opts_free,
          records, Refs.released_once, hd, EINVAL]
  · intro hsb
    refine ⟨by simp [au_opts_parse_xino, hargs, hopen, hsb], ?_⟩
    intro hcap
    match arr, hcap with
    | a0 :: a1 :: rest, _ =>
      have hsw : parse_switch k env sb_flags (a0 :: a1 :: rest).length (cs "xino=" ++ PATH)
          (parse_start ⟨a0 :: a1 :: rest, (a0 :: a1 :: rest).length, sb_flags⟩)
          = (⟨0, ⟨Opt_xino, .xino ⟨PATH, ⟨f.d_parent, false, 0⟩⟩⟩ :: a1 :: rest, 0, 0,
              ⟨[.file 0], []⟩⟩, false) := by
        simp [parse_switch, match_token_xino k PATH hpath, parse_case, au_opts_parse_xino, arg,
          hopen, hsb, parse_start, set_type, Refs.none, Refs.take, Refs.next]
      rw [au_opts_parse_single k env _ _ hmem hne hc,
        parse_step_append _ _ _ _ _ _ _ hsw rfl (by simp)]
      cases hd : k.CONFIG_AUFS_DEBUG <;>
        simp [au_opts_parse_end, dump_opts, dump_opts_scan, au_opts_free,
          records, hd, set_type]

/-- C6 at the file /u/xi, which opens on the superblock of the union. -/
theorem xino_inside_union_rejected_witness :
    (demo_env.au_xino_create (cs "/u/xi") = .ok ⟨0, true⟩ ∧ cs "/u/xi" ≠ [] ∧
      ',' ∉ cs "/u/xi" ∧ 1 ≤ (fresh_opts 4 0).max_opt) ∧
    ∃ p, au_opts_parse x86_64 demo_env (cs "xino=" ++ cs "/u/xi") (fresh_opts 4 0) = some p ∧
      p.err = -EINVAL ∧ records p.opt = [] ∧ p.refs = ⟨[.file 0], [.file 0]⟩ ∧
      p.refs.released_once :=
  ⟨by decide,
   ((xino_inside_union_rejected x86_64 demo_env (cs "/u/xi") ⟨0, true⟩ (fresh_opts 4 0)
      Refs.none [⟨cs "/u/xi", 5⟩] rfl rfl (by decide) (by decide) rfl rfl).1 rfl).2
      (by decide)⟩

/-! ## Policies that match no pattern -/

theorem match_token_none {α : Type} (s : CStr) (last : α) :
    ∀ table : List (α × CStr), (∀ e ∈ table, match_one s e.2 [] = none) →
      match_token s table last = (last, [])
  | [], _ => rfl
  | (tok, pat) :: rest, h => by
    have h1 : match_one s pat [] = none := h (tok, pat) (by simp)
    have h2 : ∀ e ∈ rest, match_one s e.2 [] = none := fun e he => h e (by simp [he])
    simp [match_token, h1, match_token_none s last rest h2]

theorem match_token_create (k : Kconfig) (pre p : CStr)
    (hpre : pre = cs "create=" ∨ pre = cs "create_policy=") (hp : p ≠ []) :
    match_token (pre ++ p) (options k) Opt_err = (Opt_wbr_create, [⟨p, p.length⟩]) := by
  rcases hpre with h | h <;> subst h <;>
    cases hk1 : k.CONFIG_PROC_FS <;> cases hk2 : k.CONFIG_AUFS_DEBUG <;>
      simp [options, match_token, match_one, cs, hk1, hk2, MAX_OPT_ARGS, hp]

theorem match_token_cpup (k : Kconfig) (pre p : CStr)
    (hpre : pre = cs "cpup=" ∨ pre = cs "copyup=" ∨ pre = cs "copyup_policy=") (hp : p ≠ []) :
    match_token (pre ++ p) (options k) Opt_err = (Opt_wbr_copyup, [⟨p, p.length⟩]) := by
  rcases hpre with h | h | h <;> subst h <;>
    cases hk1 : k.CONFIG_PROC_FS <;> cases hk2 : k.CONFIG_AUFS_DEBUG <;>
      simp [options, match_token, match_one, cs, hk1, hk2, MAX_OPT_ARGS, hp]

theorem match_token_policy_empty (k : Kconfig) (pre : CStr)
    (hpre : pre ∈ [cs "create=", cs "create_policy=", cs "cpup=", cs "copyup=",
      cs "copyup_policy="]) :
    match_token pre (options k) Opt_err = (Opt_err, []) := by
  simp only [List.mem_cons, List.mem_singleton, List.not_mem_nil, or_false] at hpre
  rcases hpre with h | h | h | h | h <;> subst h <;>
    cases hk1 : k.CONFIG_PROC_FS <;> cases hk2 : k.CONFIG_AUFS_DEBUG <;>
      simp [options, match_token, match_one, cs, hk1, hk2, MAX_OPT_ARGS]

/-- What the end of `au_opts_parse` makes of a failed parse that left the tail
marker in the first slot. -/
theorem au_opts_parse_end_tail_first (k : Kconfig) (e : Int) (u : Payload)
    (rest : List au_opt) (n : Nat) (b : Int) (he : e ≠ 0) :
    au_opts_parse_end k ⟨e, ⟨Opt_tail, u⟩ :: rest, n, b, Refs.none⟩
      = some ⟨e, ⟨Opt_tail, u⟩ :: rest, Refs.none⟩ := by
  cases hd : k.CONFIG_AUFS_DEBUG <;>
    simp [au_opts_parse_end, dump_opts, dump_opts_scan, au_opts_free, hd, he]

/-- A create= option whose policy returns a negative value from
`au_wbr_create_val` fails with -EINVAL and appends nothing. -/
theorem create_rejected (k : Kconfig) (env : Env) (pre s : CStr) (opts : au_opts)
    (hpre : pre = cs "create=" ∨ pre = cs "create_policy=")
    (hneg : ∀ c, (au_wbr_create_val k s c).1 < 0)
    (hcomma : ',' ∉ s) (hmem : env.kmalloc = true) (hcap : opts.opt ≠ []) :
    ∃ p, au_opts_parse k env (pre ++ s) opts = some p ∧ p.err = -EINVAL ∧
      records p.opt = [] ∧ p.refs = Refs.none := by
  have hne : pre ++ s ≠ [] := by rcases hpre with h | h <;> subst h <;> simp [cs]
  have hc : ',' ∉ pre ++ s := by rcases hpre with h | h <;> subst h <;> simp [cs, hcomma]
  obtain ⟨arr, max_opt, sb_flags⟩ := opts
  match arr, hcap with
  | a0 :: rest, _ =>
    by_cases hs : s = []
    · subst hs
      have hsw : parse_switch k env sb_flags max_opt (pre ++ [])
          (parse_start ⟨a0 :: rest, max_opt, sb_flags⟩)
          = (⟨-EINVAL, ⟨Opt_tail, a0.u⟩ :: rest, 0, 0, Refs.none⟩, false) := by
        have hm := match_token_policy_empty k pre (by rcases hpre with h | h <;> simp [h])
        simp [parse_switch, hm, parse_case, parse_start, set_type]
      rw [au_opts_parse_single k env _ _ hmem hne hc,
        parse_step_fail _ _ _ _ _ _ _ _ hsw (by simp [EINVAL]),
        au_opts_parse_end_tail_first _ _ _ _ _ _ (by simp [EINVAL])]
      exact ⟨_, rfl, rfl, by simp [records], rfl⟩
    · obtain ⟨u, hsw⟩ : ∃ u, parse_switch k env sb_flags max_opt (pre ++ s)
          (parse_start ⟨a0 :: rest, max_opt, sb_flags⟩)
          = (⟨-EINVAL, ⟨Opt_tail, u⟩ :: rest, 0, 0, Refs.none⟩, false) := by
        have hm := match_token_create k pre s hpre hs
        have hcur : (⟨Opt_tail, a0.u⟩ : au_opt).create = a0.create := rfl
        have hn := hneg a0.create
        refine ⟨Payload.wbr_create
          { (au_wbr_create_val k s a0.create).2 with
            wbr_create := (au_wbr_create_val k s a0.create).1 }, ?_⟩
        simp only [parse_switch, hm, parse_case, parse_start, set_type, arg, Vars.cur,
          List.getD_cons_zero, List.set_cons_zero, hcur]
        rw [if_neg (by omega)]
      rw [au_opts_parse_single k env _ _ hmem hne hc,
        parse_step_fail _ _ _ _ _ _ _ _ hsw (by simp [EINVAL]),
        au_opts_parse_end_tail_first _ _ _ _ _ _ (by simp [EINVAL])]
      exact ⟨_, rfl, rfl, by simp [records], rfl⟩

/-- A cpup= option whose policy returns a negative value from
`au_wbr_copyup_val` fails with -EINVAL and appends nothing. -/
theorem copyup_rejected (k : Kconfig) (env : Env) (pre s : CStr) (opts : au_opts)
    (hpre : pre = cs "cpup=" ∨ pre = cs "copyup=" ∨ pre = cs "copyup_policy=")
    (hneg : au_wbr_copyup_val s < 0)
    (hcomma : ',' ∉ s) (hmem : env.kmalloc = true) (hcap : opts.opt ≠ []) :
    ∃ p, au_opts_parse k env (pre ++ s) opts = some p ∧ p.err = -EINVAL ∧
      records p.opt = [] ∧ p.refs = Refs.none := by
  have hne : pre ++ s ≠ [] := by rcases hpre with h | h | h <;> subst h <;> simp [cs]
  have hc : ',' ∉ pre ++ s := by rcases hpre with h | h | h <;> subst h <;> simp [cs, hcomma]
  obtain ⟨arr, max_opt, sb_flags⟩ := opts
  match arr, hcap with
  | a0 :: rest, _ =>
    by_cases hs : s = []
    · subst hs
      have hsw : parse_switch k env sb_flags max_opt (pre ++ [])
          (parse_start ⟨a0 :: rest, max_opt, sb_flags⟩)
          = (⟨-EINVAL, ⟨Opt_tail, a0.u⟩ :: rest, 0, 0, Refs.none⟩, false) := by
        have hm := match_token_policy_empty k pre (by rcases hpre with h | h | h <;> simp [h])
        simp [parse_switch, hm, parse_case, parse_start, set_type]
      rw [au_opts_parse_single k env _ _ hmem hne hc,
        parse_step_fail _ _ _ _ _ _ _ _ hsw (by simp [EINVAL]),
        au_opts_parse_end_tail_first _ _ _ _ _ _ (by simp [EINVAL])]
      exact ⟨_, rfl, rfl, by simp [records], rfl⟩
    · have hsw : parse_switch k env sb_flags max_opt (pre ++ s)
          (parse_start ⟨a0 :: rest, max_opt, sb_flags⟩)
          = (⟨-EINVAL, ⟨Opt_tail, .wbr_copyup (au_wbr_copyup_val s)⟩ :: rest, 0, 0,
              Refs.none⟩, false) := by
        have hm := match_token_cpup k pre s hpre hs
        simp only [parse_switch, hm, parse_case, parse_start, set_type, arg, Vars.cur,
          List.getD_cons_zero, List.set_cons_zero]
        rw [if_neg (by omega)]
      rw [au_opts_parse_single k env _ _ hmem hne hc,
        parse_step_fail _ _ _ _ _ _ _ _ hsw (by simp [EINVAL]),
        au_opts_parse_end_tail_first _ _ _ _ _ _ (by simp [EINVAL])]
      exact ⟨_, rfl, rfl, by simp [records], rfl⟩

/-- A string that no pattern of `au_wbr_create_policy` matches gets the token
of the terminating entry from `au_wbr_create_val`. -/
theorem au_wbr_create_val_unmatched (k : Kconfig) (s : CStr) (c : au_opt_wbr_create)
    (h : ∀ e ∈ au_wbr_create_policy, match_one s e.2 [] = none) :
    au_wbr_create_val k s c = (-1, { c with wbr_create := -1 }) := by
  simp [au_wbr_create_val, match_token_none s (-1) _ h, AuWbrCreate_MFSRRV,
    AuWbrCreate_PMFSRRV, AuWbrCreate_MFSRR, AuWbrCreate_PMFSRR, AuWbrCreate_MFS,
    AuWbrCreate_PMFS, AuWbrCreate_MFSV, AuWbrCreate_PMFSV]

/-- C7: a policy string that matches no pattern of the create-policy table
(of the copy-up policy table) makes the option create= (cpup=), in each of its
spellings, fail with -EINVAL; no record is appended, no default is taken. -/
theorem unknown_policy_rejected (k : Kconfig) (env : Env) (s : CStr) (opts : au_opts)
    (hcomma : ',' ∉ s) (hmem : env.kmalloc = true) (hcap : opts.opt ≠ []) :
    ((∀ e ∈ au_wbr_create_policy, match_one s e.2 [] = none) →
      ∀ pre ∈ [cs "create=", cs "create_policy="],
        ∃ p, au_opts_parse k env (pre ++ s) opts = some p ∧ p.err = -EINVAL ∧
          records p.opt = [] ∧ p.refs = Refs.none) ∧
    ((∀ e ∈ au_wbr_copyup_policy, match_one s e.2 [] = none) →
      ∀ pre ∈ [cs "cpup=", cs "copyup=", cs "copyup_policy="],
        ∃ p, au_opts_parse k env (pre ++ s) opts = some p ∧ p.err = -EINVAL ∧
          records p.opt = [] ∧ p.refs = Refs.none) := by
  constructor
  · intro h pre hpre
    simp only [List.mem_cons, List.mem_singleton, List.not_mem_nil, or_false] at hpre
    refine create_rejected k env pre s opts hpre (fun c => ?_) hcomma hmem hcap
    rw [au_wbr_create_val_unmatched k s c h]; simp
  · intro h pre hpre
    simp only [List.mem_cons, List.mem_singleton, List.not_mem_nil, or_false] at hpre
    refine copyup_rejected k env pre s opts hpre ?_ hcomma hmem hcap
    simp [au_wbr_copyup_val, match_token_none s (-1) _ h]

/-- C7 at the policy string fastest, for create= and for cpup=. -/
theorem unknown_policy_rejected_witness :
    (',' ∉ cs "fastest" ∧ demo_env.kmalloc = true ∧ (fresh_opts 4 0).opt ≠ [] ∧
      (∀ e ∈ au_wbr_create_policy, match_one (cs "fastest") e.2 [] = none) ∧
      (∀ e ∈ au_wbr_copyup_policy, match_one (cs "fastest") e.2 [] = none)) ∧
    (∃ p, au_opts_parse x86_64 demo_env (cs "create=" ++ cs "fastest") (fresh_opts 4 0) = some p ∧
      p.err = -EINVAL ∧ records p.opt = [] ∧ p.refs = Refs.none) ∧
    (∃ p, au_opts_parse x86_64 demo_env (cs "cpup=" ++ cs "fastest") (fresh_opts 4 0) = some p ∧
      p.err = -EINVAL ∧ records p.opt = [] ∧ p.refs = Refs.none) :=
  ⟨by decide,
   (unknown_policy_rejected x86_64 demo_env (cs "fastest") (fresh_opts 4 0) (by decide) rfl
      (by decide)).1 (by decide) _ (by decide),
   (unknown_policy_rejected x86_64 demo_env (cs "fastest") (fresh_opts 4 0) (by decide) rfl
      (by decide)).2 (by decide) _ (by decide)⟩

/-! ## Branch options -/

/-- A pattern without a conversion matches the string equal to it, and no other. -/
theorem match_one_literal (args : List substring_t) :
    ∀ (p s : CStr), '%' ∉ p → match_one s p args = if s = p then some args else none
  | [], s, _ => by rw [match_one.eq_def]
  | c :: p, [], h => by
    have hc : c ≠ '%' := fun e => h (by simp [e])
    rw [match_one.eq_def]; simp [hc]
  | c :: p, x :: s, h => by
    have hc : c ≠ '%' := fun e => h (by simp [e])
    have hp : '%' ∉ p := fun e => h (by simp [e])
    rw [match_one.eq_def]
    by_cases hx : x = c
    · simp [hc, hx, match_one_literal args p s hp]
    · simp [hc, hx]

/-- A base token that is neither ro nor rw gets the plain read-only permission. -/
theorem br_perm_val_unknown_base (s : CStr) (hro : upto s '+' ≠ AUFS_BRPERM_RO)
    (hrw : upto s '+' ≠ AUFS_BRPERM_RW) : br_perm_val s = AuBrPerm_RO := by
  have h1 : match_one (upto s '+') AUFS_BRPERM_RO [] = none := by
    rw [match_one_literal [] _ _ (by decide)]; simp [hro]
  have h2 : match_one (upto s '+') AUFS_BRPERM_RW [] = none := by
    rw [match_one_literal [] _ _ (by decide)]; simp [hrw]
  simp [br_perm_val, brperm, match_token, h1, h2]

theorem match_token_br (k : Kconfig) (p : CStr) (hp : p ≠ []) :
    match_token (cs "br=" ++ p) (options k) Opt_err = (Opt_br, [⟨p, p.length⟩]) := by
  cases hk1 : k.CONFIG_PROC_FS <;> cases hk2 : k.CONFIG_AUFS_DEBUG <;>
    simp [options, match_token, match_one, cs, hk1, hk2, MAX_OPT_ARGS, hp]

/-- The record `opt_add` writes for a path with a permission behind an equals sign. -/
theorem opt_add_with_perm (env : Env) (r : Refs) (o : au_opt) (pathname perm : CStr)
    (sb_flags : Nat) (bindex : Int) (d : Nat) (heq : '=' ∉ pathname)
    (hlook : env.vfsub_kern_path pathname = .ok d) :
    opt_add env r o (pathname ++ '=' :: perm) sb_flags bindex
      = (0, add_rec bindex pathname (if perm ≠ [] then br_perm_val perm else AuBrPerm_RO)
              d r.next, r.take (.path r.next)) := by
  simp [opt_add, upto_append_cons '=' perm pathname heq,
    after_append_cons '=' pathname perm heq, hlook, add_rec]

/-- The record `opt_add` writes for a path without a permission. -/
theorem opt_add_plain (env : Env) (r : Refs) (o : au_opt) (pathname : CStr)
    (sb_flags : Nat) (bindex : Int) (d : Nat) (heq : '=' ∉ pathname)
    (hlook : env.vfsub_kern_path pathname = .ok d) :
    opt_add env r o pathname sb_flags bindex
      = (0, add_rec bindex pathname
              (if bindex = 0 ∧ sb_flags &&& MS_RDONLY = 0 then AuBrPerm_RW else AuBrPerm_RO)
              d r.next, r.take (.path r.next)) := by
  simp [opt_add, upto_of_not_mem '=' pathname heq, after_of_not_mem '=' pathname heq, hlook,
    add_rec]

/-- The body of the loop of the case Opt_br when `opt_add` succeeds and there is
room for the tail marker behind the record. -/
theorem br_step_ok (env : Env) (sb_flags max_opt : Nat) (s : CStr) (sk : Bool) (v : Vars)
    (o : au_opt) (refs : Refs)
    (h : opt_add env v.refs v.cur s sb_flags v.bindex = (0, o, refs))
    (hroom : v.opt + 2 ≤ max_opt) :
    br_step env sb_flags max_opt s sk v
      = (⟨0, set_type (v.opts.set v.opt o) (v.opt + 1) Opt_tail, v.opt + 1, v.bindex + 1,
          refs⟩, true) := by
  simp only [br_step, h, true_and, if_true]
  rw [if_neg (by omega)]

/-- The body of the loop of the case Opt_br when `opt_add` succeeds in the last
slot: -E2BIG, and no tail marker is written. -/
theorem br_step_full (env : Env) (sb_flags max_opt : Nat) (s : CStr) (sk : Bool) (v : Vars)
    (o : au_opt) (refs : Refs)
    (h : opt_add env v.refs v.cur s sb_flags v.bindex = (0, o, refs))
    (hfull : max_opt < v.opt + 2) :
    br_step env sb_flags max_opt s sk v
      = (⟨-E2BIG, v.opts.set v.opt o, v.opt + 1, v.bindex + 1, refs⟩, sk) := by
  simp only [br_step, h, true_and]
  rw [if_pos (by omega)]

/-- The loop of the case Opt_br on a list of one path. -/
theorem br_loop_single (env : Env) (sb_flags max_opt fuel : Nat) (s : CStr) (sk : Bool)
    (v : Vars) (hs : s ≠ []) (hc : ':' ∉ s) (hv : v.err = 0) :
    br_loop env sb_flags max_opt (fuel + 1) (some s) sk v
      = br_step env sb_flags max_opt s sk v := by
  cases fuel <;>
    simp [br_loop, strsep, hv, upto_of_not_mem ':' s hc, after_of_not_mem ':' s hc, hs]

/-- The loop of the case Opt_br goes on behind the colon after the first path. -/
theorem br_loop_cons (env : Env) (sb_flags max_opt fuel : Nat) (s rest : CStr) (sk : Bool)
    (v : Vars) (hs : s ≠ []) (hc : ':' ∉ s) (hv : v.err = 0) :
    br_loop env sb_flags max_opt (fuel + 1) (some (s ++ ':' :: rest)) sk v
      = br_loop env sb_flags max_opt fuel (some rest)
          (br_step env sb_flags max_opt s sk v).2 (br_step env sb_flags max_opt s sk v).1 := by
  simp [br_loop, strsep, hv, upto_append_cons ':' rest s hc, after_append_cons ':' s rest hc, hs]

/-- C8: a permission string whose base token is neither ro nor rw makes
`br_perm_val` return the plain read-only permission, and the option
br=PATH=PERM still parses to one read-only branch record when PATH resolves. -/
theorem unknown_perm_degrades (k : Kconfig) (env : Env) (pathname perm : CStr) (d : Nat)
    (opts : au_opts)
    (hro : upto perm '+' ≠ AUFS_BRPERM_RO) (hrw : upto perm '+' ≠ AUFS_BRPERM_RW)
    (hp1 : ',' ∉ pathname) (hp2 : ':' ∉ pathname)
    (hp3 : '=' ∉ pathname) (hq1 : ',' ∉ perm) (hq2 : ':' ∉ perm)
    (hlook : env.vfsub_kern_path pathname = .ok d) (hmem : env.kmalloc = true)
    (hlen : opts.opt.length = opts.max_opt) (hcap : 2 ≤ opts.max_opt) :
    br_perm_val perm = AuBrPerm_RO ∧
    ∃ p, au_opts_parse k env (cs "br=" ++ (pathname ++ '=' :: perm)) opts = some p ∧
      p.err = 0 ∧ records p.opt = [add_rec 0 pathname AuBrPerm_RO d 0] ∧
      p.refs = ⟨[.path 0], []⟩ := by
  have hval := br_perm_val_unknown_base perm hro hrw
  refine ⟨hval, ?_⟩
  have hne : cs "br=" ++ (pathname ++ '=' :: perm) ≠ [] := by simp [cs]
  have hc : ',' ∉ cs "br=" ++ (pathname ++ '=' :: perm) := by simp [cs, hp1, hq1]
  have hc2 : ':' ∉ pathname ++ '=' :: perm := by simp [hp2, hq2]
  have hne2 : pathname ++ '=' :: perm ≠ [] := by simp
  obtain ⟨arr, max_opt, sb_flags⟩ := opts
  simp only at hlen hcap
  subst hlen
  match arr, hcap with
  | a0 :: a1 :: rest, _ =>
    have hperm : (if perm ≠ [] then br_perm_val perm else AuBrPerm_RO) = AuBrPerm_RO := by
      split <;> simp [hval]
    have hsw : parse_switch k env sb_flags (a0 :: a1 :: rest).length
        (cs "br=" ++ (pathname ++ '=' :: perm))
        (parse_start ⟨a0 :: a1 :: rest, (a0 :: a1 :: rest).length, sb_flags⟩)
        = (⟨0, add_rec 0 pathname AuBrPerm_RO d 0 :: ⟨Opt_tail, a1.u⟩ :: rest, 1, 1,
            ⟨[.path 0], []⟩⟩, true) := by
      simp only [parse_switch, match_token_br k _ hne2, parse_case, arg, List.getD_cons_zero]
      rw [br_loop_single env _ _ _ _ _ _ hne2 hc2 rfl,
        br_step_ok env _ _ _ _ _ _ _
          (opt_add_with_perm env _ _ pathname perm _ _ d hp3 hlook)
          (by simp only [parse_start, List.length_cons]; omega)]
      simp [parse_start, set_type, Refs.none, Refs.take, Refs.next, hperm]
    rw [au_opts_parse_single k env _ _ hmem hne hc,
      parse_step_skipped _ _ _ _ _ _ _ hsw]
    cases hd : k.CONFIG_AUFS_DEBUG <;>
      simp [au_opts_parse_end, dump_opts, dump_opts_scan, records, hd, add_rec]

/-- C8 at the option br=/a=bogus+wh. -/
theorem unknown_perm_degrades_witness :
    (upto (cs "bogus+wh") '+' ≠ AUFS_BRPERM_RO ∧ upto (cs "bogus+wh") '+' ≠ AUFS_BRPERM_RW ∧
      demo_env.vfsub_kern_path (cs "/a") = .ok 1 ∧ 2 ≤ (fresh_opts 4 0).max_opt) ∧
    br_perm_val (cs "bogus+wh") = AuBrPerm_RO ∧
    ∃ p, au_opts_parse x86_64 demo_env (cs "br=" ++ (cs "/a" ++ '=' :: cs "bogus+wh"))
        (fresh_opts 4 0) = some p ∧
      p.err = 0 ∧ records p.opt = [add_rec 0 (cs "/a") AuBrPerm_RO 1 0] ∧
      p.refs = ⟨[.path 0], []⟩ :=
  ⟨by decide,
   unknown_perm_degrades x86_64 demo_env (cs "/a") (cs "bogus+wh") 1 (fresh_opts 4 0)
     (by decide) (by decide) (by decide) (by decide) (by decide) (by decide) (by decide)
     rfl rfl rfl (by decide)⟩

/-! ## What the conversion %d consumes -/

theorem digit_val_colon : digit_val ':' = none := by decide

/-- The loop of `_parse_integer` stops at a colon. -/
theorem parse_integer_loop_colon (base : Nat) :
    ∀ (u : CStr) (res rv : Nat) (ovf : Bool),
      (_parse_integer_loop base (u ++ [':']) res rv ovf).2.1 ≤ rv + u.length
  | [], res, rv, ovf => by simp [_parse_integer_loop, digit_val_colon]
  | c :: u, res, rv, ovf => by
    simp only [List.cons_append, _parse_integer_loop, List.length_cons]
    split
    · simp only; omega
    · split
      · simp only; omega
      · have := parse_integer_loop_colon base u
        refine le_trans (this _ _ _) ?_
        omega

/-- The routine `_parse_integer_fixup_radix` returns its string, or skips a 0x. -/
theorem fixup_radix_cases (s : CStr) (base : Nat) :
    (_parse_integer_fixup_radix s base).1 = s ∨
      ∃ x rest, s = '0' :: x :: rest ∧ _tolower x = 120 ∧
        (_parse_integer_fixup_radix s base).1 = rest := by
  have key : ∀ b : Nat,
      (match s with
        | '0' :: x :: rest => if b = 16 ∧ _tolower x = 120 then (rest, b) else (s, b)
        | _ => (s, b)).1 = s ∨
      ∃ x rest, s = '0' :: x :: rest ∧ _tolower x = 120 ∧
        (match s with
          | '0' :: x :: rest => if b = 16 ∧ _tolower x = 120 then (rest, b) else (s, b)
          | _ => (s, b)).1 = rest := by
    intro b
    split
    · split
      · rename_i hb
        right; exact ⟨_, _, rfl, hb.2, rfl⟩
      · left; rfl
    · left; rfl
  exact key _

/-- The function `simple_strtoull` does not read past a colon. -/
theorem simple_strtoull_colon (u : CStr) (base : Nat) :
    (simple_strtoull (u ++ [':']) base).2 ≤ u.length := by
  have hloop : ∀ (s : CStr) (b : Nat), (_parse_integer (s ++ [':']) b).2.1 ≤ s.length := by
    intro s b
    have := parse_integer_loop_colon b s 0 0 false
    simpa [_parse_integer] using this
  unfold simple_strtoull
  rcases fixup_radix_cases (u ++ [':']) base with h | ⟨x, rest, hs, hx, h⟩
  · generalize _parse_integer_fixup_radix (u ++ [':']) base = fr at h ⊢
    obtain ⟨s1, b⟩ := fr
    simp only at h ⊢
    subst h
    simpa using hloop u b
  · match u, hs with
    | [a], hs =>
      simp only [List.cons_append, List.nil_append, List.cons.injEq] at hs
      obtain ⟨_, hx2, _⟩ := hs
      subst hx2
      exact absurd hx (by decide)
    | a :: b :: u1, hs =>
      simp only [List.cons_append, List.cons.injEq] at hs
      obtain ⟨_, _, hr⟩ := hs
      subst hr
      generalize _parse_integer_fixup_radix (a :: b :: u1 ++ [':']) base = fr at h ⊢
      obtain ⟨s1, b1⟩ := fr
      simp only at h ⊢
      subst h
      have hle : (_parse_integer (u1 ++ [':']) b1).2.1 ≤ u1.length := hloop u1 b1
      generalize (_parse_integer (u1 ++ [':']) b1).2.1 = rv at hle ⊢
      simp only [List.cons_append, List.length_cons, List.length_append, List.length_singleton,
        List.length_nil]
      omega

/-- The conversion %d does not consume a colon: in a string that ends with one,
something is left behind it. -/
theorem strtol_len_colon (u : CStr) : strtol_len (u ++ [':']) ≤ u.length := by
  unfold strtol_len
  split
  · rename_i rest heq
    match u, heq with
    | [], heq => simp at heq
    | a :: u1, heq =>
      simp only [List.cons_append, List.cons.injEq] at heq
      obtain ⟨_, hr⟩ := heq
      subst hr
      have := simple_strtoull_colon u1 0
      simp only [List.length_cons]
      omega
  · exact simple_strtoull_colon u 0

/-- A pattern that ends with %d does not match a string that ends with a colon. -/
theorem match_one_d_colon (u : CStr) (args : List substring_t) :
    match_one (u ++ [':']) ['%', 'd'] args = none := by
  rw [match_one.eq_def]
  simp only [ne_eq, not_true_eq_false, if_false]
  have h1 : ¬ ('d' = '%') := by decide
  have h2 : ¬ ('d' = 's') := by decide
  simp only [h1, h2, if_false, if_true]
  split
  · rfl
  · split
    · rfl
    · rw [match_one.eq_def]
      have hlen := strtol_len_colon u
      have : List.drop (strtol_len (u ++ [':'])) (u ++ [':']) ≠ [] := by
        intro h
        have := congrArg List.length h
        simp at this
        omega
      simp [this]

/-- The pattern %d:%d does not match a string that ends with a colon. -/
theorem match_one_dd_colon (u : CStr) (args : List substring_t) :
    match_one (u ++ [':']) ['%', 'd', ':', '%', 'd'] args = none := by
  rw [match_one.eq_def]
  simp only [ne_eq, not_true_eq_false, if_false]
  have h1 : ¬ ('d' = '%') := by decide
  have h2 : ¬ ('d' = 's') := by decide
  simp only [h1, h2, if_false, if_true]
  split
  · rfl
  · split
    · rfl
    · have hlen := strtol_len_colon u
      have hdrop : List.drop (strtol_len (u ++ [':'])) (u ++ [':'])
          = List.drop (strtol_len (u ++ [':'])) u ++ [':'] := by
        rw [List.drop_append_of_le_length hlen]
      rw [hdrop]
      generalize List.drop (strtol_len (u ++ [':'])) u = w
      generalize args ++ [{ from_ := u ++ [':'], len := strtol_len (u ++ [':']) }] = args1
      cases w with
      | nil =>
        simp [match_one, strtol_len, simple_strtoull, _parse_integer_fixup_radix,
          _parse_integer, _parse_integer_loop]
      | cons x w1 =>
        rw [match_one.eq_def]
        by_cases hx : x = ':'
        · subst hx
          simp [match_one_d_colon w1 args1]
        · simp [hx]

/-- The literal characters at the head of a pattern are compared one by one. -/
theorem match_one_append (args : List substring_t) (s p : CStr) :
    ∀ pre : CStr, '%' ∉ pre → match_one (pre ++ s) (pre ++ p) args = match_one s p args
  | [], _ => rfl
  | c :: pre, h => by
    have hc : c ≠ '%' := fun e => h (by simp [e])
    have hp : '%' ∉ pre := fun e => h (by simp [e])
    rw [List.cons_append, List.cons_append, match_one.eq_def]
    simp [hc, match_one_append args s p pre hp]

/-- No pattern of the create-policy table matches a watermark keyword followed
by a colon, anything, and a closing colon. -/
theorem create_policy_trailing_colon (W : CStr) :
    (∀ e ∈ au_wbr_create_policy, match_one (cs "mfsrr:" ++ (W ++ [':'])) e.2 [] = none) ∧
    (∀ e ∈ au_wbr_create_policy, match_one (cs "pmfsrr:" ++ (W ++ [':'])) e.2 [] = none) := by
  have h1 : match_one (cs "mfsrr:" ++ (W ++ [':'])) (cs "mfsrr:%d") [] = none := by
    have := match_one_append [] (W ++ [':']) ['%', 'd'] (cs "mfsrr:") (by decide)
    exact this.trans (match_one_d_colon W [])
  have h2 : match_one (cs "mfsrr:" ++ (W ++ [':'])) (cs "mfsrr:%d:%d") [] = none := by
    have := match_one_append [] (W ++ [':']) ['%', 'd', ':', '%', 'd'] (cs "mfsrr:") (by decide)
    exact this.trans (match_one_dd_colon W [])
  have h3 : match_one (cs "pmfsrr:" ++ (W ++ [':'])) (cs "pmfsrr:%d") [] = none := by
    have := match_one_append [] (W ++ [':']) ['%', 'd'] (cs "pmfsrr:") (by decide)
    exact this.trans (match_one_d_colon W [])
  have h4 : match_one (cs "pmfsrr:" ++ (W ++ [':'])) (cs "pmfsrr:%d:%d") [] = none := by
    have := match_one_append [] (W ++ [':']) ['%', 'd', ':', '%', 'd'] (cs "pmfsrr:") (by decide)
    exact this.trans (match_one_dd_colon W [])
  constructor <;>
  · intro e he
    simp only [au_wbr_create_policy, List.mem_cons, List.mem_singleton, List.not_mem_nil,
      or_false] at he
    rcases he with h | h | h | h | h | h | h | h | h | h | h | h | h | h <;> subst h <;>
      first
      | exact h1
      | exact h2
      | exact h3
      | exact h4
      | simp [match_one, cs]

/-- No pattern of the create-policy table matches a string of `omits_parameter`. -/
theorem omits_parameter_unmatched (s : CStr) (h : omits_parameter s) :
    ∀ e ∈ au_wbr_create_policy, match_one s e.2 [] = none := by
  rcases h with h | ⟨W, h | h⟩
  · have key : ∀ t ∈ [cs "mfsrr", cs "pmfsrr", cs "mfs:", cs "most-free-space:", cs "pmfs:",
        cs "mfsrr:", cs "pmfsrr:"],
        ∀ e ∈ au_wbr_create_policy, match_one t e.2 [] = none := by decide
    exact key s h
  · subst h; exact (create_policy_trailing_colon W).1
  · subst h; exact (create_policy_trailing_colon W).2

/-- The conversion %d takes what `simple_strtol` consumes and the match goes on
behind it. -/
theorem match_one_d (s p : CStr) (args : List substring_t)
    (hargs : args.length < MAX_OPT_ARGS) (hn : strtol_len s ≠ 0) :
    match_one s ('%' :: 'd' :: p) args
      = match_one (s.drop (strtol_len s)) p (args ++ [⟨s, strtol_len s⟩]) := by
  rw [match_one.eq_def]
  have h1 : ¬ ('d' = '%') := by decide
  have h2 : ¬ ('d' = 's') := by decide
  have h3 : ¬ (args.length ≥ MAX_OPT_ARGS) := by omega
  simp only [ne_eq, not_true_eq_false, if_false, h1, h2, h3, if_true, hn]

/-- A table whose first entries do not match and whose next entry does. -/
theorem match_token_at {α : Type} (s : CStr) (last tok : α) (pat : CStr)
    (args : List substring_t) (post : List (α × CStr)) :
    ∀ pre : List (α × CStr), (∀ e ∈ pre, match_one s e.2 [] = none) →
      match_one s pat [] = some args →
      match_token s (pre ++ (tok, pat) :: post) last = (tok, args)
  | [], _, hm => by simp [match_token, hm]
  | (t1, p1) :: pre, hf, hm => by
    have h1 : match_one s p1 [] = none := hf (t1, p1) (by simp)
    have h2 : ∀ e ∈ pre, match_one s e.2 [] = none := fun e he => hf e (by simp [he])
    simp [match_token, h1, match_token_at s last tok pat args post pre h2 hm]

/-- A number that the conversion %d takes whole, behind one of the keywords
with seconds only: the token and the argument `match_token` finds. -/
theorem match_token_seconds (t : CStr) (ht : t ≠ []) (hlen : strtol_len t = t.length) :
    match_token (cs "mfs:" ++ t) au_wbr_create_policy (-1)
      = (AuWbrCreate_MFSV, [⟨t, t.length⟩]) ∧
    match_token (cs "most-free-space:" ++ t) au_wbr_create_policy (-1)
      = (AuWbrCreate_MFSV, [⟨t, t.length⟩]) ∧
    match_token (cs "pmfs:" ++ t) au_wbr_create_policy (-1)
      = (AuWbrCreate_PMFSV, [⟨t, t.length⟩]) := by
  have hn : strtol_len t ≠ 0 := by
    rw [hlen]; exact fun h => ht (List.length_eq_zero.mp h)
  have hd : match_one t ['%', 'd'] [] = some [⟨t, t.length⟩] := by
    rw [match_one_d t [] [] (by decide) hn, hlen]
    simp [match_one]
  have m1 : match_one (cs "mfs:" ++ t) (cs "mfs:%d") [] = some [⟨t, t.length⟩] :=
    (match_one_append [] t ['%', 'd'] (cs "mfs:") (by decide)).trans hd
  have m2 : match_one (cs "most-free-space:" ++ t) (cs "most-free-space:%d") []
      = some [⟨t, t.length⟩] :=
    (match_one_append [] t ['%', 'd'] (cs "most-free-space:") (by decide)).trans hd
  have m3 : match_one (cs "pmfs:" ++ t) (cs "pmfs:%d") [] = some [⟨t, t.length⟩] :=
    (match_one_append [] t ['%', 'd'] (cs "pmfs:") (by decide)).trans hd
  refine ⟨?_, ?_, ?_⟩
  · refine match_token_at _ _ _ _ _ _ (au_wbr_create_policy.take 6) ?_ m1
    intro e he
    simp only [au_wbr_create_policy, List.take, List.mem_cons, List.mem_singleton,
      List.not_mem_nil, or_false] at he
    rcases he with h | h | h | h | h | h <;> subst h <;> simp [match_one, cs]
  · refine match_token_at _ _ _ _ _ _ (au_wbr_create_policy.take 7) ?_ m2
    intro e he
    simp only [au_wbr_create_policy, List.take, List.mem_cons, List.mem_singleton,
      List.not_mem_nil, or_false] at he
    rcases he with h | h | h | h | h | h | h <;> subst h <;> simp [match_one, cs]
  · refine match_token_at _ _ _ _ _ _ (au_wbr_create_policy.take 11) ?_ m3
    intro e he
    simp only [au_wbr_create_policy, List.take, List.mem_cons, List.mem_singleton,
      List.not_mem_nil, or_false] at he
    rcases he with h | h | h | h | h | h | h | h | h | h | h <;> subst h <;>
      simp [match_one, cs]

/-- A watermark and a number of seconds behind one of the keywords with both:
the token and the arguments `match_token` finds. -/
theorem match_token_watermark_seconds (W t : CStr) (ht : t ≠ [])
    (hlen : strtol_len t = t.length) (hW : W ≠ [])
    (hWlen : strtol_len (W ++ ':' :: t) = W.length) :
    match_token (cs "mfsrr:" ++ (W ++ ':' :: t)) au_wbr_create_policy (-1)
      = (AuWbrCreate_MFSRRV, [⟨W ++ ':' :: t, W.length⟩, ⟨t, t.length⟩]) ∧
    match_token (cs "pmfsrr:" ++ (W ++ ':' :: t)) au_wbr_create_policy (-1)
      = (AuWbrCreate_PMFSRRV, [⟨W ++ ':' :: t, W.length⟩, ⟨t, t.length⟩]) := by
  have hn : strtol_len t ≠ 0 := by
    rw [hlen]; exact fun h => ht (List.length_eq_zero.mp h)
  have hWn : strtol_len (W ++ ':' :: t) ≠ 0 := by
    rw [hWlen]; exact fun h => hW (List.length_eq_zero.mp h)
  have hdrop : List.drop W.length (W ++ ':' :: t) = ':' :: t := by simp
  have hd1 : match_one (W ++ ':' :: t) ['%', 'd'] [] = none := by
    rw [match_one_d _ [] [] (by decide) hWn, hWlen, hdrop]
    simp [match_one]
  have hd2 : match_one (W ++ ':' :: t) ['%', 'd', ':', '%', 'd'] []
      = some [⟨W ++ ':' :: t, W.length⟩, ⟨t, t.length⟩] := by
    rw [match_one_d _ _ [] (by decide) hWn, hWlen, hdrop]
    have := match_one_append ([] ++ [⟨W ++ ':' :: t, W.length⟩]) t ['%', 'd'] [':'] (by decide)
    simp only [List.singleton_append, List.nil_append] at this ⊢
    rw [this, match_one_d t [] _ (by simp [MAX_OPT_ARGS]) hn, hlen]
    simp [match_one]
  have f1 : match_one (cs "mfsrr:" ++ (W ++ ':' :: t)) (cs "mfsrr:%d") [] = none :=
    (match_one_append [] _ ['%', 'd'] (cs "mfsrr:") (by decide)).trans hd1
  have f2 : match_one (cs "pmfsrr:" ++ (W ++ ':' :: t)) (cs "pmfsrr:%d") [] = none :=
    (match_one_append [] _ ['%', 'd'] (cs "pmfsrr:") (by decide)).trans hd1
  have m1 : match_one (cs "mfsrr:" ++ (W ++ ':' :: t)) (cs "mfsrr:%d:%d") []
      = some [⟨W ++ ':' :: t, W.length⟩, ⟨t, t.length⟩] :=
    (match_one_append [] _ ['%', 'd', ':', '%', 'd'] (cs "mfsrr:") (by decide)).trans hd2
  have m2 : match_one (cs "pmfsrr:" ++ (W ++ ':' :: t)) (cs "pmfsrr:%d:%d") []
      = some [⟨W ++ ':' :: t, W.length⟩, ⟨t, t.length⟩] :=
    (match_one_append [] _ ['%', 'd', ':', '%', 'd'] (cs "pmfsrr:") (by decide)).trans hd2
  constructor
  · refine match_token_at _ _ _ _ _ _ (au_wbr_create_policy.take 9) ?_ m1
    intro e he
    simp only [au_wbr_create_policy, List.take, List.mem_cons, List.mem_singleton,
      List.not_mem_nil, or_false] at he
    rcases he with h | h | h | h | h | h | h | h | h <;> subst h <;>
      first
      | exact f1
      | simp [match_one, cs]
  · refine match_token_at _ _ _ _ _ _ (au_wbr_create_policy.take 13) ?_ m2
    intro e he
    simp only [au_wbr_create_policy, List.take, List.mem_cons, List.mem_singleton,
      List.not_mem_nil, or_false] at he
    rcases he with h | h | h | h | h | h | h | h | h | h | h | h | h <;> subst h <;>
      first
      | exact f2
      | simp [match_one, cs]


/-- The value of `au_wbr_create_val` when the token found has seconds only. -/
theorem au_wbr_create_val_of_seconds (k : Kconfig) (s : CStr) (c : au_opt_wbr_create)
    (pol : Int) (a : substring_t)
    (hmt : match_token s au_wbr_create_policy (-1) = (pol, [a]))
    (hpol : pol = AuWbrCreate_MFSV ∨ pol = AuWbrCreate_PMFSV) :
    au_wbr_create_val k s c
      = if (au_wbr_mfs_sec k a { c with wbr_create := pol }).1 ≠ 0
        then au_wbr_mfs_sec k a { c with wbr_create := pol }
        else (pol, (au_wbr_mfs_sec k a { c with wbr_create := pol }).2) := by
  unfold au_wbr_create_val
  rw [hmt]
  have e1 : ¬ (pol = AuWbrCreate_MFSRRV ∨ pol = AuWbrCreate_PMFSRRV) := by
    rcases hpol with h | h <;> subst h <;> decide
  have e2 : ¬ (pol = AuWbrCreate_MFSRR ∨ pol = AuWbrCreate_PMFSRR) := by
    rcases hpol with h | h <;> subst h <;> decide
  have e3 : ¬ (pol = AuWbrCreate_MFS ∨ pol = AuWbrCreate_PMFS) := by
    rcases hpol with h | h <;> subst h <;> decide
  simp only [e1, e2, e3, hpol, if_false, if_true, arg, List.getD_cons_zero]

/-- The value of `au_wbr_create_val` when the token found has a watermark and
seconds. -/
theorem au_wbr_create_val_of_watermark_seconds (k : Kconfig) (s : CStr)
    (c : au_opt_wbr_create) (pol : Int) (a1 a2 : substring_t) (w : Nat)
    (hmt : match_token s au_wbr_create_policy (-1) = (pol, [a1, a2]))
    (hpol : pol = AuWbrCreate_MFSRRV ∨ pol = AuWbrCreate_PMFSRRV)
    (hw : au_match_ull a1 = .ok w) :
    au_wbr_create_val k s c
      = if (au_wbr_mfs_sec k a2 ⟨pol, c.mfs_second, some w⟩).1 ≠ 0
        then au_wbr_mfs_sec k a2 ⟨pol, c.mfs_second, some w⟩
        else (pol, (au_wbr_mfs_sec k a2 ⟨pol, c.mfs_second, some w⟩).2) := by
  unfold au_wbr_create_val
  rw [hmt]
  simp only [hpol, if_true, arg, List.getD_cons_zero, List.getD_cons_succ, au_wbr_mfs_wmark, hw]

/-- What `au_wbr_mfs_sec` makes of the number of seconds it is given. -/
theorem au_wbr_mfs_sec_eq (k : Kconfig) (a : substring_t) (c : au_opt_wbr_create) :
    au_wbr_mfs_sec k a c =
      match match_int k a with
      | .ok N =>
        if 0 ≤ N ∧ N ≤ AUFS_MFS_MAX_SEC then (0, { c with mfs_second := some N })
        else (-EINVAL, c)
      | .error _ => (-EINVAL, c) := rfl

/-- A create= option whose policy `au_wbr_create_val` accepts with `N` seconds
is appended as one record that holds the policy and the seconds. -/
theorem create_parses (k : Kconfig) (env : Env) (s : CStr) (opts : au_opts) (pol N : Int)
    (hval : ∀ c, ∃ wm, au_wbr_create_val k s c = (pol, ⟨pol, some N, wm⟩)) (hpol : 0 ≤ pol)
    (hs : s ≠ []) (hcomma : ',' ∉ s) (hmem : env.kmalloc = true)
    (hlen : opts.opt.length = opts.max_opt) (hcap : 2 ≤ opts.max_opt) :
    option_create_yields k env opts s pol N := by
  have hne : cs "create=" ++ s ≠ [] := by simp [cs]
  have hc : ',' ∉ cs "create=" ++ s := by simp [cs, hcomma]
  obtain ⟨arr, max_opt, sb_flags⟩ := opts
  simp only at hlen hcap
  subst hlen
  match arr, hcap with
  | a0 :: a1 :: rest, _ =>
    obtain ⟨wm, hv⟩ := hval a0.create
    have hcur : (⟨Opt_tail, a0.u⟩ : au_opt).create = a0.create := rfl
    have hsw : parse_switch k env sb_flags (a0 :: a1 :: rest).length (cs "create=" ++ s)
        (parse_start ⟨a0 :: a1 :: rest, (a0 :: a1 :: rest).length, sb_flags⟩)
        = (⟨0, ⟨Opt_wbr_create, .wbr_create ⟨pol, some N, wm⟩⟩ :: a1 :: rest, 0, 0,
            Refs.none⟩, false) := by
      have hm := match_token_create k (cs "create=") s (Or.inl rfl) hs
      simp only [parse_switch, hm, parse_case, parse_start, set_type, arg, Vars.cur,
        List.getD_cons_zero, List.set_cons_zero, hcur, hv]
      rw [if_pos (by omega)]
      simp [Vars.accept]
    unfold option_create_yields
    rw [au_opts_parse_single k env _ _ hmem hne hc,
      parse_step_append _ _ _ _ _ _ _ hsw rfl (by simp)]
    cases hd : k.CONFIG_AUFS_DEBUG <;>
      simp [au_opts_parse_end, dump_opts, dump_opts_scan, records, hd, set_type]

/-- The property of `seconds_spec`, from the value of `au_wbr_create_val`. -/
theorem seconds_spec_of (k : Kconfig) (env : Env) (opts : au_opts) (s t : CStr) (pol : Int)
    (f : au_opt_wbr_create → au_opt_wbr_create) (hf : ∀ c, (f c).wbr_create = pol)
    (hpol : 0 ≤ pol)
    (hval : ∀ c, au_wbr_create_val k s c
      = if (au_wbr_mfs_sec k ⟨t, t.length⟩ (f c)).1 ≠ 0
        then au_wbr_mfs_sec k ⟨t, t.length⟩ (f c)
        else (pol, (au_wbr_mfs_sec k ⟨t, t.length⟩ (f c)).2))
    (hs : s ≠ []) (hcomma : ',' ∉ s) (hmem : env.kmalloc = true)
    (hlen : opts.opt.length = opts.max_opt) (hcap : 2 ≤ opts.max_opt) :
    seconds_spec k env opts s pol t := by
  have hne : opts.opt ≠ [] := by
    intro h; rw [h] at hlen; simp at hlen; omega
  have hrej : (∀ c, (au_wbr_create_val k s c).1 = -EINVAL) →
      (∀ c, (au_wbr_create_val k s c).1 = -EINVAL) ∧ option_create_fails k env opts s := by
    intro h
    refine ⟨h, ?_⟩
    obtain ⟨p, h1, h2, h3, _⟩ := create_rejected k env (cs "create=") s opts (Or.inl rfl)
      (fun c => by rw [h c]; decide) hcomma hmem hne
    exact ⟨p, h1, h2, h3⟩
  refine ⟨fun N hN => ⟨fun hr => ?_, fun hr => ?_⟩, fun e he => ?_⟩
  · have hv : ∀ c, au_wbr_create_val k s c
        = (pol, ⟨pol, some N, (f c).mfsrr_watermark⟩) := by
      intro c
      rw [hval c, au_wbr_mfs_sec_eq, hN]
      simp [hr, ← hf c]
    refine ⟨fun c => by simp [hv c], ?_⟩
    exact create_parses k env s opts pol N (fun c => ⟨_, hv c⟩) hpol hs hcomma hmem hlen hcap
  · apply hrej
    intro c
    rw [hval c, au_wbr_mfs_sec_eq, hN]
    simp [hr, EINVAL]
  · apply hrej
    intro c
    rw [hval c, au_wbr_mfs_sec_eq, he]
    simp [EINVAL]

/-- The seconds of some create policies, evaluated: 30 and 0 are accepted, 3601
and -5 are rejected, and so is a number that does not fit an int. -/
theorem seconds_examples :
    (au_wbr_create_val x86_64 (cs "mfs:30") ⟨0, none, none⟩
      = (AuWbrCreate_MFSV, ⟨AuWbrCreate_MFSV, some 30, none⟩)) ∧
    (au_wbr_create_val x86_64 (cs "pmfsrr:4096:0") ⟨0, none, none⟩
      = (AuWbrCreate_PMFSRRV, ⟨AuWbrCreate_PMFSRRV, some 0, some 4096⟩)) ∧
    (au_wbr_create_val x86_64 (cs "mfs:3600") ⟨0, none, none⟩).1 = AuWbrCreate_MFSV ∧
    (au_wbr_create_val x86_64 (cs "mfs:3601") ⟨0, none, none⟩).1 = -EINVAL ∧
    (au_wbr_create_val x86_64 (cs "mfs:-5") ⟨0, none, none⟩).1 = -EINVAL ∧
    (au_wbr_create_val x86_64 (cs "mfs:4294967296") ⟨0, none, none⟩).1 = -EINVAL := by
  decide

/-! ## One record for an option -/

/-- Every case of the switch but Opt_br and the ignored options leaves
`skipped` clear and the pointer `opt` where it was. -/
theorem parse_case_stays (k : Kconfig) (env : Env) (sb_flags max_opt : Nat)
    (args : List substring_t) (v : Vars) (tok : Opt) (h1 : tok ≠ Opt_br)
    (h2 : tok ≠ Opt_ignore) (h3 : tok ≠ Opt_ignore_silent) :
    (parse_case k env sb_flags max_opt args v tok).2 = false ∧
      (parse_case k env sb_flags max_opt args v tok).1.opt = v.opt := by
  cases tok
  case Opt_br => exact absurd rfl h1
  case Opt_ignore => exact absurd rfl h2
  case Opt_ignore_silent => exact absurd rfl h3
  all_goals simp only [parse_case, Vars.accept]
  all_goals repeat' split
  all_goals first
    | exact ⟨rfl, rfl⟩
    | exact ⟨trivial, trivial⟩

/-- An option that is neither a br= list nor ignored, when it is accepted,
appends exactly one record: the pointer `opt` moves on by one. -/
theorem parse_step_one_record (k : Kconfig) (env : Env) (sb_flags max_opt : Nat) (s : CStr)
    (v : Vars) (h1 : (match_token s (options k) Opt_err).1 ≠ Opt_br)
    (h2 : (match_token s (options k) Opt_err).1 ≠ Opt_ignore)
    (h3 : (match_token s (options k) Opt_err).1 ≠ Opt_ignore_silent)
    (herr : (parse_step k env sb_flags max_opt s v).err = 0) :
    (parse_step k env sb_flags max_opt s v).opt = v.opt + 1 := by
  obtain ⟨hsk, hopt⟩ := parse_case_stays k env sb_flags max_opt
    (match_token s (options k) Opt_err).2 { v with err := -EINVAL }
    (match_token s (options k) Opt_err).1 h1 h2 h3
  have hsw : parse_switch k env sb_flags max_opt s v
      = ((parse_switch k env sb_flags max_opt s v).1, false) := by
    rw [← hsk]; rfl
  have hopt2 : (parse_switch k env sb_flags max_opt s v).1.opt = v.opt := hopt
  by_cases he : (parse_switch k env sb_flags max_opt s v).1.err = 0
  · by_cases hroom : (parse_switch k env sb_flags max_opt s v).1.opt + 2 ≤ max_opt
    · rw [parse_step_append _ _ _ _ _ _ _ hsw he hroom]
      simp [hopt2]
    · rw [parse_step_full _ _ _ _ _ _ _ hsw he (by omega)] at herr
      simp [E2BIG] at herr
  · rw [parse_step_fail _ _ _ _ _ _ _ _ hsw he] at herr
    exact absurd herr he

/-- A silently ignored option appends nothing. -/
theorem parse_step_ignored (k : Kconfig) (env : Env) (sb_flags max_opt : Nat) (s : CStr)
    (v : Vars) (h : (match_token s (options k) Opt_err).1 = Opt_ignore_silent) :
    parse_step k env sb_flags max_opt s v = { v with err := 0 } := by
  have hsw : parse_switch k env sb_flags max_opt s v = ({ v with err := 0 }, true) := by
    simp only [parse_switch, h, parse_case]
  rw [parse_step_skipped _ _ _ _ _ _ _ hsw]

/-! ## A list of paths in br= -/

theorem set_at_length (x cur : au_opt) (post : List au_opt) :
    ∀ pre : List au_opt, (pre ++ cur :: post).set pre.length x = pre ++ x :: post
  | [] => rfl
  | a :: pre => by
    rw [List.cons_append, List.length_cons, List.set_cons_succ, set_at_length x cur post pre]
    rfl

theorem getD_at_length (cur d : au_opt) (post : List au_opt) :
    ∀ pre : List au_opt, (pre ++ cur :: post).getD pre.length d = cur
  | [] => rfl
  | a :: pre => by
    rw [List.cons_append, List.length_cons, List.getD_cons_succ]
    exact getD_at_length cur d post pre

theorem set_type_at_length (t : Opt) (cur : au_opt) (post pre : List au_opt) :
    set_type (pre ++ cur :: post) pre.length t = pre ++ ⟨t, cur.u⟩ :: post := by
  simp only [set_type, getD_at_length, set_at_length]

/-- Without a string left the loop of the case Opt_br ends. -/
theorem br_loop_null (env : Env) (sb_flags max_opt : Nat) (sk : Bool) (v : Vars) :
    ∀ fuel : Nat, br_loop env sb_flags max_opt fuel none sk v = (v, sk)
  | 0 => rfl
  | fuel + 1 => by
    by_cases h : v.err = 0 <;> simp [br_loop, strsep, h]

/-- The body of the loop of the case Opt_br for a plain path that resolves,
with room behind the record: the record replaces the current slot and the
tail marker is set in the next one. -/
theorem br_step_plain (env : Env) (sb_flags max_opt : Nat) (p : CStr) (d : Nat) (sk : Bool)
    (pre : List au_opt) (cur s0 : au_opt) (slots : List au_opt) (b : Int) (refs : Refs)
    (heq : '=' ∉ p) (hlook : env.vfsub_kern_path p = .ok d)
    (hmax : pre.length + 2 ≤ max_opt) :
    br_step env sb_flags max_opt p sk ⟨0, pre ++ cur :: s0 :: slots, pre.length, b, refs⟩
      = (⟨0, (pre ++ [add_rec b p
              (if b = 0 ∧ sb_flags &&& MS_RDONLY = 0 then AuBrPerm_RW else AuBrPerm_RO) d
              refs.next]) ++ ⟨Opt_tail, s0.u⟩ :: slots,
          (pre ++ [add_rec b p
              (if b = 0 ∧ sb_flags &&& MS_RDONLY = 0 then AuBrPerm_RW else AuBrPerm_RO) d
              refs.next]).length, b + 1, refs.take (.path refs.next)⟩, true) := by
  rw [br_step_ok env _ _ _ _ _ _ _ (opt_add_plain env _ _ p _ _ d heq hlook) hmax]
  simp only [set_at_length]
  generalize add_rec b p
    (if b = 0 ∧ sb_flags &&& MS_RDONLY = 0 then AuBrPerm_RW else AuBrPerm_RO) d refs.next = r
  have h1 : pre ++ r :: s0 :: slots = (pre ++ [r]) ++ s0 :: slots := by simp
  have h2 : pre.length + 1 = (pre ++ [r]).length := by simp
  rw [h1, h2, set_type_at_length]

/-- The loop of the case Opt_br over a list of plain paths that resolve, with
room for a record for each and the tail marker: the records are written one
after the other from the current slot on, with branch indices and references
counting up, and the marker stands behind them. -/
theorem br_loop_list (env : Env) (sb_flags max_opt : Nat) :
    ∀ (pd : List (CStr × Nat)) (fuel : Nat) (sk : Bool) (pre : List au_opt) (cur : au_opt)
      (slots : List au_opt) (b : Int) (refs : Refs),
      pd ≠ [] →
      (∀ x ∈ pd, x.1 ≠ [] ∧ ':' ∉ x.1 ∧ '=' ∉ x.1 ∧ env.vfsub_kern_path x.1 = .ok x.2) →
      pd.length ≤ slots.length →
      pre.length + 1 + pd.length ≤ max_opt →
      (colon_join (pd.map Prod.fst)).length + 1 ≤ fuel →
      br_loop env sb_flags max_opt fuel (some (colon_join (pd.map Prod.fst))) sk
          ⟨0, pre ++ cur :: slots, pre.length, b, refs⟩
        = (⟨0, pre ++ (add_recs sb_flags b refs.next pd
                ++ set_type (slots.drop (pd.length - 1)) 0 Opt_tail),
            pre.length + pd.length, b + pd.length,
            ⟨refs.taken ++ (List.range pd.length).map (fun i => Handle.path (refs.next + i)),
              refs.put⟩⟩, true)
  | [], _, _, _, _, _, _, _, h, _, _, _, _ => absurd rfl h
  | [(p, d)], fuel, sk, pre, cur, slots, b, refs, _, hp, hroom, hmax, hfuel => by
    obtain ⟨hne, hcol, heq, hlook⟩ := hp (p, d) (by simp)
    match fuel, hfuel, slots, hroom with
    | f + 1, _, s0 :: slots1, _ =>
      simp only [List.length_singleton] at hmax
      simp only [List.map, colon_join]
      rw [br_loop_single env _ _ _ _ _ _ hne hcol rfl,
        br_step_plain env _ _ p d _ pre cur s0 slots1 b refs heq hlook (by omega)]
      simp [add_recs, set_type, Refs.take, Refs.next, List.range_succ]
  | (p, d) :: y :: rest, fuel, sk, pre, cur, slots, b, refs, _, hp, hroom, hmax, hfuel => by
    obtain ⟨hne, hcol, heq, hlook⟩ := hp (p, d) (by simp)
    match fuel, hfuel, slots, hroom with
    | f + 1, hfuel, s0 :: slots1, hroom =>
      simp only [List.length_cons] at hmax hroom
      simp only [List.map, colon_join, List.length_append, List.length_cons] at hfuel
      simp only [List.map, colon_join]
      rw [br_loop_cons env _ _ _ _ _ _ _ hne hcol rfl,
        br_step_plain env _ _ p d _ pre cur s0 slots1 b refs heq hlook (by omega)]
      simp only
      have ih := br_loop_list env sb_flags max_opt (y :: rest) f true
        (pre ++ [add_rec b p
            (if b = 0 ∧ sb_flags &&& MS_RDONLY = 0 then AuBrPerm_RW else AuBrPerm_RO) d
            refs.next]) ⟨Opt_tail, s0.u⟩ slots1 (b + 1) (refs.take (.path refs.next))
        (by simp) (fun x hx => hp x (by simp [hx]))
        (by simp only [List.length_cons]; omega)
        (by simp only [List.length_cons, List.length_append, List.length_singleton,
              List.length_nil]; omega)
        (by simp only [List.map]; omega)
      simp only [List.map] at ih
      rw [ih]
      simp only [add_recs, List.length_cons, Refs.take, Refs.next, List.length_append,
        List.length_singleton, List.length_nil, List.append_assoc, List.singleton_append,
        Nat.add_sub_cancel, List.drop_succ_cons, Prod.mk.injEq, Vars.mk.injEq,
        Refs.mk.injEq, and_true, true_and, List.cons_append, List.nil_append]
      refine ⟨?_, ?_, ?_⟩
      · omega
      · push_cast; ring
      · rw [List.range_succ_eq_map (rest.length + 1)]
        simp [Function.comp_def, Nat.add_assoc, Nat.add_comm 1]

/-! ## Enough fuel for the loop of `au_opts_parse` -/

theorem strchr_length (c : Char) :
    ∀ (s r : CStr), strchr s c = some r → r.length ≤ s.length
  | [], _, h => by simp [strchr] at h
  | x :: xs, r, h => by
    by_cases hx : x = c
    · simp [strchr, hx] at h
      subst h; simp
    · simp only [strchr, hx, if_false] at h
      have := strchr_length c xs r h
      simp only [List.length_cons]; omega

/-- The string behind the delimiter is shorter than the string. -/
theorem after_length (c : Char) (s r : CStr) (h : after s c = some r) :
    r.length < s.length := by
  unfold after at h
  split at h
  · rename_i x r1 heq
    have := strchr_length c s _ heq
    simp only [Option.some.injEq] at h
    subst h
    simp only [List.length_cons] at this
    omega
  · simp at h

/-- With a NULL string the loop of `au_opts_parse` ends. -/
theorem au_opts_parse_loop_null (k : Kconfig) (env : Env) (sb_flags max_opt : Nat)
    (v : Vars) : ∀ fuel : Nat, au_opts_parse_loop k env sb_flags max_opt fuel none v = v
  | 0 => rfl
  | fuel + 1 => by
    by_cases h : v.err = 0 <;> simp [au_opts_parse_loop, strsep, h]

/-- The length of the string plus one is enough fuel for the loop of
`au_opts_parse`: more fuel gives the same result. -/
theorem au_opts_parse_loop_fuel (k : Kconfig) (env : Env) (sb_flags max_opt : Nat) :
    ∀ (n : Nat) (s : CStr) (v : Vars) (fuel : Nat), s.length ≤ n → s.length + 1 ≤ fuel →
      au_opts_parse_loop k env sb_flags max_opt fuel (some s) v
        = au_opts_parse_loop k env sb_flags max_opt (s.length + 1) (some s) v := by
  intro n
  induction n with
  | zero =>
    intro s v fuel hn hf
    have hs : s = [] := List.length_eq_zero.mp (Nat.le_zero.mp hn)
    subst hs
    match fuel, hf with
    | f + 1, _ => simp [au_opts_parse_loop, strsep, upto]
  | succ n ih =>
    intro s v fuel hn hf
    match fuel, hf with
    | f + 1, hf =>
      simp only [au_opts_parse_loop, strsep]
      by_cases hv : v.err = 0
      · simp only [hv, ne_eq, not_true_eq_false, if_false]
        by_cases hu : upto s ',' = []
        · simp [hu]
        · simp only [hu, if_false]
          cases ha : after s ',' with
          | none => simp [au_opts_parse_loop_null]
          | some r =>
            have hr := after_length ',' s r ha
            rw [ih r _ f (by omega) (by omega), ih r _ s.length (by omega) (by omega)]
      · simp [hv]

/-! ## A br= list followed by further options -/

theorem colon_join_ne_nil : ∀ ps : List CStr, ps ≠ [] → (∀ p ∈ ps, p ≠ []) →
    colon_join ps ≠ []
  | [], h, _ => absurd rfl h
  | [p], _, hp => by simpa [colon_join] using hp p (by simp)
  | p :: q :: rest, _, hp => by
    have := hp p (by simp)
    simp [colon_join, this]

theorem comma_not_mem_colon_join : ∀ ps : List CStr, (∀ p ∈ ps, ',' ∉ p) →
    ',' ∉ colon_join ps
  | [], _ => by simp [colon_join]
  | [p], hp => by simpa [colon_join] using hp p (by simp)
  | p :: q :: rest, hp => by
    have h1 := hp p (by simp)
    have h2 := comma_not_mem_colon_join (q :: rest) (fun x hx => hp x (by simp [hx]))
    simp [colon_join, h1, h2]

/-- The state of the parser behind a br= list of plain paths that resolve,
which is the first option: a record for each path, then the tail marker. -/
theorem parse_step_br_list (k : Kconfig) (env : Env) (pd : List (CStr × Nat))
    (opts : au_opts) (hpd : pd ≠ [])
    (hp : ∀ x ∈ pd, x.1 ≠ [] ∧ ',' ∉ x.1 ∧ ':' ∉ x.1 ∧ '=' ∉ x.1 ∧
      env.vfsub_kern_path x.1 = .ok x.2)
    (hlen : opts.opt.length = opts.max_opt) (hcap : pd.length + 1 ≤ opts.max_opt) :
    parse_step k env opts.sb_flags opts.max_opt (cs "br=" ++ colon_join (pd.map Prod.fst))
        (parse_start opts)
      = ⟨0, add_recs opts.sb_flags 0 0 pd ++ set_type (opts.opt.drop pd.length) 0 Opt_tail,
          pd.length, pd.length, ⟨(List.range pd.length).map Handle.path, []⟩⟩ := by
  obtain ⟨arr, max_opt, sb_flags⟩ := opts
  simp only at hlen hcap ⊢
  subst hlen
  have hcj : colon_join (pd.map Prod.fst) ≠ [] :=
    colon_join_ne_nil _ (by simpa using hpd) (by
      intro p hmem
      obtain ⟨x, hx, rfl⟩ := List.mem_map.mp hmem
      exact (hp x hx).1)
  match arr, hcap with
  | a0 :: slots, hcap =>
    simp only [List.length_cons] at hcap
    have hloop := br_loop_list env sb_flags (a0 :: slots).length pd
      ((colon_join (pd.map Prod.fst)).length + 1) false [] ⟨Opt_tail, a0.u⟩ slots 0 Refs.none
      hpd (fun x hx => ⟨(hp x hx).1, (hp x hx).2.2.1, (hp x hx).2.2.2.1, (hp x hx).2.2.2.2⟩)
      (by omega) (by simp only [List.length_nil, List.length_cons]; omega) (le_refl _)
    have hsw : parse_switch k env sb_flags (a0 :: slots).length
        (cs "br=" ++ colon_join (pd.map Prod.fst))
        (parse_start ⟨a0 :: slots, (a0 :: slots).length, sb_flags⟩)
        = (⟨0, add_recs sb_flags 0 0 pd ++ set_type (slots.drop (pd.length - 1)) 0 Opt_tail,
            pd.length, pd.length, ⟨(List.range pd.length).map Handle.path, []⟩⟩, true) := by
      have hstart : parse_start ⟨a0 :: slots, (a0 :: slots).length, sb_flags⟩
          = ⟨0, ⟨Opt_tail, a0.u⟩ :: slots, 0, 0, Refs.none⟩ := rfl
      simp only [parse_switch, match_token_br k _ hcj, parse_case, arg, List.getD_cons_zero,
        hstart]
      simp only [List.nil_append, List.length_nil] at hloop
      rw [hloop]
      simp [Refs.none, Refs.next]
    rw [parse_step_skipped _ _ _ _ _ _ _ hsw]
    have hdrop : List.drop pd.length (a0 :: slots) = List.drop (pd.length - 1) slots := by
      cases pd with
      | nil => exact absurd rfl hpd
      | cons x xs => simp
    rw [hdrop]

/-- The loop of `dump_opts` passes over the records of added branches. -/
theorem dump_opts_scan_add_recs (sb_flags : Nat) (l : List au_opt) :
    ∀ (pd : List (CStr × Nat)) (b : Int) (r : Nat),
      dump_opts_scan (add_recs sb_flags b r pd ++ l) = dump_opts_scan l
  | [], _, _ => rfl
  | (p, d) :: rest, b, r => by
    simp [add_recs, add_rec, dump_opts_scan, dump_opts_scan_add_recs sb_flags l rest]

/-- The end of `au_opts_parse` after a parse without error that left records
of added branches and the tail marker. -/
theorem au_opts_parse_end_add_recs (k : Kconfig) (sb_flags : Nat) (pd : List (CStr × Nat))
    (arr : List au_opt) (n : Nat) (b : Int) (refs : Refs) (hn : pd.length < arr.length) :
    au_opts_parse_end k
        ⟨0, add_recs sb_flags 0 0 pd ++ set_type (arr.drop pd.length) 0 Opt_tail, n, b, refs⟩
      = some ⟨0, add_recs sb_flags 0 0 pd ++ set_type (arr.drop pd.length) 0 Opt_tail,
          refs⟩ := by
  have hd : ∃ x xs, arr.drop pd.length = x :: xs := by
    cases h : arr.drop pd.length with
    | nil =>
      have := congrArg List.length h
      simp at this; omega
    | cons x xs => exact ⟨x, xs, rfl⟩
  obtain ⟨x, xs, hx⟩ := hd
  cases hdb : k.CONFIG_AUFS_DEBUG <;>
    simp [au_opts_parse_end, dump_opts, hdb, dump_opts_scan_add_recs, hx, set_type,
      dump_opts_scan]

/-- The record of `add_recs` at position `i`. -/
theorem add_recs_get (sb_flags : Nat) :
    ∀ (pd : List (CStr × Nat)) (b : Int) (r i : Nat) (x : CStr × Nat), pd[i]? = some x →
      (add_recs sb_flags b r pd)[i]?
        = some (add_rec (b + i) x.1
            (if b + i = 0 ∧ sb_flags &&& MS_RDONLY = 0 then AuBrPerm_RW else AuBrPerm_RO)
            x.2 (r + i))
  | [], _, _, _, _, h => by simp at h
  | (p, d) :: rest, b, r, 0, x, h => by
    simp only [List.getElem?_cons_zero, Option.some.injEq] at h
    subst h
    simp [add_recs]
  | (p, d) :: rest, b, r, i + 1, x, h => by
    simp only [List.getElem?_cons_succ] at h
    have := add_recs_get sb_flags rest (b + 1) (r + 1) i x h
    simp only [add_recs, List.getElem?_cons_succ, this]
    have e1 : b + 1 + (i : Int) = b + ((i + 1 : Nat) : Int) := by push_cast; ring
    have e2 : r + 1 + i = r + (i + 1) := by omega
    rw [e1, e2]

/-- A number that the conversion %d takes whole, behind rdcache=, rdblk= or
rdhash=: the token and the argument `match_token` finds. -/
theorem match_token_number (k : Kconfig) (t : CStr) (ht : t ≠ [])
    (hlen : strtol_len t = t.length) :
    match_token (cs "rdcache=" ++ t) (options k) Opt_err = (Opt_rdcache, [⟨t, t.length⟩]) ∧
    match_token (cs "rdblk=" ++ t) (options k) Opt_err = (Opt_rdblk, [⟨t, t.length⟩]) ∧
    match_token (cs "rdhash=" ++ t) (options k) Opt_err = (Opt_rdhash, [⟨t, t.length⟩]) := by
  refine ⟨?_, ?_, ?_⟩
  all_goals
    cases hk1 : k.CONFIG_PROC_FS <;> cases hk2 : k.CONFIG_AUFS_DEBUG <;>
      simp [options, match_token, match_one, cs, hk1, hk2, MAX_OPT_ARGS, hlen, ht]
/-- An option whose case of the switch leaves the variables as they are is
rejected with -EINVAL and leaves no record. -/
theorem option_rejected_of_case (k : Kconfig) (env : Env) (s : CStr) (opts : au_opts)
    (tok : Opt) (args : List substring_t)
    (hm : match_token s (options k) Opt_err = (tok, args))
    (hcase : ∀ v, parse_case k env opts.sb_flags opts.max_opt args v tok = (v, false))
    (hs : s ≠ []) (hc : ',' ∉ s) (hmem : env.kmalloc = true) (hcap : opts.opt ≠ []) :
    option_rejected k env opts s := by
  obtain ⟨arr, max_opt, sb_flags⟩ := opts
  match arr, hcap with
  | a0 :: rest, _ =>
    have hsw : parse_switch k env sb_flags max_opt s
        (parse_start ⟨a0 :: rest, max_opt, sb_flags⟩)
        = (⟨-EINVAL, ⟨Opt_tail, a0.u⟩ :: rest, 0, 0, Refs.none⟩, false) := by
      simp only [parse_switch, hm, hcase]
      rfl
    unfold option_rejected
    rw [au_opts_parse_single k env _ _ hmem hs hc,
      parse_step_fail _ _ _ _ _ _ _ _ hsw (by simp [EINVAL]),
      au_opts_parse_end_tail_first _ _ _ _ _ _ (by simp [EINVAL])]
    exact ⟨_, rfl, rfl, by simp [records]⟩

/-- An option whose case of the switch accepts with a record of a number is
accepted and leaves that record. -/
theorem option_accepted_of_case (k : Kconfig) (env : Env) (s : CStr) (opts : au_opts)
    (tok typ : Opt) (u : Payload) (args : List substring_t)
    (hm : match_token s (options k) Opt_err = (tok, args))
    (hcase : ∀ v, parse_case k env opts.sb_flags opts.max_opt args v tok
      = (v.accept typ u, false))
    (htyp : typ = Opt_rdcache ∨ typ = Opt_rdblk ∨ typ = Opt_rdhash)
    (hs : s ≠ []) (hc : ',' ∉ s) (hmem : env.kmalloc = true)
    (hlen : opts.opt.length = opts.max_opt) (hcap : 2 ≤ opts.max_opt) :
    option_accepted k env opts s ⟨typ, u⟩ := by
  obtain ⟨arr, max_opt, sb_flags⟩ := opts
  simp only at hlen hcap hcase
  subst hlen
  match arr, hcap with
  | a0 :: a1 :: rest, _ =>
    have hsw : parse_switch k env sb_flags (a0 :: a1 :: rest).length s
        (parse_start ⟨a0 :: a1 :: rest, (a0 :: a1 :: rest).length, sb_flags⟩)
        = (⟨0, ⟨typ, u⟩ :: a1 :: rest, 0, 0, Refs.none⟩, false) := by
      simp only [parse_switch, hm, hcase]
      rfl
    unfold option_accepted
    rw [au_opts_parse_single k env _ _ hmem hs hc,
      parse_step_append _ _ _ _ _ _ _ hsw rfl (by simp)]
    rcases htyp with h | h | h <;> subst h <;> cases hd : k.CONFIG_AUFS_DEBUG <;>
      simp [au_opts_parse_end, dump_opts, dump_opts_scan, records, hd, set_type]

/-- The number `match_int` reads fits an int. -/
theorem match_int_range (k : Kconfig) (a : substring_t) (N : Int)
    (h : match_int k a = .ok N) : INT_MIN ≤ N ∧ N ≤ INT_MAX := by
  unfold match_int at h
  generalize simple_strtol k a.piece 0 = r at h
  obtain ⟨val, n⟩ := r
  simp only at h
  split at h
  · cases h
  · split at h
    · cases h
    · rename_i h2
      simp only [Except.ok.injEq] at h
      subst h
      omega

/-- C11: on a 32-bit kernel the option rdhash=1073741824 is accepted with a
record of 2^30 buckets, although 2^30 bucket heads of 4 bytes exceed
KMALLOC_MAX_SIZE: the product is 2^32, which is 0 in an unsigned long of 32
bits.  A negative number is rejected, and on a 64-bit kernel the same option is
rejected. -/
theorem rdhash_product_wraps :
    match_int i386 ⟨cs "1073741824", 10⟩ = .ok 1073741824 ∧
    1073741824 * sizeof_hlist_head i386 > i386.KMALLOC_MAX_SIZE ∧
    1073741824 * sizeof_hlist_head i386 % 2 ^ i386.BITS_PER_LONG = 0 ∧
    (au_opts_parse i386 demo_env (cs "rdhash=1073741824") (fresh_opts 4 0)).map
        (fun p => (p.err, records p.opt))
      = some (0, [⟨Opt_rdhash, .rdhash 1073741824⟩]) ∧
    (au_opts_parse i386 demo_env (cs "rdhash=-1") (fresh_opts 4 0)).map
        (fun p => (p.err, records p.opt))
      = some (-EINVAL, []) ∧
    (au_opts_parse x86_64 demo_env (cs "rdhash=1073741824") (fresh_opts 4 0)).map
        (fun p => (p.err, records p.opt))
      = some (-EINVAL, []) := by
  decide

/-- Where the product of an int and the size of a bucket head cannot wrap
around in an unsigned long (as on a 64-bit kernel), the option rdhash=N, for
the number N that `match_int` reads from the text, is rejected with -EINVAL and
no record when N is negative and when N bucket heads exceed KMALLOC_MAX_SIZE. -/
theorem rdhash_rejected_without_wrap (k : Kconfig) (env : Env) (opts : au_opts) (t : CStr)
    (N : Int) (ht : t ≠ []) (hlen : strtol_len t = t.length) (hcomma : ',' ∉ t)
    (hN : match_int k ⟨t, t.length⟩ = .ok N)
    (hwide : INT_MAX * (sizeof_hlist_head k : Int) < 2 ^ k.BITS_PER_LONG)
    (hmem : env.kmalloc = true) (hcap : opts.opt ≠ [])
    (h : N < 0 ∨ N * (sizeof_hlist_head k : Int) > (k.KMALLOC_MAX_SIZE : Int)) :
    option_rejected k env opts (cs "rdhash=" ++ t) := by
  have hm := (match_token_number k t ht hlen).2.2
  have hs : cs "rdhash=" ++ t ≠ [] := by simp [cs]
  have hc : ',' ∉ cs "rdhash=" ++ t := by simp [cs, hcomma]
  refine option_rejected_of_case k env _ opts _ _ hm ?_ hs hc hmem hcap
  intro v
  simp only [parse_case, arg, List.getD_cons_zero, hN]
  rw [if_pos]
  by_cases h0 : N < 0
  · exact Or.inl h0
  · right
    have hr := (match_int_range k _ N hN).2
    obtain ⟨n, rfl⟩ := Int.eq_ofNat_of_zero_le (not_lt.mp h0)
    simp only [Int.toNat_ofNat]
    have h1 : (n : Int) * (sizeof_hlist_head k : Int) > (k.KMALLOC_MAX_SIZE : Int) := by
      rcases h with h | h
      · omega
      · exact h
    have h2 : n * sizeof_hlist_head k < 2 ^ k.BITS_PER_LONG := by
      have : (n : Int) * (sizeof_hlist_head k : Int) ≤ INT_MAX * (sizeof_hlist_head k : Int) :=
        Int.mul_le_mul_of_nonneg_right hr (Int.ofNat_nonneg _)
      have h3 : ((n * sizeof_hlist_head k : Nat) : Int) < ((2 ^ k.BITS_PER_LONG : Nat) : Int) := by
        push_cast; omega
      exact_mod_cast h3
    rw [Nat.mod_eq_of_lt h2]
    exact_mod_cast h1

/-- The option rdblk= at the edges of its range, evaluated: 0, NAME_MAX and
KMALLOC_MAX_SIZE are accepted; 1, NAME_MAX - 1, KMALLOC_MAX_SIZE + 1 and -1 are
rejected. -/
theorem rdblk_examples :
    ([cs "rdblk=0", cs "rdblk=255", cs "rdblk=4194304", cs "rdblk=1", cs "rdblk=254",
        cs "rdblk=4194305", cs "rdblk=-1"].map fun s =>
      (au_opts_parse x86_64 demo_env s (fresh_opts 4 0)).map fun p => (p.err, records p.opt))
      = [some (0, [⟨Opt_rdblk, .rdblk 0⟩]), some (0, [⟨Opt_rdblk, .rdblk 255⟩]),
          some (0, [⟨Opt_rdblk, .rdblk 4194304⟩]), some (-EINVAL, []), some (-EINVAL, []),
          some (-EINVAL, []), some (-EINVAL, [])] := by
  decide

/-! ## Several br= options -/

theorem add_recs_length (sb_flags : Nat) :
    ∀ (pd : List (CStr × Nat)) (b : Int) (r : Nat), (add_recs sb_flags b r pd).length = pd.length
  | [], _, _ => rfl
  | (p, d) :: rest, b, r => by simp [add_recs, add_recs_length sb_flags rest]

theorem add_recs_append (sb_flags : Nat) (l2 : List (CStr × Nat)) :
    ∀ (l1 : List (CStr × Nat)) (b : Int) (r : Nat),
      add_recs sb_flags b r (l1 ++ l2)
        = add_recs sb_flags b r l1 ++ add_recs sb_flags (b + l1.length) (r + l1.length) l2
  | [], b, r => by simp [add_recs]
  | (p, d) :: rest, b, r => by
    have e1 : b + 1 + (rest.length : Int) = b + ((rest.length + 1 : Nat) : Int) := by
      push_cast; ring
    have e2 : r + 1 + rest.length = r + (rest.length + 1) := by omega
    have ih := add_recs_append sb_flags l2 rest (b + 1) (r + 1)
    rw [e1, e2] at ih
    simp only [List.cons_append, add_recs, List.length_cons]
    exact congrArg _ ih

theorem path_refs_next (refs : Refs) (n : Nat) : (path_refs refs n).next = refs.next + n := by
  simp [path_refs, Refs.next]

theorem path_refs_add (refs : Refs) (n m : Nat) :
    path_refs (path_refs refs n) m = path_refs refs (n + m) := by
  simp only [path_refs, Refs.next, List.length_append, List.length_map, List.length_range,
    List.append_assoc, Refs.mk.injEq, and_true, List.append_cancel_left_eq]
  rw [List.range_add, List.map_append, List.map_map]
  simp [Function.comp_def, Nat.add_assoc]

/-- The state of the parser behind a br= list of plain paths that resolve, from
any slot of the array on: a record for each path, then the tail marker. -/
theorem parse_step_br_list_at (k : Kconfig) (env : Env) (sb_flags max_opt : Nat)
    (pd : List (CStr × Nat)) (pre : List au_opt) (cur : au_opt) (slots : List au_opt)
    (b : Int) (refs : Refs) (hpd : pd ≠ [])
    (hp : ∀ x ∈ pd, x.1 ≠ [] ∧ ',' ∉ x.1 ∧ ':' ∉ x.1 ∧ '=' ∉ x.1 ∧
      env.vfsub_kern_path x.1 = .ok x.2)
    (hroom : pd.length ≤ slots.length) (hmax : pre.length + 1 + pd.length ≤ max_opt) :
    parse_step k env sb_flags max_opt (cs "br=" ++ colon_join (pd.map Prod.fst))
        ⟨0, pre ++ cur :: slots, pre.length, b, refs⟩
      = ⟨0, pre ++ (add_recs sb_flags b refs.next pd
            ++ set_type (slots.drop (pd.length - 1)) 0 Opt_tail),
          pre.length + pd.length, b + pd.length, path_refs refs pd.length⟩ := by
  have hcj : colon_join (pd.map Prod.fst) ≠ [] :=
    colon_join_ne_nil _ (by simpa using hpd) (by
      intro p hmem
      obtain ⟨x, hx, rfl⟩ := List.mem_map.mp hmem
      exact (hp x hx).1)
  have hloop := br_loop_list env sb_flags max_opt pd
    ((colon_join (pd.map Prod.fst)).length + 1) false pre cur slots b refs
    hpd (fun x hx => ⟨(hp x hx).1, (hp x hx).2.2.1, (hp x hx).2.2.2.1, (hp x hx).2.2.2.2⟩)
    hroom hmax (le_refl _)
  have hsw : parse_switch k env sb_flags max_opt (cs "br=" ++ colon_join (pd.map Prod.fst))
      ⟨0, pre ++ cur :: slots, pre.length, b, refs⟩
      = (⟨0, pre ++ (add_recs sb_flags b refs.next pd
            ++ set_type (slots.drop (pd.length - 1)) 0 Opt_tail),
          pre.length + pd.length, b + pd.length, path_refs refs pd.length⟩, true) := by
    simp only [parse_switch, match_token_br k _ hcj, parse_case, arg, List.getD_cons_zero]
    rw [hloop]
    rfl
  rw [parse_step_skipped _ _ _ _ _ _ _ hsw]

theorem br_option_ne_nil (pd : List (CStr × Nat)) :
    cs "br=" ++ colon_join (pd.map Prod.fst) ≠ [] := by simp [cs]

theorem comma_not_mem_br_option (pd : List (CStr × Nat))
    (hp : ∀ x ∈ pd, ',' ∉ x.1) : ',' ∉ cs "br=" ++ colon_join (pd.map Prod.fst) := by
  have := comma_not_mem_colon_join (pd.map Prod.fst) (by
    intro p hmem
    obtain ⟨x, hx, rfl⟩ := List.mem_map.mp hmem
    exact hp x hx)
  simp [cs, this]

/-- The loop of `au_opts_parse` over several br= options of plain paths that
resolve, from any slot of the array on: the records of all the paths, one
after the other with branch indices and references counting up across the
options, then the tail marker. -/
theorem parse_loop_br_options (k : Kconfig) (env : Env) (sb_flags max_opt : Nat) :
    ∀ (brs : List (List (CStr × Nat))) (fuel : Nat) (pre : List au_opt) (cur : au_opt)
      (slots : List au_opt) (b : Int) (refs : Refs),
      brs ≠ [] →
      (∀ pd ∈ brs, pd ≠ [] ∧ ∀ x ∈ pd, x.1 ≠ [] ∧ ',' ∉ x.1 ∧ ':' ∉ x.1 ∧ '=' ∉ x.1 ∧
        env.vfsub_kern_path x.1 = .ok x.2) →
      (all_paths brs).length ≤ slots.length →
      pre.length + 1 + (all_paths brs).length ≤ max_opt →
      (br_options brs).length + 1 ≤ fuel →
      au_opts_parse_loop k env sb_flags max_opt fuel (some (br_options brs))
          ⟨0, pre ++ cur :: slots, pre.length, b, refs⟩
        = ⟨0, pre ++ (add_recs sb_flags b refs.next (all_paths brs)
              ++ set_type (slots.drop ((all_paths brs).length - 1)) 0 Opt_tail),
            pre.length + (all_paths brs).length, b + (all_paths brs).length,
            path_refs refs (all_paths brs).length⟩
  | [], _, _, _, _, _, _, h, _, _, _, _ => absurd rfl h
  | [pd], fuel, pre, cur, slots, b, refs, _, hp, hroom, hmax, hfuel => by
    obtain ⟨hpd, hx⟩ := hp pd (by simp)
    simp only [all_paths, List.append_nil] at hroom hmax ⊢
    match fuel, hfuel with
    | f + 1, _ =>
      simp only [br_options, List.map, comma_join]
      rw [au_opts_parse_loop_single k env _ _ _ _ _ (br_option_ne_nil pd)
          (comma_not_mem_br_option pd fun x h => (hx x h).2.1) rfl,
        parse_step_br_list_at k env _ _ pd pre cur slots b refs hpd hx hroom hmax]
  | pd :: pd2 :: rest, fuel, pre, cur, slots, b, refs, _, hp, hroom, hmax, hfuel => by
    obtain ⟨hpd, hx⟩ := hp pd (by simp)
    have hrest : ∀ q ∈ pd2 :: rest, q ≠ [] ∧ ∀ x ∈ q, x.1 ≠ [] ∧ ',' ∉ x.1 ∧ ':' ∉ x.1 ∧
        '=' ∉ x.1 ∧ env.vfsub_kern_path x.1 = .ok x.2 := fun q hq => hp q (by simp [hq])
    have hm : 1 ≤ (all_paths (pd2 :: rest)).length := by
      have := (hp pd2 (by simp)).1
      cases pd2 with
      | nil => exact absurd rfl this
      | cons y ys => simp [all_paths]
    obtain ⟨n, hn⟩ : ∃ n, pd.length = n + 1 := by
      cases pd with
      | nil => exact absurd rfl hpd
      | cons y ys => exact ⟨ys.length, rfl⟩
    generalize hall : all_paths (pd2 :: rest) = all2 at hm
    have hsplit : all_paths (pd :: pd2 :: rest) = pd ++ all2 := by
      rw [← hall]; rfl
    rw [hsplit] at hroom hmax ⊢
    simp only [List.length_append] at hroom hmax ⊢
    have hopt : br_options (pd :: pd2 :: rest)
        = (cs "br=" ++ colon_join (pd.map Prod.fst)) ++ ',' :: br_options (pd2 :: rest) := rfl
    match fuel, hfuel with
    | f + 1, hfuel =>
      rw [hopt] at hfuel ⊢
      simp only [List.length_append, List.length_cons] at hfuel
      rw [au_opts_parse_loop_cons k env _ _ _ _ _ _ (br_option_ne_nil pd)
          (comma_not_mem_br_option pd fun x h => (hx x h).2.1) rfl,
        parse_step_br_list_at k env _ _ pd pre cur slots b refs hpd hx (by omega) (by omega)]
      obtain ⟨x, hdrop⟩ : ∃ x, slots.drop (pd.length - 1) = x :: slots.drop pd.length := by
        have hlt : n < slots.length := by omega
        refine ⟨slots[n], ?_⟩
        rw [hn, Nat.add_sub_cancel]
        exact List.drop_eq_getElem_cons hlt
      rw [hdrop]
      have hst : set_type (x :: slots.drop pd.length) 0 Opt_tail
          = ⟨Opt_tail, x.u⟩ :: slots.drop pd.length := rfl
      rw [hst]
      have hpre : pre.length + pd.length = (pre ++ add_recs sb_flags b refs.next pd).length := by
        simp [add_recs_length]
      have hform : pre ++ (add_recs sb_flags b refs.next pd
            ++ ⟨Opt_tail, x.u⟩ :: slots.drop pd.length)
          = (pre ++ add_recs sb_flags b refs.next pd)
            ++ ⟨Opt_tail, x.u⟩ :: slots.drop pd.length := by simp
      rw [hform, hpre]
      have ih := parse_loop_br_options k env sb_flags max_opt (pd2 :: rest) f
        (pre ++ add_recs sb_flags b refs.next pd) ⟨Opt_tail, x.u⟩ (slots.drop pd.length)
        (b + pd.length) (path_refs refs pd.length) (by simp) hrest
        (by rw [hall, List.length_drop]; omega)
        (by rw [hall, ← hpre]; omega)
        (by omega)
      rw [ih, hall, path_refs_next, path_refs_add, add_recs_append, List.drop_drop]
      simp only [List.length_append, add_recs_length, List.append_assoc, Vars.mk.injEq,
        true_and, and_true]
      refine ⟨?_, ?_, ?_⟩
      · have e : pd.length + (all2.length - 1) = pd.length + all2.length - 1 := by omega
        rw [e]
      · omega
      · push_cast; ring

theorem all_paths_ne_nil : ∀ brs : List (List (CStr × Nat)), brs ≠ [] →
    (∀ pd ∈ brs, pd ≠ []) → all_paths brs ≠ []
  | [], h, _ => absurd rfl h
  | pd :: rest, _, hp => by
    have := hp pd (by simp)
    cases pd with
    | nil => exact absurd rfl this
    | cons y ys => simp [all_paths]

/-- C13: for a path without a permission, `opt_add` sets the permission to
read-write when the branch index is 0 and MS_RDONLY is clear, and to read-only
otherwise; and the records of several br= options carry the branch indices
0, 1, 2, ... in the order of the paths, the count going on from one br= option
to the next. -/
theorem br_default_perm_and_indices (k : Kconfig) (env : Env)
    (brs : List (List (CStr × Nat))) (opts : au_opts) (hbrs : brs ≠ [])
    (hp : ∀ pd ∈ brs, pd ≠ [] ∧ ∀ x ∈ pd, x.1 ≠ [] ∧ ',' ∉ x.1 ∧ ':' ∉ x.1 ∧ '=' ∉ x.1 ∧
      env.vfsub_kern_path x.1 = .ok x.2)
    (hmem : env.kmalloc = true) (hlen : opts.opt.length = opts.max_opt)
    (hcap : (all_paths brs).length + 1 ≤ opts.max_opt) :
    (∀ (r : Refs) (o : au_opt) (pathname : CStr) (sb_flags : Nat) (bindex : Int) (d : Nat),
      '=' ∉ pathname → env.vfsub_kern_path pathname = .ok d →
      opt_add env r o pathname sb_flags bindex
        = (0, add_rec bindex pathname
            (if bindex = 0 ∧ sb_flags &&& MS_RDONLY = 0 then AuBrPerm_RW else AuBrPerm_RO)
            d r.next, r.take (.path r.next))) ∧
    au_opts_parse k env (br_options brs) opts
      = some ⟨0, add_recs opts.sb_flags 0 0 (all_paths brs)
            ++ set_type (opts.opt.drop (all_paths brs).length) 0 Opt_tail,
          path_refs Refs.none (all_paths brs).length⟩ ∧
    (∀ (i : Nat) (x : CStr × Nat), (all_paths brs)[i]? = some x →
      (add_recs opts.sb_flags 0 0 (all_paths brs))[i]?
        = some (add_rec i x.1
            (if i = 0 ∧ opts.sb_flags &&& MS_RDONLY = 0 then AuBrPerm_RW else AuBrPerm_RO)
            x.2 i)) := by
  refine ⟨fun r o pathname sb_flags bindex d heq hlook =>
    opt_add_plain env r o pathname sb_flags bindex d heq hlook, ?_, ?_⟩
  · obtain ⟨arr, max_opt, sb_flags⟩ := opts
    simp only at hlen hcap ⊢
    subst hlen
    have hne := all_paths_ne_nil brs hbrs (fun pd h => (hp pd h).1)
    match arr, hcap with
    | a0 :: slots, hcap =>
      simp only [List.length_cons] at hcap
      have hloop := parse_loop_br_options k env sb_flags (a0 :: slots).length brs
        ((br_options brs).length + 1) [] ⟨Opt_tail, a0.u⟩ slots 0 Refs.none hbrs hp
        (by omega) (by simp only [List.length_nil, List.length_cons]; omega) (le_refl _)
      have hstart : parse_start ⟨a0 :: slots, (a0 :: slots).length, sb_flags⟩
          = ⟨0, [] ++ ⟨Opt_tail, a0.u⟩ :: slots, ([] : List au_opt).length, 0, Refs.none⟩ := rfl
      have hdrop : List.drop (all_paths brs).length (a0 :: slots)
          = List.drop ((all_paths brs).length - 1) slots := by
        cases h : all_paths brs with
        | nil => exact absurd h hne
        | cons x xs => simp
      simp only [au_opts_parse, hmem, Bool.true_eq_false, if_false]
      rw [hstart, hloop, hdrop]
      have hn : Refs.none.next = 0 := rfl
      simp only [List.nil_append, List.length_nil, Nat.zero_add, Int.zero_add, hn]
      rw [← hdrop]
      have h2 := au_opts_parse_end_add_recs k sb_flags (all_paths brs) (a0 :: slots)
        (all_paths brs).length ((all_paths brs).length : Int)
        (path_refs Refs.none (all_paths brs).length)
        (by simp only [List.length_cons]; omega)
      simpa using h2
  · intro i x hx
    rw [add_recs_get opts.sb_flags (all_paths brs) 0 0 i x hx]
    simp

/-- C13 at the options br=/a:/b,br=/c on a mount that is not read-only: the
branch indices are 0, 1 and 2. -/
theorem br_default_perm_and_indices_witness :
    ([[(cs "/a", 1), (cs "/b", 2)], [(cs "/c", 3)]] ≠ [] ∧
      (∀ pd ∈ [[(cs "/a", 1), (cs "/b", 2)], [(cs "/c", 3)]],
        pd ≠ [] ∧ ∀ x ∈ pd, x.1 ≠ [] ∧ ',' ∉ x.1 ∧ ':' ∉ x.1 ∧ '=' ∉ x.1 ∧
          demo_env.vfsub_kern_path x.1 = .ok x.2) ∧
      br_options [[(cs "/a", 1), (cs "/b", 2)], [(cs "/c", 3)]] = cs "br=/a:/b,br=/c" ∧
      add_recs (fresh_opts 8 0).sb_flags 0 0
          (all_paths [[(cs "/a", 1), (cs "/b", 2)], [(cs "/c", 3)]])
        = [add_rec 0 (cs "/a") AuBrPerm_RW 1 0, add_rec 1 (cs "/b") AuBrPerm_RO 2 1,
            add_rec 2 (cs "/c") AuBrPerm_RO 3 2]) ∧
    au_opts_parse x86_64 demo_env (br_options [[(cs "/a", 1), (cs "/b", 2)], [(cs "/c", 3)]])
        (fresh_opts 8 0)
      = some ⟨0, add_recs (fresh_opts 8 0).sb_flags 0 0
              (all_paths [[(cs "/a", 1), (cs "/b", 2)], [(cs "/c", 3)]])
            ++ set_type ((fresh_opts 8 0).opt.drop
              (all_paths [[(cs "/a", 1), (cs "/b", 2)], [(cs "/c", 3)]]).length) 0 Opt_tail,
          path_refs Refs.none
            (all_paths [[(cs "/a", 1), (cs "/b", 2)], [(cs "/c", 3)]]).length⟩ :=
  ⟨by decide,
   (br_default_perm_and_indices x86_64 demo_env [[(cs "/a", 1), (cs "/b", 2)], [(cs "/c", 3)]]
      (fresh_opts 8 0) (by decide) (by decide) rfl rfl (by decide)).2.1⟩

/-- The default permission of `opt_add`, evaluated: read-write at index 0 of a
mount that is not read-only, read-only at index 0 of a read-only mount and at
index 1; a br= list on a read-only mount has no read-write branch. -/
theorem opt_add_examples :
    [(opt_add demo_env Refs.none default (cs "/a") 0 0).2.1,
        (opt_add demo_env Refs.none default (cs "/a") MS_RDONLY 0).2.1,
        (opt_add demo_env Refs.none default (cs "/a") 0 1).2.1]
      = [add_rec 0 (cs "/a") AuBrPerm_RW 1 0, add_rec 0 (cs "/a") AuBrPerm_RO 1 0,
          add_rec 1 (cs "/a") AuBrPerm_RO 1 0] ∧
    (au_opts_parse x86_64 demo_env (cs "br=/a:/b,br=/c") (fresh_opts 8 MS_RDONLY)).map
        (fun p => (p.err, records p.opt))
      = some (0, [add_rec 0 (cs "/a") AuBrPerm_RO 1 0, add_rec 1 (cs "/b") AuBrPerm_RO 2 1,
          add_rec 2 (cs "/c") AuBrPerm_RO 3 2]) := by
  decide

/-! ## The value of a permission string -/

/-- The token of an attribute segment: its bit if it is wh or nolwh, 0 if not. -/
theorem match_token_brattr (s : CStr) :
    (match_token s brattr 0).1
      = if s = AUFS_BRRATTR_WH then AuBrRAttr_WH
        else if s = AUFS_BRWATTR_NLWH then AuBrWAttr_NoLinkWH else 0 := by
  simp only [brattr, match_token, match_one_literal [] AUFS_BRRATTR_WH s (by decide),
    match_one_literal [] AUFS_BRWATTR_NLWH s (by decide)]
  have hne : AUFS_BRWATTR_NLWH ≠ AUFS_BRRATTR_WH := by decide
  by_cases h1 : s = AUFS_BRRATTR_WH
  · simp [h1]
  · by_cases h2 : s = AUFS_BRWATTR_NLWH
    · simp [h2, hne]
    · simp [h1, h2]

/-- The token of a base segment: its bit if it is ro or rw, 0 if not. -/
theorem match_token_brperm (s : CStr) :
    (match_token s brperm 0).1
      = if s = AUFS_BRPERM_RO then AuBrPerm_RO
        else if s = AUFS_BRPERM_RW then AuBrPerm_RW else 0 := by
  simp only [brperm, match_token, match_one_literal [] AUFS_BRPERM_RO s (by decide),
    match_one_literal [] AUFS_BRPERM_RW s (by decide)]
  have hne : AUFS_BRPERM_RW ≠ AUFS_BRPERM_RO := by decide
  by_cases h1 : s = AUFS_BRPERM_RO
  · simp [h1]
  · by_cases h2 : s = AUFS_BRPERM_RW
    · simp [h2, hne]
    · simp [h1, h2]

/-- The loop of `br_attr_val` collects attribute bits only. -/
theorem br_attr_val_loop_mem :
    ∀ (fuel : Nat) (str : CStr) (attr : Nat),
      attr ∈ [0, AuBrRAttr_WH, AuBrWAttr_NoLinkWH, AuBrRAttr_WH ||| AuBrWAttr_NoLinkWH] →
      br_attr_val_loop brattr fuel str attr
        ∈ [0, AuBrRAttr_WH, AuBrWAttr_NoLinkWH, AuBrRAttr_WH ||| AuBrWAttr_NoLinkWH]
  | 0, _, _, h => h
  | fuel + 1, str, attr, h => by
    have hor : ∀ v ∈ [AuBrRAttr_WH, AuBrWAttr_NoLinkWH], attr ||| v
        ∈ [0, AuBrRAttr_WH, AuBrWAttr_NoLinkWH, AuBrRAttr_WH ||| AuBrWAttr_NoLinkWH] := by
      have key : ∀ a ∈ [0, AuBrRAttr_WH, AuBrWAttr_NoLinkWH,
          AuBrRAttr_WH ||| AuBrWAttr_NoLinkWH], ∀ v ∈ [AuBrRAttr_WH, AuBrWAttr_NoLinkWH],
          a ||| v ∈ [0, AuBrRAttr_WH, AuBrWAttr_NoLinkWH,
            AuBrRAttr_WH ||| AuBrWAttr_NoLinkWH] := by decide
      exact key attr h
    simp only [br_attr_val_loop, match_token_brattr]
    by_cases h1 : upto str '+' = AUFS_BRRATTR_WH
    · rw [if_pos h1, if_pos (by decide)]
      cases after str '+' with
      | none => exact hor _ (by simp)
      | some rest => exact br_attr_val_loop_mem fuel rest _ (hor _ (by simp))
    · by_cases h2 : upto str '+' = AUFS_BRWATTR_NLWH
      · rw [if_neg h1, if_pos h2, if_pos (by decide)]
        cases after str '+' with
        | none => exact hor _ (by simp)
        | some rest => exact br_attr_val_loop_mem fuel rest _ (hor _ (by simp))
      · rw [if_neg h1, if_neg h2]
        simpa using h

/-- Every value of `br_perm_val` is one base with attributes legal for it. -/
theorem br_perm_val_mem (s : CStr) :
    br_perm_val s ∈ [AuBrPerm_RO, AuBrPerm_RO ||| AuBrRAttr_WH, AuBrPerm_RW,
      AuBrPerm_RW ||| AuBrWAttr_NoLinkWH] := by
  have key : ∀ b ∈ [AuBrPerm_RO, AuBrPerm_RW],
      ∀ a ∈ [0, AuBrRAttr_WH, AuBrWAttr_NoLinkWH, AuBrRAttr_WH ||| AuBrWAttr_NoLinkWH],
      (if (b ||| a) &&& AuBrPerm_Mask = AuBrPerm_RO then andnot (b ||| a) AuBrWAttr_Mask
        else if (b ||| a) &&& AuBrPerm_Mask = AuBrPerm_RW then andnot (b ||| a) AuBrRAttr_Mask
        else b ||| a)
        ∈ [AuBrPerm_RO, AuBrPerm_RO ||| AuBrRAttr_WH, AuBrPerm_RW,
          AuBrPerm_RW ||| AuBrWAttr_NoLinkWH] := by decide
  have ha : ∀ attrs, br_attr_val attrs brattr
      ∈ [0, AuBrRAttr_WH, AuBrWAttr_NoLinkWH, AuBrRAttr_WH ||| AuBrWAttr_NoLinkWH] :=
    fun attrs => br_attr_val_loop_mem _ attrs 0 (by simp)
  simp only [br_perm_val, match_token_brperm]
  by_cases h1 : upto s '+' = AUFS_BRPERM_RO
  · rw [if_pos h1, if_neg (by decide)]
    cases after s '+' with
    | none => simp
    | some attrs => exact key _ (by simp) _ (ha attrs)
  · by_cases h2 : upto s '+' = AUFS_BRPERM_RW
    · rw [if_neg h1, if_pos h2, if_neg (by decide)]
      cases after s '+' with
      | none => simp
      | some attrs => exact key _ (by simp) _ (ha attrs)
    · simp [h1, h2]

/-- An entry of the table `brattr`: its name has no plus sign, its name is
matched to its bit, and its bit is not 0. -/
theorem brattr_entry : ∀ g ∈ brattr,
    '+' ∉ g.2 ∧ (match_token g.2 brattr 0).1 = g.1 ∧ g.1 ≠ 0 ∧
      g.1 ∈ [AuBrRAttr_WH, AuBrWAttr_NoLinkWH] := by
  decide

/-- A round of the loop of `br_attr_val` on a recognised attribute that is
followed by a plus sign. -/
theorem br_attr_val_loop_cons (g : Nat × CStr) (hg : g ∈ brattr) (fuel : Nat) (rest : CStr)
    (attr : Nat) :
    br_attr_val_loop brattr (fuel + 1) (g.2 ++ '+' :: rest) attr
      = br_attr_val_loop brattr fuel rest (attr ||| g.1) := by
  obtain ⟨h1, h2, h3, _⟩ := brattr_entry g hg
  simp only [br_attr_val_loop, upto_append_cons '+' rest g.2 h1,
    after_append_cons '+' g.2 rest h1, h2]
  rw [if_pos h3]

/-- A round of the loop of `br_attr_val` on a recognised attribute at the end
of the string. -/
theorem br_attr_val_loop_last (g : Nat × CStr) (hg : g ∈ brattr) (fuel : Nat) (attr : Nat) :
    br_attr_val_loop brattr (fuel + 1) g.2 attr = attr ||| g.1 := by
  obtain ⟨h1, h2, h3, _⟩ := brattr_entry g hg
  simp only [br_attr_val_loop, upto_of_not_mem '+' g.2 h1, after_of_not_mem '+' g.2 h1, h2]
  rw [if_pos h3]

/-- The loop of `br_attr_val` over recognised attributes followed by a segment
that is not recognised: the bits of the recognised ones. -/
theorem br_attr_val_loop_until (final : CStr)
    (hfinal : (match_token (upto final '+') brattr 0).1 = 0) :
    ∀ (goods : List (Nat × CStr)) (fuel attr : Nat), (∀ g ∈ goods, g ∈ brattr) →
      goods.length + 1 ≤ fuel →
      br_attr_val_loop brattr fuel (plus_each (goods.map Prod.snd) ++ final) attr
        = attr ||| or_all (goods.map Prod.fst)
  | [], fuel, attr, _, hf => by
    match fuel, hf with
    | f + 1, _ => simp [br_attr_val_loop, plus_each, hfinal, or_all]
  | g :: rest, fuel, attr, hg, hf => by
    match fuel, hf with
    | f + 1, hf =>
      simp only [List.length_cons] at hf
      simp only [List.map, plus_each, List.append_assoc, List.cons_append]
      rw [br_attr_val_loop_cons g (hg g (by simp)),
        br_attr_val_loop_until final hfinal rest f _ (fun x hx => hg x (by simp [hx]))
          (by omega)]
      simp [or_all, Nat.lor_assoc]

/-- The loop of `br_attr_val` over recognised attributes only: all their bits. -/
theorem br_attr_val_loop_all :
    ∀ (goods : List (Nat × CStr)) (fuel attr : Nat), goods ≠ [] → (∀ g ∈ goods, g ∈ brattr) →
      goods.length ≤ fuel →
      br_attr_val_loop brattr fuel (plus_join (goods.map Prod.snd)) attr
        = attr ||| or_all (goods.map Prod.fst)
  | [], _, _, h, _, _ => absurd rfl h
  | [g], fuel, attr, _, hg, hf => by
    match fuel, hf with
    | f + 1, _ =>
      simp only [List.map, plus_join]
      rw [br_attr_val_loop_last g (hg g (by simp))]
      simp [or_all]
  | g :: g2 :: rest, fuel, attr, _, hg, hf => by
    match fuel, hf with
    | f + 1, hf =>
      simp only [List.length_cons] at hf
      simp only [List.map, plus_join]
      have ih := br_attr_val_loop_all (g2 :: rest) f (attr ||| g.1) (by simp)
        (fun x hx => hg x (by simp [hx])) (by simp only [List.length_cons]; omega)
      simp only [List.map] at ih
      rw [br_attr_val_loop_cons g (hg g (by simp)), ih]
      simp [or_all, Nat.lor_assoc]

theorem plus_join_length : ∀ names : List CStr, names.length ≤ (plus_join names).length + 1
  | [] => by simp
  | [p] => by simp
  | p :: q :: rest => by
    have := plus_join_length (q :: rest)
    simp only [plus_join, List.length_cons, List.length_append] at this ⊢
    omega

theorem plus_each_length : ∀ names : List CStr, names.length ≤ (plus_each names).length
  | [] => by simp
  | p :: rest => by
    have := plus_each_length rest
    simp only [plus_each, List.length_cons, List.length_append]
    omega

/-- The bits of a list of attributes of the table: the one, the other, or both. -/
theorem or_all_eq : ∀ l : List Nat, (∀ x ∈ l, x ∈ [AuBrRAttr_WH, AuBrWAttr_NoLinkWH]) →
    or_all l = (if AuBrRAttr_WH ∈ l then AuBrRAttr_WH else 0)
      ||| (if AuBrWAttr_NoLinkWH ∈ l then AuBrWAttr_NoLinkWH else 0)
  | [], _ => by simp [or_all]
  | x :: l, h => by
    have ih := or_all_eq l (fun y hy => h y (by simp [hy]))
    have hx := h x (by simp)
    have hne : AuBrRAttr_WH ≠ AuBrWAttr_NoLinkWH := by decide
    simp only [List.mem_cons, List.mem_singleton, List.not_mem_nil, or_false] at hx
    simp only [or_all, ih, List.mem_cons]
    rcases hx with hx | hx <;> subst hx <;>
      by_cases h1 : AuBrRAttr_WH ∈ l <;> by_cases h2 : AuBrWAttr_NoLinkWH ∈ l <;>
      simp [h1, h2, hne, hne.symm] <;> decide

/-- The end of `br_perm_val` on a base with attributes of the table: the
attributes that are legal for the base stay, the others are stripped. -/
theorem strip_named (b : Nat × CStr) (hb : b ∈ brperm) (l : List Nat)
    (hl : ∀ x ∈ l, x ∈ [AuBrRAttr_WH, AuBrWAttr_NoLinkWH]) :
    (if (b.1 ||| or_all l) &&& AuBrPerm_Mask = AuBrPerm_RO then
        andnot (b.1 ||| or_all l) AuBrWAttr_Mask
      else if (b.1 ||| or_all l) &&& AuBrPerm_Mask = AuBrPerm_RW then
        andnot (b.1 ||| or_all l) AuBrRAttr_Mask
      else b.1 ||| or_all l)
      = b.1 ||| or_all (l.filter (attr_legal b.1)) := by
  have hf : ∀ x ∈ l.filter (attr_legal b.1), x ∈ [AuBrRAttr_WH, AuBrWAttr_NoLinkWH] :=
    fun x hx => hl x (List.mem_filter.mp hx).1
  rw [or_all_eq l hl, or_all_eq _ hf]
  simp only [List.mem_filter]
  simp only [brperm, List.mem_cons, List.mem_singleton, List.not_mem_nil, or_false] at hb
  rcases hb with hb | hb <;> subst hb <;>
    by_cases h1 : AuBrRAttr_WH ∈ l <;> by_cases h2 : AuBrWAttr_NoLinkWH ∈ l <;>
    simp only [h1, h2, true_and, false_and, if_true, if_false] <;> decide

/-- The value of a permission string whose segments are all recognised: the
base with the named attributes that are legal for it. -/
theorem br_perm_val_named (b : Nat × CStr) (hb : b ∈ brperm) (goods : List (Nat × CStr))
    (hg : ∀ g ∈ goods, g ∈ brattr) :
    br_perm_val (plus_join (b.2 :: goods.map Prod.snd))
      = b.1 ||| or_all ((goods.map Prod.fst).filter (attr_legal b.1)) := by
  have hbase : '+' ∉ b.2 ∧ (match_token b.2 brperm 0).1 = b.1 ∧ b.1 ≠ 0 := by
    revert b; decide
  obtain ⟨h1, h2, h3⟩ := hbase
  have hl : ∀ x ∈ goods.map Prod.fst, x ∈ [AuBrRAttr_WH, AuBrWAttr_NoLinkWH] := by
    intro x hx
    obtain ⟨g, hgm, rfl⟩ := List.mem_map.mp hx
    exact (brattr_entry g (hg g hgm)).2.2.2
  cases goods with
  | nil =>
    simp only [List.map, plus_join, br_perm_val, upto_of_not_mem '+' b.2 h1,
      after_of_not_mem '+' b.2 h1, h2]
    rw [if_neg h3]
    simp [or_all]
  | cons g rest =>
    have hval : br_attr_val (plus_join ((g :: rest).map Prod.snd)) brattr
        = or_all ((g :: rest).map Prod.fst) := by
      unfold br_attr_val
      rw [br_attr_val_loop_all (g :: rest) _ 0 (by simp) hg (by
        have := plus_join_length ((g :: rest).map Prod.snd)
        simp only [List.length_map] at this
        omega)]
      simp
    have hs : plus_join (b.2 :: (g :: rest).map Prod.snd)
        = b.2 ++ '+' :: plus_join ((g :: rest).map Prod.snd) := rfl
    rw [hs]
    simp only [br_perm_val, upto_append_cons '+' _ b.2 h1, after_append_cons '+' b.2 _ h1, h2]
    rw [if_neg h3]
    simp only [hval]
    exact strip_named b hb _ hl

/-- C14: every value of `br_perm_val` carries exactly one base, and no
attribute that is illegal for it: none of `AuBrWAttr_Mask` with the read-only
base, none of `AuBrRAttr_Mask` with the read-write base, and no other bit at
all; for a string whose segments are all recognised the value is the base
combined with exactly the named attributes that are legal for it. -/
theorem br_perm_val_one_base_legal (s : CStr) (b : Nat × CStr) (goods : List (Nat × CStr))
    (hb : b ∈ brperm) (hg : ∀ g ∈ goods, g ∈ brattr) :
    ((br_perm_val s &&& AuBrPerm_Mask = AuBrPerm_RO ∧ br_perm_val s &&& AuBrWAttr_Mask = 0) ∨
      (br_perm_val s &&& AuBrPerm_Mask = AuBrPerm_RW ∧
        br_perm_val s &&& AuBrRAttr_Mask = 0)) ∧
    br_perm_val s ∈ [AuBrPerm_RO, AuBrPerm_RO ||| AuBrRAttr_WH, AuBrPerm_RW,
      AuBrPerm_RW ||| AuBrWAttr_NoLinkWH] ∧
    br_perm_val (plus_join (b.2 :: goods.map Prod.snd))
      = b.1 ||| or_all ((goods.map Prod.fst).filter (attr_legal b.1)) := by
  have key : ∀ v ∈ [AuBrPerm_RO, AuBrPerm_RO ||| AuBrRAttr_WH, AuBrPerm_RW,
      AuBrPerm_RW ||| AuBrWAttr_NoLinkWH],
      (v &&& AuBrPerm_Mask = AuBrPerm_RO ∧ v &&& AuBrWAttr_Mask = 0) ∨
        (v &&& AuBrPerm_Mask = AuBrPerm_RW ∧ v &&& AuBrRAttr_Mask = 0) := by decide
  exact ⟨key _ (br_perm_val_mem s), br_perm_val_mem s, br_perm_val_named b hb goods hg⟩

/-- C14 at the string rw+wh+nolwh: the attribute wh is stripped from the
read-write base, nolwh stays. -/
theorem br_perm_val_one_base_legal_witness :
    ((AuBrPerm_RW, AUFS_BRPERM_RW) ∈ brperm ∧
      (∀ g ∈ [(AuBrRAttr_WH, AUFS_BRRATTR_WH), (AuBrWAttr_NoLinkWH, AUFS_BRWATTR_NLWH)],
        g ∈ brattr) ∧
      plus_join (AUFS_BRPERM_RW :: [AUFS_BRRATTR_WH, AUFS_BRWATTR_NLWH]) = cs "rw+wh+nolwh" ∧
      AuBrPerm_RW ||| or_all ([AuBrRAttr_WH, AuBrWAttr_NoLinkWH].filter (attr_legal AuBrPerm_RW))
        = AuBrPerm_RW ||| AuBrWAttr_NoLinkWH) ∧
    br_perm_val (plus_join ((AuBrPerm_RW, AUFS_BRPERM_RW).2 ::
        [(AuBrRAttr_WH, AUFS_BRRATTR_WH), (AuBrWAttr_NoLinkWH, AUFS_BRWATTR_NLWH)].map Prod.snd))
      = (AuBrPerm_RW, AUFS_BRPERM_RW).1 ||| or_all
          (([(AuBrRAttr_WH, AUFS_BRRATTR_WH), (AuBrWAttr_NoLinkWH, AUFS_BRWATTR_NLWH)].map
            Prod.fst).filter (attr_legal (AuBrPerm_RW, AUFS_BRPERM_RW).1)) :=
  ⟨by decide,
   (br_perm_val_one_base_legal [] (AuBrPerm_RW, AUFS_BRPERM_RW)
      [(AuBrRAttr_WH, AUFS_BRRATTR_WH), (AuBrWAttr_NoLinkWH, AUFS_BRWATTR_NLWH)]
      (by decide) (by decide)).2.2⟩

theorem plus_join_append (y : CStr) : ∀ (xs : List CStr) (x : CStr),
    plus_join (x :: xs) ++ '+' :: y = x ++ '+' :: (plus_each xs ++ y)
  | [], x => by simp [plus_join, plus_each]
  | z :: zs, x => by
    have ih := plus_join_append y zs z
    simp only [plus_join, plus_each, List.append_assoc, List.cons_append] at ih ⊢
    rw [ih]

/-- The value of a permission string with a recognised base, recognised
attributes and then a segment that is not recognised: the value of the string
cut before that segment. -/
theorem br_perm_val_until (b : Nat × CStr) (hb : b ∈ brperm) (goods : List (Nat × CStr))
    (hg : ∀ g ∈ goods, g ∈ brattr) (final : CStr)
    (hfinal : (match_token (upto final '+') brattr 0).1 = 0) :
    br_perm_val (plus_join (b.2 :: goods.map Prod.snd) ++ '+' :: final)
      = br_perm_val (plus_join (b.2 :: goods.map Prod.snd)) := by
  have hbase : '+' ∉ b.2 ∧ (match_token b.2 brperm 0).1 = b.1 ∧ b.1 ≠ 0 := by
    revert b; decide
  obtain ⟨h1, h2, h3⟩ := hbase
  have hl : ∀ x ∈ goods.map Prod.fst, x ∈ [AuBrRAttr_WH, AuBrWAttr_NoLinkWH] := by
    intro x hx
    obtain ⟨g, hgm, rfl⟩ := List.mem_map.mp hx
    exact (brattr_entry g (hg g hgm)).2.2.2
  have hval : br_attr_val (plus_each (goods.map Prod.snd) ++ final) brattr
      = or_all (goods.map Prod.fst) := by
    unfold br_attr_val
    rw [br_attr_val_loop_until final hfinal goods _ 0 hg (by
      have := plus_each_length (goods.map Prod.snd)
      simp only [List.length_map, List.length_append] at this ⊢
      omega)]
    simp
  rw [br_perm_val_named b hb goods hg, plus_join_append]
  simp only [br_perm_val, upto_append_cons '+' _ b.2 h1, after_append_cons '+' b.2 _ h1, h2]
  rw [if_neg h3]
  simp only [hval]
  exact strip_named b hb _ hl

/-- C19: in a permission string with a recognised base, the first attribute
segment that is not in the table `brattr` ends the parse: `br_perm_val` returns
what it returns for the string cut just before that segment, whether the
segment is the last one or others follow, valid or not. -/
theorem unmatched_attr_truncates (b : Nat × CStr) (goods : List (Nat × CStr)) (bad : CStr)
    (hb : b ∈ brperm) (hg : ∀ g ∈ goods, g ∈ brattr) (hplus : '+' ∉ bad)
    (hbad : bad ≠ AUFS_BRRATTR_WH ∧ bad ≠ AUFS_BRWATTR_NLWH) :
    br_perm_val (plus_join (b.2 :: goods.map Prod.snd) ++ '+' :: bad)
      = br_perm_val (plus_join (b.2 :: goods.map Prod.snd)) ∧
    ∀ rest : CStr,
      br_perm_val (plus_join (b.2 :: goods.map Prod.snd) ++ '+' :: (bad ++ '+' :: rest))
        = br_perm_val (plus_join (b.2 :: goods.map Prod.snd)) := by
  have h0 : (match_token bad brattr 0).1 = 0 := by
    rw [match_token_brattr, if_neg hbad.1, if_neg hbad.2]
  refine ⟨br_perm_val_until b hb goods hg bad ?_, fun rest =>
    br_perm_val_until b hb goods hg _ ?_⟩
  · rw [upto_of_not_mem '+' bad hplus]; exact h0
  · rw [upto_append_cons '+' rest bad hplus]; exact h0

/-- C19 at the string ro+bogus+wh, which parses like ro. -/
theorem unmatched_attr_truncates_witness :
    ((AuBrPerm_RO, AUFS_BRPERM_RO) ∈ brperm ∧ (∀ g ∈ ([] : List (Nat × CStr)), g ∈ brattr) ∧
      '+' ∉ cs "bogus" ∧ (cs "bogus" ≠ AUFS_BRRATTR_WH ∧ cs "bogus" ≠ AUFS_BRWATTR_NLWH) ∧
      plus_join ((AuBrPerm_RO, AUFS_BRPERM_RO).2 :: ([] : List (Nat × CStr)).map Prod.snd)
          ++ '+' :: (cs "bogus" ++ '+' :: cs "wh") = cs "ro+bogus+wh" ∧
      plus_join ((AuBrPerm_RO, AUFS_BRPERM_RO).2 :: ([] : List (Nat × CStr)).map Prod.snd)
        = cs "ro") ∧
    br_perm_val (plus_join ((AuBrPerm_RO, AUFS_BRPERM_RO).2 ::
          ([] : List (Nat × CStr)).map Prod.snd) ++ '+' :: (cs "bogus" ++ '+' :: cs "wh"))
      = br_perm_val (plus_join ((AuBrPerm_RO, AUFS_BRPERM_RO).2 ::
          ([] : List (Nat × CStr)).map Prod.snd)) :=
  ⟨by decide,
   (unmatched_attr_truncates (AuBrPerm_RO, AUFS_BRPERM_RO) [] (cs "bogus") (by decide)
      (by decide) (by decide) (by decide)).2 (cs "wh")⟩

/-- Some permission strings, evaluated: attributes behind a segment that is not
recognised are dropped, an attribute that is illegal for the base is stripped. -/
theorem br_perm_val_examples :
    [cs "ro+bogus+wh", cs "ro", cs "ro+wh+bogus+nolwh", cs "ro+wh", cs "rw+nolwh+x+wh",
        cs "rw+wh+nolwh", cs "ro+nolwh", cs "ro+", cs "rw++nolwh", cs "ro+wh+wh"].map br_perm_val
      = [AuBrPerm_RO, AuBrPerm_RO, AuBrPerm_RO ||| AuBrRAttr_WH, AuBrPerm_RO ||| AuBrRAttr_WH,
          AuBrPerm_RW ||| AuBrWAttr_NoLinkWH, AuBrPerm_RW ||| AuBrWAttr_NoLinkWH, AuBrPerm_RO,
          AuBrPerm_RO, AuBrPerm_RW, AuBrPerm_RO ||| AuBrRAttr_WH] := by
  decide

/-! ## The branch pass of `au_opts_mount` -/

theorem insert_at_length (l : List au_branch) (n : Nat) (x : au_branch) :
    (insert_at l n x).length = l.length + 1 := by
  simp only [insert_at, List.length_append, List.length_cons, List.length_take,
    List.length_drop]
  omega

theorem insert_all_length (c : Collab) :
    ∀ (adds : List au_opt_add) (brs brs1 : List au_branch),
      insert_all c brs adds = some brs1 → brs1.length = brs.length + adds.length
  | [], brs, brs1, h => by
    simp only [insert_all, Option.some.injEq] at h
    simp [h]
  | a :: rest, brs, brs1, h => by
    simp only [insert_all] at h
    cases hb : c.br_new brs a with
    | error e => simp [hb] at h
    | ok b =>
      simp only [hb] at h
      have := insert_all_length c rest _ _ h
      simp only [insert_at_length, List.length_cons] at this ⊢
      omega

/-- The branch pass over records among which the insertion of `a` fails after
the insertions of `pre` succeeded: the pass ends with the error of that
insertion, the branches of `pre` inserted and nothing behind `a` attempted. -/
theorem br_pass_fail (c : Collab) (a : au_opt_add) (post : List au_opt_add)
    (brs : List au_branch) (e : Errno) (hfail : c.br_new brs a = .error e) :
    ∀ (arr : List au_opt) (err : Int) (m : Mount) (pre : List au_opt_add), 0 ≤ err →
      adds_of (records arr) = pre ++ a :: post →
      insert_all c m.sb.branches pre = some brs →
      pass_loop (au_opt_br c) arr err m
        = some (e.val, { m with sb := { m.sb with branches := brs },
                                log := m.log ++ (pre ++ [a]).map Event.br_add })
  | [], _, _, pre, _, hadds, _ => by
    cases pre <;> simp [records, adds_of] at hadds
  | o :: rest, err, m, pre, herr, hadds, hpre => by
    have hlt : ¬ err < 0 := by omega
    have hneg := e.neg
    by_cases ht : o.type = Opt_tail
    · cases pre <;> simp [records, adds_of, ht] at hadds
    · simp only [pass_loop, hlt, ht, if_false]
      simp only [records, ht, if_false] at hadds
      by_cases hadd : o.type = Opt_add
      · cases hu : o.u with
        | add a0 =>
          simp only [adds_of, hadd, hu, if_true] at hadds
          cases pre with
          | nil =>
            simp only [List.nil_append, List.cons.injEq] at hadds
            obtain ⟨rfl, _⟩ := hadds
            simp only [insert_all, Option.some.injEq] at hpre
            subst hpre
            have h0 : ¬ e.val = 0 := by omega
            simp only [au_opt_br, hadd, hu, if_true, au_br_add, Mount.logged, hfail, h0,
              if_false]
            cases rest <;> simp [pass_loop, hneg]
          | cons p pre1 =>
            simp only [List.cons_append, List.cons.injEq] at hadds
            obtain ⟨rfl, hadds⟩ := hadds
            simp only [insert_all] at hpre
            cases hb : c.br_new m.sb.branches a0 with
            | error e0 => simp [hb] at hpre
            | ok b =>
              simp only [hb] at hpre
              simp only [au_opt_br, hadd, hu, if_true, au_br_add, Mount.logged, hb]
              rw [br_pass_fail c a post brs e hfail rest 1 _ pre1 (by omega) hadds hpre]
              simp
        | junk => 
          simp only [adds_of, hadd, hu, if_true] at hadds
          simp only [au_opt_br, hadd, hu, if_true]
          exact br_pass_fail c a post brs e hfail rest 0 m pre (le_refl _) hadds hpre
        | xino x =>
          simp only [adds_of, hadd, hu, if_true] at hadds
          simp only [au_opt_br, hadd, hu, if_true]
          exact br_pass_fail c a post brs e hfail rest 0 m pre (le_refl _) hadds hpre
        | rdcache n =>
          simp only [adds_of, hadd, hu, if_true] at hadds
          simp only [au_opt_br, hadd, hu, if_true]
          exact br_pass_fail c a post brs e hfail rest 0 m pre (le_refl _) hadds hpre
        | rdblk n =>
          simp only [adds_of, hadd, hu, if_true] at hadds
          simp only [au_opt_br, hadd, hu, if_true]
          exact br_pass_fail c a post brs e hfail rest 0 m pre (le_refl _) hadds hpre
        | rdhash n =>
          simp only [adds_of, hadd, hu, if_true] at hadds
          simp only [au_opt_br, hadd, hu, if_true]
          exact br_pass_fail c a post brs e hfail rest 0 m pre (le_refl _) hadds hpre
        | wbr_create n =>
          simp only [adds_of, hadd, hu, if_true] at hadds
          simp only [au_opt_br, hadd, hu, if_true]
          exact br_pass_fail c a post brs e hfail rest 0 m pre (le_refl _) hadds hpre
        | wbr_copyup n =>
          simp only [adds_of, hadd, hu, if_true] at hadds
          simp only [au_opt_br, hadd, hu, if_true]
          exact br_pass_fail c a post brs e hfail rest 0 m pre (le_refl _) hadds hpre
      · simp only [adds_of, hadd, if_false] at hadds
        simp only [au_opt_br, hadd, if_false]
        exact br_pass_fail c a post brs e hfail rest 0 m pre (le_refl _) hadds hpre

/-- C15: when the simple pass succeeds and `au_br_add` fails on a record of an
added branch after it succeeded on the records `pre` before it,
`au_opts_mount` returns the error of that call; the branches of `pre` are in
the branch list as they were inserted, `au_br_add` was called for `pre` and the
failing record and for no record behind it, and no other collaborator was
called after the failure. -/
theorem br_add_failure_stops (c : Collab) (m m1 : Mount) (opts : List au_opt) (e1 : Int)
    (pre post : List au_opt_add) (a : au_opt_add) (brs : List au_branch) (e : Errno)
    (hsimple : pass_loop (au_opt_simple c) opts 0 m = some (e1, m1)) (he1 : 0 ≤ e1)
    (hadds : adds_of (records opts) = pre ++ a :: post)
    (hpre : insert_all c m1.sb.branches pre = some brs)
    (hfail : c.br_new brs a = .error e) :
    au_opts_mount c m opts
      = some (e.val,
          ⟨{ m1.sb with si_mntflags := au_opt_clr m1.sb.si_mntflags AuOpt_XINO, branches := brs },
            m1.refs, m1.log ++ (pre ++ [a]).map Event.br_add⟩) ∧
    brs.length = m1.sb.branches.length + pre.length := by
  refine ⟨?_, insert_all_length c pre _ _ hpre⟩
  have hneg := e.neg
  have hlt : ¬ e1 < 0 := by omega
  have hbr := br_pass_fail c a post brs e hfail opts 0
    { m1 with sb := { m1.sb with si_mntflags := au_opt_clr m1.sb.si_mntflags AuOpt_XINO } }
    pre (le_refl _) hadds hpre
  simp only [au_opts_mount, hsimple, hlt, if_false]
  simp only at hbr
  rw [hbr]
  simp [hneg]

/-- C15 at three records of added branches, /a, /b and /c, where `au_br_add`
fails with -ENOMEM on /b: the branch of /a stays, /c is not attempted. -/
theorem br_add_failure_stops_witness :
    (pass_loop (au_opt_simple (demo_collab (cs "/b") [] 7))
        [add_rec 0 (cs "/a") AuBrPerm_RW 1 0, add_rec 1 (cs "/b") AuBrPerm_RO 2 1,
          add_rec 2 (cs "/c") AuBrPerm_RO 3 2, ⟨Opt_tail, .junk⟩] 0 (fresh_mount 0 AuOpt_XINO)
        = some (0, fresh_mount 0 AuOpt_XINO) ∧
      adds_of (records [add_rec 0 (cs "/a") AuBrPerm_RW 1 0,
          add_rec 1 (cs "/b") AuBrPerm_RO 2 1, add_rec 2 (cs "/c") AuBrPerm_RO 3 2,
          ⟨Opt_tail, .junk⟩])
        = [au_opt_add.mk 0 (cs "/a") AuBrPerm_RW (some ⟨1, 0⟩)]
          ++ au_opt_add.mk 1 (cs "/b") AuBrPerm_RO (some ⟨2, 1⟩)
            :: [au_opt_add.mk 2 (cs "/c") AuBrPerm_RO (some ⟨3, 2⟩)] ∧
      insert_all (demo_collab (cs "/b") [] 7) (fresh_mount 0 AuOpt_XINO).sb.branches
          [au_opt_add.mk 0 (cs "/a") AuBrPerm_RW (some ⟨1, 0⟩)]
        = some [au_branch.mk 0 AuBrPerm_RW (some ⟨false, false, false⟩) 1] ∧
      (demo_collab (cs "/b") [] 7).br_new
          [au_branch.mk 0 AuBrPerm_RW (some ⟨false, false, false⟩) 1]
          (au_opt_add.mk 1 (cs "/b") AuBrPerm_RO (some ⟨2, 1⟩))
        = .error (Errno.mk (-ENOMEM) (by decide))) ∧
    au_opts_mount (demo_collab (cs "/b") [] 7) (fresh_mount 0 AuOpt_XINO)
        [add_rec 0 (cs "/a") AuBrPerm_RW 1 0, add_rec 1 (cs "/b") AuBrPerm_RO 2 1,
          add_rec 2 (cs "/c") AuBrPerm_RO 3 2, ⟨Opt_tail, .junk⟩]
      = some ((Errno.mk (-ENOMEM) (by decide)).val,
          ⟨{ (fresh_mount 0 AuOpt_XINO).sb with
              si_mntflags := au_opt_clr (fresh_mount 0 AuOpt_XINO).sb.si_mntflags AuOpt_XINO,
              branches := [au_branch.mk 0 AuBrPerm_RW (some ⟨false, false, false⟩) 1] },
            (fresh_mount 0 AuOpt_XINO).refs,
            (fresh_mount 0 AuOpt_XINO).log
              ++ ([au_opt_add.mk 0 (cs "/a") AuBrPerm_RW (some ⟨1, 0⟩)]
                ++ [au_opt_add.mk 1 (cs "/b") AuBrPerm_RO (some ⟨2, 1⟩)]).map Event.br_add⟩) :=
  ⟨by decide,
   (br_add_failure_stops (demo_collab (cs "/b") [] 7) (fresh_mount 0 AuOpt_XINO)
      (fresh_mount 0 AuOpt_XINO)
      [add_rec 0 (cs "/a") AuBrPerm_RW 1 0, add_rec 1 (cs "/b") AuBrPerm_RO 2 1,
        add_rec 2 (cs "/c") AuBrPerm_RO 3 2, ⟨Opt_tail, .junk⟩] 0
      [au_opt_add.mk 0 (cs "/a") AuBrPerm_RW (some ⟨1, 0⟩)]
      [au_opt_add.mk 2 (cs "/c") AuBrPerm_RO (some ⟨3, 2⟩)]
      (au_opt_add.mk 1 (cs "/b") AuBrPerm_RO (some ⟨2, 1⟩))
      [au_branch.mk 0 AuBrPerm_RW (some ⟨false, false, false⟩) 1]
      (Errno.mk (-ENOMEM) (by decide)) (by decide) (by decide) (by decide) (by decide)
      (by decide)).1⟩

/-- The option string br=/a:/b:/c, parsed and applied where `au_br_add` fails
on /b: -ENOMEM, one branch, two calls of `au_br_add`. -/
theorem br_add_failure_example :
    ((au_opts_parse x86_64 demo_env (cs "br=/a:/b:/c") (fresh_opts 8 0)).bind fun p =>
      (au_opts_mount (demo_collab (cs "/b") [] 7) (fresh_mount 0 AuOpt_XINO) p.opt).map
        fun r => (r.1, r.2.sb.branches.map (fun b => b.h_root), r.2.log.length))
      = some (-ENOMEM, [1], 2) := by
  decide

/-! ## The xino pass of `au_opts_mount` -/

/-- The scan of `au_opt_xino` finds the id of the branch with the lowest index
whose root is `parent`. -/
theorem xino_home_first (parent : Nat) :
    ∀ (brs : List au_branch) (i : Nat) (b : au_branch), brs[i]? = some b →
      b.h_root = parent →
      (∀ (j : Nat) (b1 : au_branch), j < i → brs[j]? = some b1 → b1.h_root ≠ parent) →
      xino_home brs parent = some b.br_id
  | [], i, b, h, _, _ => by simp at h
  | b0 :: rest, 0, b, h, hb, _ => by
    simp only [List.getElem?_cons_zero, Option.some.injEq] at h
    subst h
    simp [xino_home, hb]
  | b0 :: rest, i + 1, b, h, hb, hlow => by
    have h0 : b0.h_root ≠ parent := hlow 0 b0 (by omega) (by simp)
    simp only [List.getElem?_cons_succ] at h
    simp only [xino_home, h0, if_false]
    exact xino_home_first parent rest i b h hb
      (fun j b1 hj hb1 => hlow (j + 1) b1 (by omega) (by simpa using hb1))

/-- The scan of `au_opt_xino` finds nothing when no branch has the root `parent`. -/
theorem xino_home_none (parent : Nat) :
    ∀ brs : List au_branch, (∀ b ∈ brs, b.h_root ≠ parent) → xino_home brs parent = none
  | [], _ => rfl
  | b0 :: rest, h => by
    have h0 : b0.h_root ≠ parent := h b0 (by simp)
    simp only [xino_home, h0, if_false]
    exact xino_home_none parent rest (fun b hb => h b (by simp [hb]))

/-- C16: when `au_xino_set` succeeds on a record of an xino option,
`au_opt_xino` returns 0 with the file bound and the branches as they were, and
the xino home branch is the id of the branch with the lowest index whose root
is the parent of the xino file, or -1 when no branch has that root; on a record
of a noxino option the xino file is detached and the home branch is -1. -/
theorem xino_home_branch (c : Collab) (m : Mount) (x : au_opt_xino) (u : Payload)
    (ox : OptXino) (hok : c.xino_set_err m.sb x.file = none) :
    ((au_opt_xino_apply c m ⟨Opt_xino, .xino x⟩ ox).1 = 0 ∧
      (au_opt_xino_apply c m ⟨Opt_xino, .xino x⟩ ox).2.2 = .record x ∧
      (au_opt_xino_apply c m ⟨Opt_xino, .xino x⟩ ox).2.1.sb.xino = some x.file ∧
      (au_opt_xino_apply c m ⟨Opt_xino, .xino x⟩ ox).2.1.sb.branches = m.sb.branches) ∧
    (∀ (i : Nat) (b : au_branch), m.sb.branches[i]? = some b →
      b.h_root = x.file.d_parent →
      (∀ (j : Nat) (b1 : au_branch), j < i → m.sb.branches[j]? = some b1 →
        b1.h_root ≠ x.file.d_parent) →
      (au_opt_xino_apply c m ⟨Opt_xino, .xino x⟩ ox).2.1.sb.xino_brid = b.br_id) ∧
    ((∀ b ∈ m.sb.branches, b.h_root ≠ x.file.d_parent) →
      (au_opt_xino_apply c m ⟨Opt_xino, .xino x⟩ ox).2.1.sb.xino_brid = -1) ∧
    ((au_opt_xino_apply c m ⟨Opt_noxino, u⟩ ox).1 = 0 ∧
      (au_opt_xino_apply c m ⟨Opt_noxino, u⟩ ox).2.2 = .minus1 ∧
      (au_opt_xino_apply c m ⟨Opt_noxino, u⟩ ox).2.1.sb.xino = none ∧
      (au_opt_xino_apply c m ⟨Opt_noxino, u⟩ ox).2.1.sb.xino_brid = -1 ∧
      (au_opt_xino_apply c m ⟨Opt_noxino, u⟩ ox).2.1.log = m.log ++ [.xino_clr]) := by
  have hset : au_xino_set c m x.file
      = (0, { m.logged (.xino_set x.file) with
              sb := { m.sb with xino := some x.file } }) := by
    simp [au_xino_set, Mount.logged, hok]
  refine ⟨?_, ?_, ?_, ?_⟩
  · cases hh : xino_home m.sb.branches x.file.d_parent <;>
      simp [au_opt_xino_apply, hset, au_xino_brid_set, Mount.logged, hh]
  · intro i b hi hb hlow
    have hh := xino_home_first x.file.d_parent m.sb.branches i b hi hb hlow
    simp [au_opt_xino_apply, hset, au_xino_brid_set, Mount.logged, hh]
  · intro hnone
    have hh := xino_home_none x.file.d_parent m.sb.branches hnone
    simp [au_opt_xino_apply, hset, au_xino_brid_set, Mount.logged, hh]
  · simp [au_opt_xino_apply, au_xino_clr, au_xino_brid_set, Mount.logged]

/-- C16 at three branches of which the second and the third have the parent of
the xino file as their root: the home branch is the id of the second. -/
theorem xino_home_branch_witness :
    ((demo_collab [] [] 7).xino_set_err
        (mount_of 0 AuOpt_XINO [⟨10, AuBrPerm_RW, none, 1⟩, ⟨11, AuBrPerm_RO, none, 2⟩,
          ⟨12, AuBrPerm_RO, none, 2⟩]).sb (au_opt_xino.mk (cs "/b/xi") ⟨2, false, 0⟩).file
        = none ∧
      (mount_of 0 AuOpt_XINO [⟨10, AuBrPerm_RW, none, 1⟩, ⟨11, AuBrPerm_RO, none, 2⟩,
          ⟨12, AuBrPerm_RO, none, 2⟩]).sb.branches[1]? = some ⟨11, AuBrPerm_RO, none, 2⟩ ∧
      (au_branch.mk 11 AuBrPerm_RO none 2).h_root
        = (au_opt_xino.mk (cs "/b/xi") ⟨2, false, 0⟩).file.d_parent) ∧
    (au_opt_xino_apply (demo_collab [] [] 7)
        (mount_of 0 AuOpt_XINO [⟨10, AuBrPerm_RW, none, 1⟩, ⟨11, AuBrPerm_RO, none, 2⟩,
          ⟨12, AuBrPerm_RO, none, 2⟩])
        ⟨Opt_xino, .xino (au_opt_xino.mk (cs "/b/xi") ⟨2, false, 0⟩)⟩ .null).2.1.sb.xino_brid
      = (au_branch.mk 11 AuBrPerm_RO none 2).br_id :=
  ⟨by decide,
   (xino_home_branch (demo_collab [] [] 7)
      (mount_of 0 AuOpt_XINO [⟨10, AuBrPerm_RW, none, 1⟩, ⟨11, AuBrPerm_RO, none, 2⟩,
        ⟨12, AuBrPerm_RO, none, 2⟩])
      (au_opt_xino.mk (cs "/b/xi") ⟨2, false, 0⟩) .junk .null (by decide)).2.1 1
      ⟨11, AuBrPerm_RO, none, 2⟩ (by decide) (by decide)
      (fun j b1 hj h => by
        have hj0 : j = 0 := by omega
        subst hj0
        simp only [mount_of, List.getElem?_cons_zero, Option.some.injEq] at h
        subst h
        decide)⟩

/-- The xino pass on examples: a file in the root of no branch gives the home
branch -1, and a noxino option detaches a bound file. -/
theorem xino_home_examples :
    (au_opt_xino_apply (demo_collab [] [] 7)
        (mount_of 0 AuOpt_XINO [⟨10, AuBrPerm_RW, none, 1⟩, ⟨11, AuBrPerm_RO, none, 2⟩])
        ⟨Opt_xino, .xino ⟨cs "/xi", ⟨9, false, 0⟩⟩⟩ .null).2.1.sb.xino_brid = -1 ∧
    ((au_opt_xino_apply (demo_collab [] [] 7)
        (au_opt_xino_apply (demo_collab [] [] 7)
          (mount_of 0 AuOpt_XINO [⟨10, AuBrPerm_RW, none, 1⟩, ⟨11, AuBrPerm_RO, none, 2⟩])
          ⟨Opt_xino, .xino ⟨cs "/b/xi", ⟨2, false, 0⟩⟩⟩ .null).2.1
        ⟨Opt_noxino, .junk⟩ .null).2.1.sb.xino,
      (au_opt_xino_apply (demo_collab [] [] 7)
        (au_opt_xino_apply (demo_collab [] [] 7)
          (mount_of 0 AuOpt_XINO [⟨10, AuBrPerm_RW, none, 1⟩, ⟨11, AuBrPerm_RO, none, 2⟩])
          ⟨Opt_xino, .xino ⟨cs "/b/xi", ⟨2, false, 0⟩⟩⟩ .null).2.1
        ⟨Opt_noxino, .junk⟩ .null).2.1.sb.xino_brid) = (none, -1) := by
  decide

/-! ## The default xino file -/

/-- After the four passes succeeded `au_opts_mount` ends with the restoration
of the default xino file. -/
theorem au_opts_mount_of_four_passes (c : Collab) (m : Mount) (opts : List au_opt)
    (tmp : Nat) (ox : OptXino) (m4 : Mount)
    (h : four_passes c m opts = some (tmp, ox, m4)) :
    au_opts_mount c m opts = some (restore_xino c m4 tmp ox) := by
  unfold four_passes at h
  unfold au_opts_mount
  cases h1 : pass_loop (au_opt_simple c) opts 0 m with
  | none => simp [h1] at h
  | some r1 =>
    obtain ⟨e1, m1⟩ := r1
    simp only [h1] at h ⊢
    by_cases he1 : e1 < 0
    · simp [he1] at h
    · simp only [he1, if_false] at h ⊢
      cases h2 : pass_loop (au_opt_br c) opts 0
          { m1 with sb := { m1.sb with
              si_mntflags := au_opt_clr m1.sb.si_mntflags AuOpt_XINO } } with
      | none => simp [h2] at h
      | some r2 =>
        obtain ⟨e2, m2⟩ := r2
        simp only [h2] at h ⊢
        by_cases he2 : e2 < 0 ∨ au_sbend m2.sb < 0
        · simp [he2] at h
        · simp only [he2, if_false] at h
          have he2a : ¬ e2 < 0 := fun x => he2 (Or.inl x)
          have he2b : ¬ au_sbend m2.sb < 0 := fun x => he2 (Or.inr x)
          simp only [he2a, he2b, if_false]
          cases h3 : xino_loop c opts 0
              (if au_opt_test m1.sb.si_mntflags AuOpt_XINO then
                { m2 with sb := { m2.sb with
                    si_mntflags := au_opt_set m2.sb.si_mntflags AuOpt_XINO } }
              else m2) .null with
          | none => simp [h3] at h
          | some r3 =>
            obtain ⟨e3, m3, ox3⟩ := r3
            simp only [h3] at h ⊢
            by_cases he3 : e3 ≠ 0 ∨ (au_opts_verify c m3).1 ≠ 0
            · simp [he3] at h
            · simp only [he3, if_false, Option.some.injEq, Prod.mk.injEq] at h
              obtain ⟨rfl, rfl, rfl⟩ := h
              have he3a : ¬ e3 ≠ 0 := fun x => he3 (Or.inl x)
              have he3b : ¬ (au_opts_verify c m3).1 ≠ 0 := fun x => he3 (Or.inr x)
              simp only [he3a, he3b, if_false]

/-- The pointer `opt_xino` after a record was applied in the xino pass without
error: it is NULL only if it was NULL and the record is neither an xino option
nor a noxino option. -/
theorem au_opt_xino_apply_null (c : Collab) (m : Mount) (o : au_opt) (ox : OptXino)
    (hwf : o.type = Opt_xino → ∃ x, o.u = .xino x)
    (h0 : (au_opt_xino_apply c m o ox).1 = 0) :
    (au_opt_xino_apply c m o ox).2.2 = .null
      ↔ ox = .null ∧ o.type ≠ Opt_xino ∧ o.type ≠ Opt_noxino := by
  by_cases h1 : o.type = Opt_xino
  · obtain ⟨x, hx⟩ := hwf h1
    simp only [au_opt_xino_apply, h1, hx, if_true] at h0 ⊢
    by_cases hs : (au_xino_set c m x.file).1 = 0
    · cases hh : xino_home (au_xino_brid_set (au_xino_set c m x.file).2 (-1)).sb.branches
          x.file.d_parent <;> simp [hs, hh]
    · simp [hs] at h0
  · by_cases h2 : o.type = Opt_noxino
    · simp [au_opt_xino_apply, h2]
    · simp [au_opt_xino_apply, h1, h2]

/-- The pointer `opt_xino` after an xino pass without error: it is NULL only if
it was NULL and the records hold neither an xino option nor a noxino option. -/
theorem xino_loop_null (c : Collab) :
    ∀ (arr : List au_opt) (m m3 : Mount) (ox ox3 : OptXino),
      (∀ o ∈ records arr, o.type = Opt_xino → ∃ x, o.u = .xino x) →
      xino_loop c arr 0 m ox = some (0, m3, ox3) →
      (ox3 = .null ↔ ox = .null ∧ no_xino_option (records arr))
  | [], m, m3, ox, ox3, _, h => by simp [xino_loop] at h
  | o :: rest, m, m3, ox, ox3, hwf, h => by
    by_cases ht : o.type = Opt_tail
    · simp only [xino_loop, ht, ne_eq, not_true_eq_false, if_false, if_true,
        Option.some.injEq, Prod.mk.injEq, true_and] at h
      obtain ⟨_, rfl⟩ := h
      simp [records, ht, no_xino_option]
    · simp only [xino_loop, ht, ne_eq, not_true_eq_false, if_false] at h
      simp only [records, ht, if_false] at hwf ⊢
      have h0 : (au_opt_xino_apply c m o ox).1 = 0 := by
        by_contra hne
        cases rest <;> simp [xino_loop, hne] at h <;> (rw [h] at hne; exact hne rfl)
      rw [h0] at h
      have ih := xino_loop_null c rest _ m3 _ ox3 (fun o1 ho1 => hwf o1 (by simp [ho1])) h
      rw [ih, au_opt_xino_apply_null c m o ox (hwf o (by simp)) h0]
      simp only [no_xino_option, List.mem_cons, forall_eq_or_imp]
      tauto

/-- The xino pass behind which `four_passes` succeeded. -/
theorem four_passes_xino (c : Collab) (m : Mount) (opts : List au_opt)
    (tmp : Nat) (ox : OptXino) (m4 : Mount)
    (h : four_passes c m opts = some (tmp, ox, m4)) :
    ∃ mx m3, xino_loop c opts 0 mx .null = some (0, m3, ox) := by
  unfold four_passes at h
  cases h1 : pass_loop (au_opt_simple c) opts 0 m with
  | none => simp [h1] at h
  | some r1 =>
    obtain ⟨e1, m1⟩ := r1
    simp only [h1] at h
    by_cases he1 : e1 < 0
    · simp [he1] at h
    · simp only [he1, if_false] at h
      cases h2 : pass_loop (au_opt_br c) opts 0
          { m1 with sb := { m1.sb with
              si_mntflags := au_opt_clr m1.sb.si_mntflags AuOpt_XINO } } with
      | none => simp [h2] at h
      | some r2 =>
        obtain ⟨e2, m2⟩ := r2
        simp only [h2] at h
        by_cases he2 : e2 < 0 ∨ au_sbend m2.sb < 0
        · simp [he2] at h
        · simp only [he2, if_false] at h
          cases h3 : xino_loop c opts 0
              (if au_opt_test m1.sb.si_mntflags AuOpt_XINO then
                { m2 with sb := { m2.sb with
                    si_mntflags := au_opt_set m2.sb.si_mntflags AuOpt_XINO } }
              else m2) .null with
          | none => simp [h3] at h
          | some r3 =>
            obtain ⟨e3, m3, ox3⟩ := r3
            simp only [h3] at h
            by_cases he3 : e3 ≠ 0 ∨ (au_opts_verify c m3).1 ≠ 0
            · simp [he3] at h
            · simp only [he3, if_false, Option.some.injEq, Prod.mk.injEq] at h
              obtain ⟨_, rfl, _⟩ := h
              have he3a : e3 = 0 := by
                by_contra x; exact he3 (Or.inl x)
              subst he3a
              exact ⟨_, m3, h3⟩

/-- The default xino file on examples: it is opened and bound when no xino
option is given; its reference is released as well when `au_xino_set` fails;
it is not opened when AuOpt_XINO is clear, nor behind a noxino option. -/
theorem default_xino_examples :
    [(au_opts_mount (demo_collab [] [] 7) (fresh_mount 0 AuOpt_XINO)
          [add_rec 0 (cs "/a") AuBrPerm_RW 1 0, ⟨Opt_tail, .junk⟩]).map
        (fun r => (r.1, r.2.sb.xino, r.2.refs)),
      (au_opts_mount (demo_collab [] [] 100) (fresh_mount 0 AuOpt_XINO)
          [add_rec 0 (cs "/a") AuBrPerm_RW 1 0, ⟨Opt_tail, .junk⟩]).map
        (fun r => (r.1, r.2.sb.xino, r.2.refs)),
      (au_opts_mount (demo_collab [] [] 7) (fresh_mount 0 0)
          [add_rec 0 (cs "/a") AuBrPerm_RW 1 0, ⟨Opt_tail, .junk⟩]).map
        (fun r => (r.1, r.2.sb.xino, r.2.refs)),
      (au_opts_mount (demo_collab [] [] 7) (fresh_mount 0 AuOpt_XINO)
          [add_rec 0 (cs "/a") AuBrPerm_RW 1 0, ⟨Opt_noxino, .junk⟩, ⟨Opt_tail, .junk⟩]).map
        (fun r => (r.1, r.2.sb.xino, r.2.refs))]
      = [some (0, some ⟨100, false, 0⟩, ⟨[.file 0], [.file 0]⟩),
          some (-5, none, ⟨[.file 0], [.file 0]⟩),
          some (0, none, Refs.none), some (0, none, Refs.none)] := by
  decide

/-! ## The verification of the branches -/

/-- The body of the loop of `au_opts_verify` frees the side state of the
branch exactly when the branch is not writable, the side state is allocated
and not empty, and `au_wh_init` succeeds. -/
theorem verify_branch_kfree (c : Collab) (do_plink : Bool) (bindex i : Nat) (br : au_branch) :
    Event.kfree_wbr i ∈ (verify_branch c do_plink bindex br).2.2
      ↔ i = bindex ∧ au_br_writable br.br_perm = false ∧
        ∃ w, br.br_wbr = some w ∧ (w.wbr_whbase || w.wbr_plink || w.wbr_orph) = true ∧
          (c.wh_init bindex br).1 = none := by
  obtain ⟨id, perm, wbr, root⟩ := br
  cases hw : au_br_writable perm <;> cases hl : au_br_wh_linkable perm <;>
    cases wbr with
    | none =>
      cases hi : (c.wh_init bindex ⟨id, perm, none, root⟩).1 <;>
        simp [verify_branch, verify_flags, hw, hl, hi]
    | some w =>
      obtain ⟨b1, b2, b3⟩ := w
      cases b1 <;> cases b2 <;> cases b3 <;> cases do_plink <;>
        cases hi : (c.wh_init bindex ⟨id, perm, some ⟨_, _, _⟩, root⟩).1 <;>
        simp [verify_branch, verify_flags, hw, hl, hi]

/-- The loop of `au_opts_verify` frees the side state of a branch only when the
branch is not writable, the side state is allocated and not empty, and
`au_wh_init` succeeded on the branch. -/
theorem verify_loop_kfree (c : Collab) (do_plink : Bool) (i : Nat) :
    ∀ (brs : List au_branch) (start : Nat),
      Event.kfree_wbr i ∈ (verify_loop c do_plink brs start).2.2 →
      start ≤ i ∧ ∃ br w, brs[i - start]? = some br ∧ au_br_writable br.br_perm = false ∧
        br.br_wbr = some w ∧ (w.wbr_whbase || w.wbr_plink || w.wbr_orph) = true ∧
        (c.wh_init i br).1 = none
  | [], _, h => by simp [verify_loop] at h
  | br :: rest, start, h => by
    have hk := verify_branch_kfree c do_plink start i br
    rcases hvb : verify_branch c do_plink start br with ⟨err, br1, ev⟩
    rw [hvb] at hk
    simp only [verify_loop, hvb] at h
    have hhere : Event.kfree_wbr i ∈ ev →
        start ≤ i ∧ ∃ br0 w, (br :: rest)[i - start]? = some br0 ∧
          au_br_writable br0.br_perm = false ∧ br0.br_wbr = some w ∧
          (w.wbr_whbase || w.wbr_plink || w.wbr_orph) = true ∧
          (c.wh_init i br0).1 = none := by
      intro hev
      obtain ⟨rfl, hw, w, hwbr, hne, hinit⟩ := hk.mp hev
      exact ⟨le_refl _, br, w, by simp, hw, hwbr, hne, hinit⟩
    by_cases he : err ≠ 0
    · rw [if_pos he] at h
      exact hhere h
    · rw [if_neg he] at h
      have ih := verify_loop_kfree c do_plink i rest (start + 1)
      simp only [List.mem_append] at h
      rcases h with h | h
      · exact hhere h
      · obtain ⟨hle, br0, w, hget, hrest⟩ := ih h
        refine ⟨by omega, br0, w, ?_, hrest⟩
        have e : i - start = (i - (start + 1)) + 1 := by omega
        rw [e, List.getElem?_cons_succ]
        exact hget

/-- C18 (amended): `au_opts_verify` frees the side state of the branch at an
index only when that branch is not writable, its side state is allocated and
holds a whiteout base, a pseudo-link reference or an orphan marker, and
`au_wh_init` succeeded on the branch; so the side state of a writable branch is
never freed, and nothing is freed when `au_wh_init` fails. -/
theorem wbr_freed_only_after_init (c : Collab) (m : Mount) (i : Nat)
    (hbefore : Event.kfree_wbr i ∉ m.log)
    (hfreed : Event.kfree_wbr i ∈ (au_opts_verify c m).2.log) :
    ∃ br w, m.sb.branches[i]? = some br ∧ au_br_writable br.br_perm = false ∧
      br.br_wbr = some w ∧ (w.wbr_whbase || w.wbr_plink || w.wbr_orph) = true ∧
      (c.wh_init i br).1 = none := by
  rcases hvl : verify_loop c (au_opt_test m.sb.si_mntflags AuOpt_PLINK) m.sb.branches 0
    with ⟨err, brs, ev⟩
  have hl := verify_loop_kfree c (au_opt_test m.sb.si_mntflags AuOpt_PLINK) i m.sb.branches 0
  rw [hvl] at hl
  simp only [au_opts_verify, hvl, List.mem_append] at hfreed
  rcases hfreed with h | h
  · exact absurd h hbefore
  · simpa using (hl h).2

/-- C18 (amended) at a read-only branch whose side state holds a whiteout base,
on a mount with pseudo-links enabled: the side state is freed. -/
theorem wbr_freed_only_after_init_witness :
    (Event.kfree_wbr 0 ∉ (mount_of 0 AuOpt_PLINK
        [⟨0, AuBrPerm_RO, some ⟨true, false, false⟩, 1⟩]).log ∧
      Event.kfree_wbr 0 ∈ (au_opts_verify (demo_collab [] [] 7) (mount_of 0 AuOpt_PLINK
        [⟨0, AuBrPerm_RO, some ⟨true, false, false⟩, 1⟩])).2.log) ∧
    ∃ br w, (mount_of 0 AuOpt_PLINK
        [⟨0, AuBrPerm_RO, some ⟨true, false, false⟩, 1⟩]).sb.branches[0]? = some br ∧
      au_br_writable br.br_perm = false ∧ br.br_wbr = some w ∧
      (w.wbr_whbase || w.wbr_plink || w.wbr_orph) = true ∧
      ((demo_collab [] [] 7).wh_init 0 br).1 = none :=
  ⟨by decide,
   wbr_freed_only_after_init (demo_collab [] [] 7)
     (mount_of 0 AuOpt_PLINK [⟨0, AuBrPerm_RO, some ⟨true, false, false⟩, 1⟩]) 0
     (by decide) (by decide)⟩

/-- C18 (counterexample): the side state of a read-only branch that holds a
whiteout base is freed, on a mount with pseudo-links enabled, although it is
not empty; and the side state of a read-only branch that is entirely empty, on
a mount with pseudo-links disabled, is skipped and not freed. -/
theorem wbr_freed_though_populated :
    ((au_opts_verify (demo_collab [] [] 7) (mount_of 0 AuOpt_PLINK
          [⟨0, AuBrPerm_RO, some ⟨true, false, false⟩, 1⟩])).1,
      (au_opts_verify (demo_collab [] [] 7) (mount_of 0 AuOpt_PLINK
          [⟨0, AuBrPerm_RO, some ⟨true, false, false⟩, 1⟩])).2.sb.branches.map
        (fun b => b.br_wbr),
      (au_opts_verify (demo_collab [] [] 7) (mount_of 0 AuOpt_PLINK
          [⟨0, AuBrPerm_RO, some ⟨true, false, false⟩, 1⟩])).2.log)
      = (0, [none], [.wh_init 0, .kfree_wbr 0]) ∧
    ((au_opts_verify (demo_collab [] [] 7) (mount_of 0 0
          [⟨0, AuBrPerm_RO, some ⟨false, false, false⟩, 1⟩])).1,
      (au_opts_verify (demo_collab [] [] 7) (mount_of 0 0
          [⟨0, AuBrPerm_RO, some ⟨false, false, false⟩, 1⟩])).2.sb.branches.map
        (fun b => b.br_wbr),
      (au_opts_verify (demo_collab [] [] 7) (mount_of 0 0
          [⟨0, AuBrPerm_RO, some ⟨false, false, false⟩, 1⟩])).2.log)
      = (0, [some ⟨false, false, false⟩], []) := by
  decide

/-! ## The initialisation of writable branches -/

/-- The body of the loop of `au_opts_verify` on a writable branch with a side
state: `au_wh_init` is called exactly when the branch needs it, the side state
is never freed, and a branch that does not need it is left as it is. -/
theorem verify_branch_writable (c : Collab) (do_plink : Bool) (bindex : Nat) (br : au_branch)
    (w : au_wbr) (hw : au_br_writable br.br_perm = true) (hwbr : br.br_wbr = some w) :
    (needs_wh_init do_plink br w →
      (verify_branch c do_plink bindex br).2.2 = [.wh_init bindex]) ∧
    (¬ needs_wh_init do_plink br w → verify_branch c do_plink bindex br = (0, br, [])) ∧
    (verify_flags do_plink br).1 = !decide (needs_wh_init do_plink br w) := by
  obtain ⟨id, perm, wbr, root⟩ := br
  simp only at hw hwbr
  subst hwbr
  obtain ⟨b1, b2, b3⟩ := w
  cases hl : au_br_wh_linkable perm <;> cases b1 <;> cases b2 <;> cases do_plink <;>
    simp [verify_branch, verify_flags, needs_wh_init, hw, hl] <;>
    split <;> rfl

/-- The calls of `au_wh_init` in the loop of `au_opts_verify` are for indices of
the branches the loop runs over. -/
theorem verify_loop_wh_init_range (c : Collab) (do_plink : Bool) (j : Nat) :
    ∀ (l : List au_branch) (s : Nat), Event.wh_init j ∈ (verify_loop c do_plink l s).2.2 →
      s ≤ j ∧ j < s + l.length
  | [], _, h => by simp [verify_loop] at h
  | br :: rest, s, h => by
    have hb : Event.wh_init j ∈ (verify_branch c do_plink s br).2.2 → j = s := by
      obtain ⟨id, perm, wbr, root⟩ := br
      cases hs : (verify_flags do_plink ⟨id, perm, wbr, root⟩).1 <;>
        cases hf : (verify_flags do_plink ⟨id, perm, wbr, root⟩).2 <;>
        cases hi : (c.wh_init s ⟨id, perm, wbr, root⟩).1 <;>
        simp [verify_branch, hs, hf, hi]
    rcases hvb : verify_branch c do_plink s br with ⟨err, br1, ev⟩
    rw [hvb] at hb
    simp only [verify_loop, hvb] at h
    simp only [List.length_cons]
    by_cases he : err ≠ 0
    · rw [if_pos he] at h
      have := hb h
      omega
    · rw [if_neg he] at h
      simp only [List.mem_append] at h
      rcases h with h | h
      · have := hb h
        omega
      · have := verify_loop_wh_init_range c do_plink j rest (s + 1) h
        omega

theorem verify_loop_length (c : Collab) (do_plink : Bool) :
    ∀ (l : List au_branch) (s : Nat), (verify_loop c do_plink l s).2.1.length = l.length
  | [], _ => rfl
  | br :: rest, s => by
    rcases hvb : verify_branch c do_plink s br with ⟨err, br1, ev⟩
    simp only [verify_loop, hvb]
    by_cases he : err ≠ 0
    · rw [if_pos he]; simp
    · rw [if_neg he]; simp [verify_loop_length c do_plink rest (s + 1)]

/-- The loop of `au_opts_verify` over a list in two parts, when the first part
is passed without error. -/
theorem verify_loop_append (c : Collab) (do_plink : Bool) (l : List au_branch) :
    ∀ (pre : List au_branch) (s : Nat), (verify_loop c do_plink pre s).1 = 0 →
      verify_loop c do_plink (pre ++ l) s
        = ((verify_loop c do_plink l (s + pre.length)).1,
            (verify_loop c do_plink pre s).2.1 ++ (verify_loop c do_plink l (s + pre.length)).2.1,
            (verify_loop c do_plink pre s).2.2 ++ (verify_loop c do_plink l (s + pre.length)).2.2)
  | [], s, _ => by simp [verify_loop]
  | br :: rest, s, h => by
    rcases hvb : verify_branch c do_plink s br with ⟨err, br1, ev⟩
    simp only [verify_loop, hvb, List.cons_append] at h ⊢
    by_cases he : err ≠ 0
    · rw [if_pos he] at h
      exact absurd h he
    · rw [if_neg he] at h
      simp only at h
      have ih := verify_loop_append c do_plink l rest (s + 1) h
      have e : s + 1 + rest.length = s + (rest.length + 1) := by omega
      rw [e] at ih
      have e2 : rest.append l = rest ++ l := rfl
      rw [if_neg he, if_neg he, e2, ih]
      simp

/-- C20: for a writable branch with a side state that the loop of
`au_opts_verify` reaches (`au_wh_init` failed on no branch before it),
`au_wh_init` is called for the branch if and only if the presence of its
whiteout base disagrees with its being whiteout-linkable or the presence of its
pseudo-link reference disagrees with the pseudo-link flag of the mount;
otherwise the branch is skipped and left as it is. -/
theorem wh_init_iff_disagrees (c : Collab) (m : Mount) (pre post : List au_branch)
    (br : au_branch) (w : au_wbr) (hbr : m.sb.branches = pre ++ br :: post)
    (hw : au_br_writable br.br_perm = true) (hwbr : br.br_wbr = some w)
    (hreach : (verify_loop c (au_opt_test m.sb.si_mntflags AuOpt_PLINK) pre 0).1 = 0)
    (hlog : Event.wh_init pre.length ∉ m.log) :
    (Event.wh_init pre.length ∈ (au_opts_verify c m).2.log
      ↔ needs_wh_init (au_opt_test m.sb.si_mntflags AuOpt_PLINK) br w) ∧
    (¬ needs_wh_init (au_opt_test m.sb.si_mntflags AuOpt_PLINK) br w →
      (au_opts_verify c m).2.sb.branches[pre.length]? = some br) ∧
    (verify_flags (au_opt_test m.sb.si_mntflags AuOpt_PLINK) br).1
      = !decide (needs_wh_init (au_opt_test m.sb.si_mntflags AuOpt_PLINK) br w) := by
  generalize hdp : au_opt_test m.sb.si_mntflags AuOpt_PLINK = dp at *
  obtain ⟨hv1, hv2, hv3⟩ := verify_branch_writable c dp pre.length br w hw hwbr
  have hlen := verify_loop_length c dp pre 0
  have hpre : Event.wh_init pre.length ∉ (verify_loop c dp pre 0).2.2 := by
    intro h
    have := verify_loop_wh_init_range c dp pre.length pre 0 h
    omega
  have hpost : Event.wh_init pre.length ∉ (verify_loop c dp post (pre.length + 1)).2.2 := by
    intro h
    have := verify_loop_wh_init_range c dp pre.length post (pre.length + 1) h
    omega
  have hall : au_opts_verify c m
      = ((verify_loop c dp (br :: post) pre.length).1,
          { m with sb := { m.sb with branches := (verify_loop c dp pre 0).2.1
                ++ (verify_loop c dp (br :: post) pre.length).2.1 },
                   log := m.log ++ ((verify_loop c dp pre 0).2.2
                ++ (verify_loop c dp (br :: post) pre.length).2.2) }) := by
    simp only [au_opts_verify, hdp, hbr]
    rw [verify_loop_append c dp (br :: post) pre 0 hreach]
    simp
  rw [hall]
  refine ⟨?_, ?_, hv3⟩
  · by_cases hn : needs_wh_init dp br w
    · have hev := hv1 hn
      rcases hb : verify_branch c dp pre.length br with ⟨err, br1, ev⟩
      rw [hb] at hev
      simp only at hev
      subst hev
      simp only [verify_loop, hb, hn, iff_true]
      by_cases he : err ≠ 0
      · rw [if_pos he]; simp
      · rw [if_neg he]; simp
    · have hb := hv2 hn
      simp only [verify_loop, hb, hn, iff_false, ne_eq, not_true_eq_false, if_false,
        List.nil_append, List.mem_append, not_or]
      exact ⟨hlog, hpre, hpost⟩
  · intro hn
    have hb := hv2 hn
    simp only [verify_loop, hb, ne_eq, not_true_eq_false, if_false]
    rw [List.getElem?_append_right (by omega)]
    simp [hlen]

/-- C20 at two writable branches on a mount with pseudo-links enabled: the
first has its whiteout base and its pseudo-link reference and is skipped, the
second lacks the base and is initialised. -/
theorem wh_init_iff_disagrees_witness :
    ((mount_of 0 AuOpt_PLINK [⟨0, AuBrPerm_RW, some ⟨true, true, false⟩, 1⟩,
          ⟨1, AuBrPerm_RW, some ⟨false, true, false⟩, 2⟩]).sb.branches
        = [⟨0, AuBrPerm_RW, some ⟨true, true, false⟩, 1⟩]
          ++ ⟨1, AuBrPerm_RW, some ⟨false, true, false⟩, 2⟩ :: [] ∧
      au_br_writable (au_branch.mk 1 AuBrPerm_RW (some ⟨false, true, false⟩) 2).br_perm = true ∧
      (verify_loop (demo_collab [] [] 7)
        (au_opt_test (mount_of 0 AuOpt_PLINK [⟨0, AuBrPerm_RW, some ⟨true, true, false⟩, 1⟩,
          ⟨1, AuBrPerm_RW, some ⟨false, true, false⟩, 2⟩]).sb.si_mntflags AuOpt_PLINK)
        [⟨0, AuBrPerm_RW, some ⟨true, true, false⟩, 1⟩] 0).1 = 0 ∧
      needs_wh_init true (au_branch.mk 1 AuBrPerm_RW (some ⟨false, true, false⟩) 2)
        ⟨false, true, false⟩) ∧
    (Event.wh_init [au_branch.mk 0 AuBrPerm_RW (some ⟨true, true, false⟩) 1].length
        ∈ (au_opts_verify (demo_collab [] [] 7)
          (mount_of 0 AuOpt_PLINK [⟨0, AuBrPerm_RW, some ⟨true, true, false⟩, 1⟩,
            ⟨1, AuBrPerm_RW, some ⟨false, true, false⟩, 2⟩])).2.log
      ↔ needs_wh_init
          (au_opt_test (mount_of 0 AuOpt_PLINK
            [⟨0, AuBrPerm_RW, some ⟨true, true, false⟩, 1⟩,
              ⟨1, AuBrPerm_RW, some ⟨false, true, false⟩, 2⟩]).sb.si_mntflags AuOpt_PLINK)
          (au_branch.mk 1 AuBrPerm_RW (some ⟨false, true, false⟩) 2) ⟨false, true, false⟩) :=
  ⟨by decide,
   (wh_init_iff_disagrees (demo_collab [] [] 7)
      (mount_of 0 AuOpt_PLINK [⟨0, AuBrPerm_RW, some ⟨true, true, false⟩, 1⟩,
        ⟨1, AuBrPerm_RW, some ⟨false, true, false⟩, 2⟩])
      [⟨0, AuBrPerm_RW, some ⟨true, true, false⟩, 1⟩] []
      ⟨1, AuBrPerm_RW, some ⟨false, true, false⟩, 2⟩ ⟨false, true, false⟩
      rfl (by decide) rfl (by decide) (by decide)).1⟩

/-- The verification on examples, with pseudo-links enabled: of four writable
branches only those are initialised whose whiteout base or pseudo-link
reference disagrees; and behind a branch on which `au_wh_init` fails the loop
ends, so a later branch is not initialised although it needs it. -/
theorem wh_init_examples :
    (au_opts_verify (demo_collab [] [] 7) (mount_of 0 AuOpt_PLINK
        [⟨0, AuBrPerm_RW, some ⟨true, true, false⟩, 1⟩,
          ⟨1, AuBrPerm_RW, some ⟨false, true, false⟩, 2⟩,
          ⟨2, AuBrPerm_RW ||| AuBrWAttr_NoLinkWH, some ⟨false, true, false⟩, 3⟩,
          ⟨3, AuBrPerm_RW ||| AuBrWAttr_NoLinkWH, some ⟨true, true, false⟩, 4⟩,
          ⟨4, AuBrPerm_RW, some ⟨true, false, false⟩, 5⟩])).2.log
      = [.wh_init 1, .wh_init 3, .wh_init 4] ∧
    ((au_opts_verify (demo_collab [] [0] 7) (mount_of 0 AuOpt_PLINK
        [⟨0, AuBrPerm_RW, some ⟨false, true, false⟩, 1⟩,
          ⟨1, AuBrPerm_RW, some ⟨false, true, false⟩, 2⟩])).1,
      (au_opts_verify (demo_collab [] [0] 7) (mount_of 0 AuOpt_PLINK
        [⟨0, AuBrPerm_RW, some ⟨false, true, false⟩, 1⟩,
          ⟨1, AuBrPerm_RW, some ⟨false, true, false⟩, 2⟩])).2.log)
      = (-5, [.wh_init 0]) := by
  decide

/-! ## A mount without branches -/

/-- The flag AuOpt_XINO is clear after `au_opt_clr`. -/
theorem au_opt_test_clr_xino (flags : Nat) :
    au_opt_test (au_opt_clr flags AuOpt_XINO) AuOpt_XINO = false := by
  simp [au_opt_test, au_opt_clr, andnot, AuOpt_XINO]
  omega

/-- A pass that ends without error has met a tail marker. -/
theorem pass_loop_met_tail (f : Mount → au_opt → Int × Mount) :
    ∀ (arr : List au_opt) (err : Int) (m : Mount) (e : Int) (m1 : Mount),
      pass_loop f arr err m = some (e, m1) → 0 ≤ e → ∃ o ∈ arr, o.type = Opt_tail
  | [], err, m, e, m1, h, he => by
    by_cases hlt : err < 0
    · simp only [pass_loop, hlt, if_true, Option.some.injEq, Prod.mk.injEq] at h
      omega
    · simp [pass_loop, hlt] at h
  | o :: rest, err, m, e, m1, h, he => by
    by_cases hlt : err < 0
    · simp only [pass_loop, hlt, if_true, Option.some.injEq, Prod.mk.injEq] at h
      omega
    · by_cases ht : o.type = Opt_tail
      · exact ⟨o, by simp, ht⟩
      · simp only [pass_loop, hlt, ht, if_false] at h
        obtain ⟨o1, ho1, h1⟩ := pass_loop_met_tail f rest _ _ e m1 h he
        exact ⟨o1, by simp [ho1], h1⟩

/-- The branch pass over records without an added branch, in an array with a
tail marker: nothing is changed and no error is returned. -/
theorem br_pass_no_adds (c : Collab) :
    ∀ (arr : List au_opt) (err : Int) (m : Mount), 0 ≤ err →
      adds_of (records arr) = [] → (∃ o ∈ arr, o.type = Opt_tail) →
      ∃ e, 0 ≤ e ∧ pass_loop (au_opt_br c) arr err m = some (e, m)
  | [], _, _, _, _, ht => by
    obtain ⟨o, ho, _⟩ := ht
    simp at ho
  | o :: rest, err, m, herr, hadds, htail => by
    have hlt : ¬ err < 0 := by omega
    by_cases ht : o.type = Opt_tail
    · exact ⟨err, herr, by simp [pass_loop, hlt, ht]⟩
    · simp only [records, ht, if_false] at hadds
      have htail1 : ∃ o1 ∈ rest, o1.type = Opt_tail := by
        obtain ⟨o1, ho1, h1⟩ := htail
        simp only [List.mem_cons] at ho1
        rcases ho1 with rfl | ho1
        · exact absurd h1 ht
        · exact ⟨o1, ho1, h1⟩
      have hstep : au_opt_br c m o = (0, m) ∧ adds_of (records rest) = [] := by
        by_cases hadd : o.type = Opt_add
        · cases hu : o.u <;> simp [adds_of, hadd, hu] at hadds <;>
            simp [au_opt_br, hadd, hu, hadds]
        · simp only [adds_of, hadd, if_false] at hadds
          simp [au_opt_br, hadd, hadds]
      simp only [pass_loop, hlt, ht, if_false, hstep.1]
      exact br_pass_no_adds c rest 0 m (le_refl _) hstep.2 htail1

/-- The function `au_opt_wbr_create` leaves the branches as they are. -/
theorem au_opt_wbr_create_apply_branches (c : Collab) (m : Mount) (cr : au_opt_wbr_create) :
    (au_opt_wbr_create_apply c m cr).2.sb.branches = m.sb.branches := by
  unfold au_opt_wbr_create_apply
  cases c.wbr_create_fin m.sb.si_wbr_create m.sb <;> cases c.wbr_create_init cr.wbr_create <;>
    simp only [Mount.logged] <;> split_ifs <;> rfl

/-- The function `au_opt_simple` leaves the branches as they are. -/
theorem au_opt_simple_branches (c : Collab) (m : Mount) (o : au_opt) :
    (au_opt_simple c m o).2.sb.branches = m.sb.branches := by
  obtain ⟨typ, u⟩ := o
  cases typ <;> simp only [au_opt_simple, au_opt_wbr_create_apply_branches] <;>
    first
    | rfl
    | (split_ifs <;> rfl)
    | (cases u <;> rfl)

/-- The simple pass leaves the branches as they are. -/
theorem simple_pass_branches (c : Collab) :
    ∀ (arr : List au_opt) (err : Int) (m : Mount) (e : Int) (m1 : Mount),
      pass_loop (au_opt_simple c) arr err m = some (e, m1) → m1.sb.branches = m.sb.branches
  | [], err, m, e, m1, h => by
    by_cases hlt : err < 0
    · simp only [pass_loop, hlt, if_true, Option.some.injEq, Prod.mk.injEq] at h
      rw [← h.2]
    · simp [pass_loop, hlt] at h
  | o :: rest, err, m, e, m1, h => by
    by_cases hlt : err < 0
    · simp only [pass_loop, hlt, if_true, Option.some.injEq, Prod.mk.injEq] at h
      rw [← h.2]
    · by_cases ht : o.type = Opt_tail
      · simp only [pass_loop, hlt, ht, if_false, if_true, Option.some.injEq,
          Prod.mk.injEq] at h
        rw [← h.2]
      · simp only [pass_loop, hlt, ht, if_false] at h
        rw [simple_pass_branches c rest _ _ e m1 h, au_opt_simple_branches]

/-- C24: when the simple pass succeeds, no branch was there before and the
records hold no added branch, `au_opts_mount` returns -EINVAL; the state it
leaves is the state behind the simple pass with AuOpt_XINO cleared: no branch,
the flag not restored, and no call to a collaborator behind the simple pass
(no xino pass, no verification, no default xino file). -/
theorem no_branch_einval (c : Collab) (m m1 : Mount) (opts : List au_opt) (e1 : Int)
    (hsimple : pass_loop (au_opt_simple c) opts 0 m = some (e1, m1)) (he1 : 0 ≤ e1)
    (hadds : adds_of (records opts) = []) (hnone : m.sb.branches = []) :
    au_opts_mount c m opts
      = some (-EINVAL,
          { m1 with sb := { m1.sb with
              si_mntflags := au_opt_clr m1.sb.si_mntflags AuOpt_XINO } }) ∧
    au_opt_test (au_opt_clr m1.sb.si_mntflags AuOpt_XINO) AuOpt_XINO = false ∧
    m1.sb.branches = [] := by
  have hbr : m1.sb.branches = [] := by
    rw [simple_pass_branches c opts 0 m e1 m1 hsimple, hnone]
  refine ⟨?_, au_opt_test_clr_xino _, hbr⟩
  have htail := pass_loop_met_tail _ opts 0 m e1 m1 hsimple he1
  obtain ⟨e2, he2, hpass⟩ := br_pass_no_adds c opts 0
    { m1 with sb := { m1.sb with si_mntflags := au_opt_clr m1.sb.si_mntflags AuOpt_XINO } }
    (le_refl _) hadds htail
  have hlt1 : ¬ e1 < 0 := by omega
  have hlt2 : ¬ e2 < 0 := by omega
  simp only [au_opts_mount, hsimple, hlt1, if_false]
  simp only at hpass
  rw [hpass]
  simp [hlt2, au_sbend, hbr]

/-- C24 at the records of plink and rdcache=10 on a mount without branches:
-EINVAL, with the pseudo-link flag and the cache time of the simple pass in
place and AuOpt_XINO cleared. -/
theorem no_branch_einval_witness :
    (pass_loop (au_opt_simple (demo_collab [] [] 7))
        [⟨Opt_plink, .junk⟩, ⟨Opt_rdcache, .rdcache 10⟩, ⟨Opt_tail, .junk⟩] 0
        (fresh_mount 0 AuOpt_XINO)
        = some (1, ⟨{ (fresh_mount 0 AuOpt_XINO).sb with
            si_mntflags := AuOpt_XINO ||| AuOpt_PLINK, si_rdcache := 2500 }, Refs.none, []⟩) ∧
      adds_of (records [⟨Opt_plink, .junk⟩, ⟨Opt_rdcache, .rdcache 10⟩, ⟨Opt_tail, .junk⟩])
        = [] ∧
      (fresh_mount 0 AuOpt_XINO).sb.branches = []) ∧
    au_opts_mount (demo_collab [] [] 7) (fresh_mount 0 AuOpt_XINO)
        [⟨Opt_plink, .junk⟩, ⟨Opt_rdcache, .rdcache 10⟩, ⟨Opt_tail, .junk⟩]
      = some (-EINVAL,
          { (Mount.mk { (fresh_mount 0 AuOpt_XINO).sb with
              si_mntflags := AuOpt_XINO ||| AuOpt_PLINK, si_rdcache := 2500 } Refs.none [])
            with sb := { (Mount.mk { (fresh_mount 0 AuOpt_XINO).sb with
                si_mntflags := AuOpt_XINO ||| AuOpt_PLINK, si_rdcache := 2500 }
                Refs.none []).sb with
              si_mntflags := au_opt_clr (Mount.mk { (fresh_mount 0 AuOpt_XINO).sb with
                si_mntflags := AuOpt_XINO ||| AuOpt_PLINK, si_rdcache := 2500 }
                Refs.none []).sb.si_mntflags AuOpt_XINO } }) :=
  ⟨by decide,
   (no_branch_einval (demo_collab [] [] 7) (fresh_mount 0 AuOpt_XINO)
      ⟨{ (fresh_mount 0 AuOpt_XINO).sb with
          si_mntflags := AuOpt_XINO ||| AuOpt_PLINK, si_rdcache := 2500 }, Refs.none, []⟩
      [⟨Opt_plink, .junk⟩, ⟨Opt_rdcache, .rdcache 10⟩, ⟨Opt_tail, .junk⟩] 1
      (by decide) (by decide) (by decide) (by decide)).1⟩

/-- A mount without branches on examples: the option string plink,rdcache=10,
parsed and applied, fails with -EINVAL and leaves the pseudo-link flag set,
AuOpt_XINO clear and no call to a collaborator; so does an empty option
string. -/
theorem no_branch_examples :
    ((au_opts_parse x86_64 demo_env (cs "plink,rdcache=10") (fresh_opts 8 0)).bind fun p =>
      (au_opts_mount (demo_collab [] [] 7) (fresh_mount 0 AuOpt_XINO) p.opt).map
        fun r => (r.1, r.2.sb.si_mntflags, r.2.sb.si_rdcache, r.2.log))
      = some (-EINVAL, AuOpt_PLINK, 2500, []) ∧
    ((au_opts_parse x86_64 demo_env [] (fresh_opts 8 0)).bind fun p =>
      (au_opts_mount (demo_collab [] [] 7) (fresh_mount 0 AuOpt_XINO) p.opt).map
        fun r => (r.1, r.2.sb.si_mntflags, r.2.log))
      = some (-EINVAL, 0, []) := by
  decide

/-! ## The option rdcache= -/

/-- C22: the option rdcache=-5 is accepted, with a record that holds -5
seconds: the case Opt_rdcache tests `n > AUFS_RDCACHE_MAX` only.  The simple
pass then hands -5000 milliseconds, as an unsigned int, to `msecs_to_jiffies`.
The bound from above is kept: 3600 is accepted and 3601 is rejected. -/
theorem rdcache_negative_accepted :
    match_int x86_64 ⟨cs "-5", 2⟩ = .ok (-5) ∧
    (au_opts_parse x86_64 demo_env (cs "rdcache=-5") (fresh_opts 4 0)).map
        (fun p => (p.err, records p.opt))
      = some (0, [⟨Opt_rdcache, .rdcache (-5)⟩]) ∧
    (au_opts_parse i386 demo_env (cs "rdcache=-5") (fresh_opts 4 0)).map
        (fun p => (p.err, records p.opt))
      = some (0, [⟨Opt_rdcache, .rdcache (-5)⟩]) ∧
    (∀ (c : Collab) (m : Mount),
      (au_opt_simple c m ⟨Opt_rdcache, .rdcache (-5)⟩).2.sb.si_rdcache
        = c.msecs_to_jiffies 4294962296) ∧
    (au_opts_parse x86_64 demo_env (cs "rdcache=3600") (fresh_opts 4 0)).map
        (fun p => (p.err, records p.opt))
      = some (0, [⟨Opt_rdcache, .rdcache 3600⟩]) ∧
    (au_opts_parse x86_64 demo_env (cs "rdcache=3601") (fresh_opts 4 0)).map
        (fun p => (p.err, records p.opt))
      = some (-EINVAL, []) := by
  refine ⟨by decide, by decide, by decide, ?_, by decide, by decide⟩
  intro c m
  have h : to_uint (-5 * MSEC_PER_SEC) = 4294962296 := by decide
  simp only [au_opt_simple, h]

/-- The option rdcache=N, for the number N that `match_int` reads from the
text, is accepted with a record that holds N exactly when N is at most
AUFS_RDCACHE_MAX, negative numbers included, and rejected with -EINVAL when
not. -/
theorem rdcache_accepted_iff_at_most_max (k : Kconfig) (env : Env) (opts : au_opts) (t : CStr)
    (N : Int) (ht : t ≠ []) (hlen : strtol_len t = t.length) (hcomma : ',' ∉ t)
    (hN : match_int k ⟨t, t.length⟩ = .ok N)
    (hmem : env.kmalloc = true) (hopts : opts.opt.length = opts.max_opt)
    (hcap : 2 ≤ opts.max_opt) :
    (N ≤ AUFS_RDCACHE_MAX →
      option_accepted k env opts (cs "rdcache=" ++ t) ⟨Opt_rdcache, .rdcache N⟩) ∧
    (AUFS_RDCACHE_MAX < N → option_rejected k env opts (cs "rdcache=" ++ t)) := by
  have hm := (match_token_number k t ht hlen).1
  have hs : cs "rdcache=" ++ t ≠ [] := by simp [cs]
  have hc : ',' ∉ cs "rdcache=" ++ t := by simp [cs, hcomma]
  have hcap1 : opts.opt ≠ [] := by
    intro h; rw [h] at hopts; simp at hopts; omega
  constructor
  · intro h
    refine option_accepted_of_case k env _ opts _ _ _ _ hm ?_ (Or.inl rfl) hs hc hmem hopts hcap
    intro v
    simp only [parse_case, arg, List.getD_cons_zero, hN]
    rw [if_neg (by omega)]
  · intro h
    refine option_rejected_of_case k env _ opts _ _ hm ?_ hs hc hmem hcap1
    intro v
    simp only [parse_case, arg, List.getD_cons_zero, hN]
    rw [if_pos (by omega)]

/-! ## Rendering and parsing back -/

/-- The legal branch permissions are ro, ro with wh, rw, and rw with nolwh. -/
theorem legal_perms_eq :
    legal_perms = [AuBrPerm_RO, AuBrPerm_RO ||| AuBrRAttr_WH, AuBrPerm_RW,
      AuBrPerm_RW ||| AuBrWAttr_NoLinkWH] := by
  decide

/-- C23: for a legal branch permission v, `au_optstr_br_perm` renders a string
from which `br_perm_val` reads v again; and for a value of the create policies
and a value of the copy-up policies `au_parser_pattern` finds an entry of the
table, so it does not reach its BUG(). -/
theorem perm_value_roundtrip (v : Nat) (pol cpup : Int) (hv : v ∈ legal_perms)
    (hpol : pol ∈ wbr_create_values) (hcpup : cpup ∈ wbr_copyup_values) :
    (∃ s, au_optstr_br_perm v = some s ∧ br_perm_val s = v) ∧
    (∃ p, au_parser_pattern pol au_wbr_create_policy = some p ∧
      (pol, p) ∈ au_wbr_create_policy) ∧
    (∃ p, au_parser_pattern cpup au_wbr_copyup_policy = some p ∧
      (cpup, p) ∈ au_wbr_copyup_policy) := by
  have h1 : ∀ x ∈ legal_perms, (au_optstr_br_perm x).map br_perm_val = some x := by decide
  have h2 : ∀ x ∈ wbr_create_values,
      ((au_parser_pattern x au_wbr_create_policy).map
        fun p => decide ((x, p) ∈ au_wbr_create_policy)) = some true := by decide
  have h3 : ∀ x ∈ wbr_copyup_values,
      ((au_parser_pattern x au_wbr_copyup_policy).map
        fun p => decide ((x, p) ∈ au_wbr_copyup_policy)) = some true := by decide
  refine ⟨?_, ?_, ?_⟩
  · have := h1 v hv
    cases hs : au_optstr_br_perm v with
    | none => simp [hs] at this
    | some s =>
      simp only [hs, Option.map_some', Option.some.injEq] at this
      exact ⟨s, rfl, this⟩
  · have := h2 pol hpol
    cases hs : au_parser_pattern pol au_wbr_create_policy with
    | none => simp [hs] at this
    | some p =>
      simp only [hs, Option.map_some', Option.some.injEq, decide_eq_true_eq] at this
      exact ⟨p, rfl, this⟩
  · have := h3 cpup hcpup
    cases hs : au_parser_pattern cpup au_wbr_copyup_policy with
    | none => simp [hs] at this
    | some p =>
      simp only [hs, Option.map_some', Option.some.injEq, decide_eq_true_eq] at this
      exact ⟨p, rfl, this⟩

/-- C23 at the permission rw with nolwh and the policies mfsrr with seconds and
bup. -/
theorem perm_value_roundtrip_witness :
    (AuBrPerm_RW ||| AuBrWAttr_NoLinkWH ∈ legal_perms ∧
      AuWbrCreate_MFSRRV ∈ wbr_create_values ∧ AuWbrCopyup_BUP ∈ wbr_copyup_values ∧
      au_optstr_br_perm (AuBrPerm_RW ||| AuBrWAttr_NoLinkWH) = some (cs "rw+nolwh")) ∧
    ∃ s, au_optstr_br_perm (AuBrPerm_RW ||| AuBrWAttr_NoLinkWH) = some s ∧
      br_perm_val s = AuBrPerm_RW ||| AuBrWAttr_NoLinkWH :=
  ⟨by decide,
   (perm_value_roundtrip (AuBrPerm_RW ||| AuBrWAttr_NoLinkWH) AuWbrCreate_MFSRRV
      AuWbrCopyup_BUP (by decide) (by decide) (by decide)).1⟩

/-- The renderings, evaluated: the four legal permissions, and a pattern of the
table for each policy value (the same lookup that `au_optstr_wbr_create` and
`au_optstr_wbr_copyup` make). -/
theorem rendering_examples :
    legal_perms.map au_optstr_br_perm
      = [some (cs "ro"), some (cs "ro+wh"), some (cs "rw"), some (cs "rw+nolwh")] ∧
    wbr_create_values.map au_optstr_wbr_create
      = [some (cs "tdp"), some (cs "rr"), some (cs "mfs"), some (cs "mfs:%d"),
          some (cs "mfsrr:%d"), some (cs "mfsrr:%d:%d"), some (cs "pmfs"), some (cs "pmfs:%d"),
          some (cs "pmfsrr:%d"), some (cs "pmfsrr:%d:%d")] ∧
    wbr_copyup_values.map au_optstr_wbr_copyup
      = [some (cs "tdp"), some (cs "bup"), some (cs "bu")] := by
  decide

/-! ## The tail marker after a parse -/

/-- C21: with two slots, the loop of `au_opts_parse` leaves "br=/a:/b" with two
records of added branches and no tail marker in the array, and the scans of
`dump_opts` and `au_opts_free` run off its end; with eight slots,
"br=:/a,xino=/xi" is parsed without error into an array whose first slot holds
the tail marker and whose second slot holds the xino record with its file, so
`au_opts_free` releases nothing and `au_opts_mount` sees no record; and when
the allocation of the argument block fails the array is left as it was, without
a tail marker. -/
theorem tail_marker_invariant_broken :
    ((au_opts_parse_loop x86_64 demo_env 0 2 ((cs "br=/a:/b").length + 1)
        (some (cs "br=/a:/b")) (parse_start (fresh_opts 2 0))).err,
      (au_opts_parse_loop x86_64 demo_env 0 2 ((cs "br=/a:/b").length + 1)
        (some (cs "br=/a:/b")) (parse_start (fresh_opts 2 0))).opts.map (fun o => o.type))
      = (-E2BIG, [Opt_add, Opt_add]) ∧
    au_opts_parse x86_64 demo_env (cs "br=/a:/b") (fresh_opts 2 0) = none ∧
    (au_opts_parse x86_64 demo_env (cs "br=:/a,xino=/xi") (fresh_opts 8 0)).map
        (fun p => (p.err, (p.opt.take 3).map (fun o => o.type), p.opt.getD 1 default))
      = some (0, [Opt_tail, Opt_xino, Opt_tail],
          ⟨Opt_xino, .xino ⟨cs "/xi", ⟨9, false, 0⟩⟩⟩) ∧
    (au_opts_parse x86_64 demo_env (cs "br=:/a,xino=/xi") (fresh_opts 8 0)).map
        (fun p => (records p.opt, p.refs, (au_opts_free p.opt p.refs).map (fun r => r.leaked)))
      = some ([], ⟨[.file 0], []⟩, some [.file 0]) ∧
    ((au_opts_parse x86_64 demo_env (cs "br=:/a,xino=/xi") (fresh_opts 8 0)).bind fun p =>
      (au_opts_mount (demo_collab [] [] 7) (fresh_mount 0 AuOpt_XINO) p.opt).map
        fun r => (r.1, r.2.sb.xino, r.2.log))
      = some (-EINVAL, none, []) ∧
    (au_opts_parse x86_64 { demo_env with kmalloc := false } (cs "plink")
        (fresh_opts 2 0)).map (fun p => (p.err, p.opt.map (fun o => o.type)))
      = some (-ENOMEM, [Opt_err, Opt_err]) := by
  decide

/-! ## Numbers that do not fit a long, and the home branch of the default xino file -/

end Aufs
